import Mathlib

/-! # Order model (`server/models/Order.js`)

A shallow embedding of the Mongoose order schema, its field cipher, its
pre-save hooks, its instance methods and its two aggregations, and of the
English slug hooks of `server/models/Product.js` and
`server/models/Category.js`, followed by the properties established about them.

Modelling conventions

* A JavaScript `Number` is an IEEE 754 double. Its value is kept as a rational
  (`ℚ`), and every addition and subtraction that the hooks and virtuals of the
  source perform rounds its exact result to the nearest double (`roundDouble`,
  ties to even, 53 significant bits, gradual underflow). A result beyond the
  largest double is `Infinity` in JavaScript and has no counterpart here, and
  neither has `NaN`: statements about computed totals carry the hypothesis that
  every intermediate result is a finite double (`isFiniteDouble`). Comparisons
  are exact. The sums and averages of the aggregation pipelines are computed
  by the database, not by this code, and are kept exact.
* A path that may be `undefined` in a document is an `Option`; `none` stands
  for `undefined`.
* A JavaScript string is a sequence of UTF-16 code units (`JsString`). A value
  of type `String` is a JavaScript string without lone surrogates; the document
  paths and their validators are given on `String`, the field cipher on both.
* The field cipher calls Node's `crypto` module, in a version of Node that
  still provides `crypto.createCipher` and `crypto.createDecipher`. What the
  module computes for `'aes-256-cbc'` is written out: MD5 and the key
  derivation `EVP_BytesToKey`, AES-256, CBC chaining, PKCS#7 padding and the
  `'utf8'` and `'hex'` encodings (`secretCipher`). Properties that hold for any
  cipher are stated over the interface `Cipher`.
* `Date` values are milliseconds since the epoch.
* `save` follows the documented Mongoose pipeline: the built-in validation
  hook is registered ahead of every user `pre('save')` hook, so the schema
  validators see the document as it is *before* the hooks of this file run;
  the user hooks then run in the order in which the file registers them.
  Storage-level failures (duplicate key on `orderNumber`, lost connection) are
  outside the model.
-/

namespace OrderModel

/-! ## JavaScript helpers -/

/-- A Mongoose `ObjectId`, kept as its string form. -/
abbrev ObjectId := String

/-- A JavaScript `Date`, as milliseconds since the epoch. -/
abbrev Date := Nat

/-- Rendering of a possibly undefined string inside a template literal. -/
def jsStr : Option String → String
  | some s => s
  | none => "undefined"

/-- Truthiness of a possibly undefined string: defined and not empty. -/
def truthy : Option String → Bool
  | some s => s != ""
  | none => false

/-- The expression `a || b` where `b` is a string. -/
def jsOr (a : Option String) (b : String) : String :=
  match a with
  | some s => if s != "" then s else b
  | none => b

/-- The call `s.slice(-8)`: the last eight characters, or all of `s` when it is shorter. -/
def sliceLast8 (s : String) : String :=
  String.mk (s.toList.drop (s.toList.length - 8))

/-- The call `s.padStart(3, '0')`. -/
def padStart3 (s : String) : String :=
  String.mk (List.replicate (3 - s.toList.length) '0' ++ s.toList)

/-! ## Numbers -/

/-- The rational `2 ^ k` for an integer `k`. -/
def twoPow (k : ℤ) : ℚ :=
  if 0 ≤ k then ((2 ^ k.toNat : ℕ) : ℚ) else 1 / ((2 ^ (-k).toNat : ℕ) : ℚ)

/-- The number of binary digits of `n`, computed with `fuel` halvings at most. -/
def bitLength : Nat → Nat → Nat
  | 0, _ => 0
  | fuel + 1, n => if n = 0 then 0 else bitLength fuel (n / 2) + 1

/-- The integer `e` with `2 ^ e ≤ x < 2 ^ (e + 1)`, for a positive `x`: the
difference of the bit lengths of numerator and denominator, or one less. -/
def binaryExponent (x : ℚ) : ℤ :=
  let k : ℤ := (bitLength x.num.natAbs x.num.natAbs : ℤ) - (bitLength x.den x.den : ℤ)
  if twoPow k ≤ x then k else k - 1

/-- Rounding to the nearest integer, ties to the even one. -/
def roundHalfEven (y : ℚ) : ℤ :=
  let f := Rat.floor y
  let r := y - f
  if r < 1 / 2 then f
  else if 1 / 2 < r then f + 1
  else if f % 2 = 0 then f
  else f + 1

/-- The double nearest to `x`: 53 significant bits, smallest exponent -1022
(gradual underflow below it), ties to even. Where the result is past
`maxDouble`, JavaScript has `Infinity` instead. -/
def roundDouble (x : ℚ) : ℚ :=
  if x = 0 then 0
  else
    let e := binaryExponent |x|
    let quantum := twoPow (max e (-1022) - 52)
    (roundHalfEven (x / quantum) : ℚ) * quantum

/-- The largest double, `(2 ^ 53 - 1) * 2 ^ 971`. -/
def maxDouble : ℚ := 9007199254740991 * twoPow 971

/-- Whether a rounded result is a finite double, and not `Infinity`. -/
def isFiniteDouble (x : ℚ) : Bool := decide (|x| ≤ maxDouble)

/-- The JavaScript sum `a + b` of two numbers. -/
def jsAdd (a b : ℚ) : ℚ := roundDouble (a + b)

/-- The JavaScript difference `a - b` of two numbers. -/
def jsSub (a b : ℚ) : ℚ := roundDouble (a - b)

/-- The JavaScript sum of a list of numbers, added left to right from `0`. -/
def jsSum (xs : List ℚ) : ℚ := xs.foldl jsAdd 0

/-- Whether every partial result of the JavaScript sum of a list is a finite
double. -/
def sumsFinite (xs : List ℚ) : Bool :=
  (List.range (xs.length + 1)).all (fun k => isFiniteDouble (jsSum (xs.take k)))

/-! ## Regular expressions (for the `match` validator of `customer.email`) -/

/-- Regular expressions over characters. -/
inductive Regex where
  | nothing : Regex
  | empty : Regex
  | cls (p : Char → Bool) : Regex
  | seq (r s : Regex) : Regex
  | alt (r s : Regex) : Regex
  | star (r : Regex) : Regex

namespace Regex

/-- Whether the expression accepts the empty string. -/
def nullable : Regex → Bool
  | nothing => false
  | empty => true
  | cls _ => false
  | seq r s => r.nullable && s.nullable
  | alt r s => r.nullable || s.nullable
  | star _ => true

/-- Brzozowski derivative with respect to one character. -/
def deriv (c : Char) : Regex → Regex
  | nothing => nothing
  | empty => nothing
  | cls p => if p c then empty else nothing
  | seq r s => if r.nullable then alt (seq (deriv c r) s) (deriv c s) else seq (deriv c r) s
  | alt r s => alt (deriv c r) (deriv c s)
  | star r => seq (deriv c r) (star r)

/-- Whole-string match, the meaning of `/^...$/.test(s)`. -/
def test (r : Regex) (s : String) : Bool :=
  (s.toList.foldl (fun q c => q.deriv c) r).nullable

/-- The quantifier `r+`. -/
def plus (r : Regex) : Regex := seq r (star r)

/-- The quantifier `r?`. -/
def opt (r : Regex) : Regex := alt r empty

/-- A single literal character. -/
def chr (c : Char) : Regex := cls (fun d => d == c)

end Regex

/-- The class `\w`: ASCII letters, digits and underscore. -/
def wordChar (c : Char) : Bool :=
  ('a' ≤ c && c ≤ 'z') || ('A' ≤ c && c ≤ 'Z') || ('0' ≤ c && c ≤ '9') || c == '_'

/-- The class `[.-]`. -/
def dotOrDash (c : Char) : Bool := c == '.' || c == '-'

/-- The pattern `/^\w+([.-]?\w+)*@\w+([.-]?\w+)*(\.\w{2,3})+$/` of `customer.email`. -/
def emailPattern : Regex :=
  let w := Regex.cls wordChar
  let words := Regex.seq (Regex.plus w)
    (Regex.star (Regex.seq (Regex.opt (Regex.cls dotOrDash)) (Regex.plus w)))
  let tld := Regex.seq (Regex.chr '.') (Regex.seq w (Regex.seq w (Regex.opt w)))
  Regex.seq words (Regex.seq (Regex.chr '@') (Regex.seq words (Regex.plus tld)))

/-! ## The schema -/

/-- The sub-document `customer.address`. -/
structure Address where
  street : Option String
  city : Option String
  state : Option String
  postalCode : Option String
  country : Option String
  deriving DecidableEq, Repr

/-- The sub-document `customer`; the encrypted paths hold the stored value. -/
structure Customer where
  firstName : Option String
  lastName : Option String
  email : Option String
  phone : Option String
  address : Address
  deriving DecidableEq, Repr

/-- The sub-document `items[i].productSnapshot`. -/
structure ProductSnapshot where
  nameEn : Option String
  nameFr : Option String
  nameAr : Option String
  sku : Option String
  image : Option String
  category : Option String
  deriving DecidableEq, Repr

/-- One element of `items`. The three numeric paths are `required`, so a line
item that reaches a hook has them; the type records that. -/
structure Item where
  product : Option ObjectId
  productSnapshot : ProductSnapshot
  quantity : ℚ
  unitPrice : ℚ
  totalPrice : ℚ
  currency : String
  deriving DecidableEq, Repr

/-- The sub-document `totals`. `tax`, `shipping` and `discount` carry the
default `0`; `subtotal` and `total` have no default and may be absent. -/
structure Totals where
  subtotal : Option ℚ
  tax : ℚ
  shipping : ℚ
  discount : ℚ
  total : Option ℚ
  currency : String
  deriving DecidableEq, Repr

/-- One element of `statusHistory`. -/
structure StatusEntry where
  status : Option String
  timestamp : Date
  note : Option String
  updatedBy : Option ObjectId
  deriving DecidableEq, Repr

/-- An order document. The last two fields are Mongoose bookkeeping:
`isNew` and the answer of `isModified('status')`. -/
structure Order where
  orderNumber : Option String
  customer : Customer
  items : List Item
  totals : Totals
  status : Option String
  paymentStatus : Option String
  paymentMethod : Option String
  shippingMethod : Option String
  trackingNumber : Option String
  notesCustomer : Option String
  notesAdmin : Option String
  language : Option String
  consentGiven : Option Bool
  consentDate : Option Date
  ipAddress : Option String
  userAgent : Option String
  statusHistory : List StatusEntry
  estimatedDelivery : Option Date
  actualDelivery : Option Date
  createdAt : Option Date
  isNew : Bool
  statusModified : Bool
  deriving DecidableEq, Repr

/-- Allowed values of `status`. -/
def statusEnum : List String :=
  ["pending", "confirmed", "processing", "shipped", "delivered", "cancelled", "refunded"]

/-- Allowed values of `paymentStatus`. -/
def paymentStatusEnum : List String := ["pending", "paid", "failed", "refunded"]

/-- Allowed values of `paymentMethod`. -/
def paymentMethodEnum : List String :=
  ["cash_on_delivery", "bank_transfer", "credit_card", "paypal"]

/-- Allowed values of `shippingMethod`. -/
def shippingMethodEnum : List String := ["standard", "express", "pickup"]

/-- Allowed values of `language`. -/
def languageEnum : List String := ["en", "fr", "ar"]

/-! ## Virtuals -/

/-- The virtual `isDelivered`. -/
def Order.isDelivered (o : Order) : Bool := o.status == some "delivered"

/-- The virtual `isPaid`. -/
def Order.isPaid (o : Order) : Bool := o.paymentStatus == some "paid"

/-- The virtual `canCancel`. -/
def Order.canCancel (o : Order) : Bool :=
  match o.status with
  | some s => ["pending", "confirmed"].contains s
  | none => false

/-- The virtual `itemCount`. -/
def Order.itemCount (o : Order) : ℚ :=
  o.items.foldl (fun total item => jsAdd total item.quantity) 0

/-! ## Validation -/

/-- The `kind` of a failed validator. -/
inductive ValidatorKind where
  | required
  | min
  | enum
  | regexp
  deriving DecidableEq, Repr

/-- One entry of a Mongoose `ValidationError`: the path, the validator that
failed and the message the schema attaches to it, if any. -/
structure ValidatorError where
  path : String
  kind : ValidatorKind
  message : Option String
  deriving DecidableEq, Repr

/-- The `required` validator of a `String` path: defined and not empty. -/
def checkRequiredString (path : String) (message : Option String) (v : Option String) :
    List ValidatorError :=
  if truthy v then [] else [⟨path, .required, message⟩]

/-- The `required` validator of a `Boolean` path: the value is `true` or `false`. -/
def checkRequiredBoolean (path : String) (message : Option String) (v : Option Bool) :
    List ValidatorError :=
  match v with
  | some _ => []
  | none => [⟨path, .required, message⟩]

/-- The `required` validator of an `ObjectId` path: the value is defined. -/
def checkRequiredObjectId (path : String) (message : Option String) (v : Option ObjectId) :
    List ValidatorError :=
  match v with
  | some _ => []
  | none => [⟨path, .required, message⟩]

/-- The `required` validator of a `Number` path: the value is defined. -/
def checkRequiredNumber (path : String) (message : Option String) (v : Option ℚ) :
    List ValidatorError :=
  match v with
  | some _ => []
  | none => [⟨path, .required, message⟩]

/-- The `min` validator; like every validator but `required` it accepts `undefined`. -/
def checkMin (path : String) (bound : ℚ) (message : String) (v : Option ℚ) :
    List ValidatorError :=
  match v with
  | some x => if bound ≤ x then [] else [⟨path, .min, some message⟩]
  | none => []

/-- The `enum` validator; it accepts `undefined`. -/
def checkEnum (path : String) (values : List String) (v : Option String) :
    List ValidatorError :=
  match v with
  | some s => if values.contains s then [] else [⟨path, .enum, none⟩]
  | none => []

/-- The `match` validator; it accepts `undefined` and the empty string. -/
def checkMatch (path : String) (pattern : Regex) (message : String) (v : Option String) :
    List ValidatorError :=
  match v with
  | some s => if s == "" || pattern.test s then [] else [⟨path, .regexp, some message⟩]
  | none => []

/-- Validators of the `customer` paths. -/
def validateCustomer (c : Customer) : List ValidatorError :=
  checkRequiredString "customer.firstName" (some "First name is required") c.firstName ++
  checkRequiredString "customer.lastName" (some "Last name is required") c.lastName ++
  checkRequiredString "customer.email" (some "Email is required") c.email ++
  checkMatch "customer.email" emailPattern "Please enter a valid email" c.email ++
  checkRequiredString "customer.phone" (some "Phone number is required") c.phone ++
  checkRequiredString "customer.address.street" (some "Street address is required")
    c.address.street ++
  checkRequiredString "customer.address.city" (some "City is required") c.address.city ++
  checkRequiredString "customer.address.country" (some "Country is required") c.address.country

/-- Validators of the line item at index `i`. -/
def validateItem (i : Nat) (item : Item) : List ValidatorError :=
  let p := "items." ++ toString i ++ "."
  checkRequiredObjectId (p ++ "product") none item.product ++
  checkMin (p ++ "quantity") 1 "Quantity must be at least 1" (some item.quantity) ++
  checkMin (p ++ "unitPrice") 0 "Unit price cannot be negative" (some item.unitPrice) ++
  checkMin (p ++ "totalPrice") 0 "Total price cannot be negative" (some item.totalPrice)

/-- Validators of the line items from index `i` on. -/
def validateItems (i : Nat) : List Item → List ValidatorError
  | [] => []
  | item :: rest => validateItem i item ++ validateItems (i + 1) rest

/-- Validators of the `totals` paths. -/
def validateTotals (t : Totals) : List ValidatorError :=
  checkRequiredNumber "totals.subtotal" none t.subtotal ++
  checkMin "totals.subtotal" 0 "Subtotal cannot be negative" t.subtotal ++
  checkMin "totals.tax" 0 "Tax cannot be negative" (some t.tax) ++
  checkMin "totals.shipping" 0 "Shipping cannot be negative" (some t.shipping) ++
  checkMin "totals.discount" 0 "Discount cannot be negative" (some t.discount) ++
  checkRequiredNumber "totals.total" none t.total ++
  checkMin "totals.total" 0 "Total cannot be negative" t.total

/-- Validators of every path but `status`. -/
def validateOther (o : Order) : List ValidatorError :=
  checkRequiredString "orderNumber" none o.orderNumber ++
  validateCustomer o.customer ++
  validateItems 0 o.items ++
  validateTotals o.totals ++
  checkEnum "paymentStatus" paymentStatusEnum o.paymentStatus ++
  checkEnum "paymentMethod" paymentMethodEnum o.paymentMethod ++
  checkEnum "shippingMethod" shippingMethodEnum o.shippingMethod ++
  checkEnum "language" languageEnum o.language ++
  checkRequiredBoolean "consentGiven" (some "Customer consent is required") o.consentGiven ++
  checkRequiredString "ipAddress" none o.ipAddress

/-- All schema validators of an order; the empty list means the document is valid. -/
def validate (o : Order) : List ValidatorError :=
  checkEnum "status" statusEnum o.status ++ validateOther o

/-! ## Pre-save hooks -/

/-- What the hooks read from the environment during one `save`. -/
structure Env where
  /-- Value of `Date.now()` in the order-number hook. -/
  now : Nat
  /-- Value of `Math.random()` in the order-number hook. -/
  random : ℚ
  /-- Value of `new Date()` in the status-history hook. -/
  historyNow : Date
  deriving DecidableEq, Repr

/-- The order number built by the first hook. -/
def generateOrderNumber (env : Env) : String :=
  let timestamp := toString env.now
  let random := padStart3 (toString (Rat.floor (env.random * 1000)))
  "ORD-" ++ sliceLast8 timestamp ++ "-" ++ random

/-- The reduction `items.reduce((sum, item) => sum + item.totalPrice, 0)`. -/
def sumTotalPrice (items : List Item) : ℚ :=
  items.foldl (fun sum item => jsAdd sum item.totalPrice) 0

/-- First `pre('save')` hook: order number, then totals. -/
def preSaveOrderNumberTotals (env : Env) (o : Order) : Order :=
  let o1 := if !truthy o.orderNumber then
      { o with orderNumber := some (generateOrderNumber env) }
    else o
  if o1.items.length > 0 then
    let subtotal := sumTotalPrice o1.items
    { o1 with totals := { o1.totals with
        subtotal := some subtotal
        total := some (jsSub (jsAdd (jsAdd subtotal o1.totals.tax) o1.totals.shipping)
          o1.totals.discount) } }
  else o1

/-- Whether every intermediate result of the totals computation of the first
hook is a finite double: the partial sums of the line totals and the three
further steps. -/
def totalsFinite (o : Order) : Bool :=
  let subtotal := jsSum (o.items.map Item.totalPrice)
  sumsFinite (o.items.map Item.totalPrice)
    && isFiniteDouble (jsAdd subtotal o.totals.tax)
    && isFiniteDouble (jsAdd (jsAdd subtotal o.totals.tax) o.totals.shipping)
    && isFiniteDouble
      (jsSub (jsAdd (jsAdd subtotal o.totals.tax) o.totals.shipping) o.totals.discount)

/-- Second `pre('save')` hook: status history. -/
def preSaveStatusHistory (env : Env) (o : Order) : Order :=
  if o.statusModified && !o.isNew then
    { o with statusHistory := o.statusHistory ++
        [{ status := o.status
           timestamp := env.historyNow
           note := some ("Status changed to " ++ jsStr o.status)
           updatedBy := none }] }
  else o

/-- Outcome of `save`: the document as it stands in memory afterwards, and the
validation errors; the promise resolves exactly when there are none. -/
structure SaveResult where
  doc : Order
  errors : List ValidatorError
  deriving DecidableEq, Repr

/-- Whether the save was persisted. -/
def SaveResult.persisted (r : SaveResult) : Bool := r.errors.isEmpty

/-- The call `doc.save()`: validation, then the two hooks, then the write, after
which the document is no longer new and has no modified path. -/
def Order.save (o : Order) (env : Env) : SaveResult :=
  match validate o with
  | [] =>
    let o2 := preSaveStatusHistory env (preSaveOrderNumberTotals env o)
    { doc := { o2 with isNew := false, statusModified := false }, errors := [] }
  | e :: es => { doc := o, errors := e :: es }

/-! ## Instance methods -/

/-- The assignment `this.status = v`: a new document marks the path modified on
every assignment, a loaded one when the value changes. -/
def Order.setStatus (o : Order) (v : Option String) : Order :=
  { o with status := v, statusModified := o.statusModified || o.isNew || v != o.status }

/-- The body of `updateStatus` up to its final `this.save()`: the assignment of
the status, the push on the history and the payment side effect; `t` is its
`new Date()`. -/
def Order.applyStatus (o : Order) (newStatus note : Option String)
    (updatedBy : Option ObjectId) (t : Date) : Order :=
  let o1 := o.setStatus newStatus
  let o2 : Order := { o1 with statusHistory := o1.statusHistory ++
    [{ status := newStatus
       timestamp := t
       note := some (jsOr note ("Status changed to " ++ jsStr newStatus))
       updatedBy := updatedBy }] }
  if newStatus == some "delivered" && o2.paymentMethod == some "cash_on_delivery" then
    { o2 with paymentStatus := some "paid" }
  else o2

/-- The method `updateStatus(newStatus, note, updatedBy)`. -/
def Order.updateStatus (o : Order) (newStatus note : Option String)
    (updatedBy : Option ObjectId) (t : Date) (env : Env) : SaveResult :=
  (o.applyStatus newStatus note updatedBy t).save env

/-- White space removed by `String.prototype.trim`. -/
def jsWhiteSpace (c : Char) : Bool :=
  [0x09, 0x0A, 0x0B, 0x0C, 0x0D, 0x20, 0xA0, 0x1680, 0x2028, 0x2029, 0x202F, 0x205F,
    0x3000, 0xFEFF].contains c.toNat || (0x2000 ≤ c.toNat && c.toNat ≤ 0x200A)

/-- The call `s.trim()`, the setter of `trackingNumber`. -/
def jsTrim (s : String) : String :=
  String.mk ((s.toList.dropWhile jsWhiteSpace).reverse.dropWhile jsWhiteSpace).reverse

/-- The method `addTracking(trackingNumber, estimatedDelivery)`; `t` is its `new Date()`. -/
def Order.addTracking (o : Order) (trackingNumber : Option String)
    (estimatedDelivery : Option Date) (t : Date) (env : Env) : SaveResult :=
  let o1 : Order := { o with trackingNumber := trackingNumber.map jsTrim }
  let o2 := o1.setStatus (some "shipped")
  let o3 := match estimatedDelivery with
    | some d => { o2 with estimatedDelivery := some d }
    | none => o2
  let o4 : Order := { o3 with statusHistory := o3.statusHistory ++
    [{ status := some "shipped"
       timestamp := t
       note := some ("Order shipped with tracking number: " ++ jsStr trackingNumber)
       updatedBy := none }] }
  o4.save env

/-! ## Sample documents -/

/-- A line item: two units at 100, line total 200. -/
def lampItem : Item :=
  { product := some "507f1f77bcf86cd799439011"
    productSnapshot :=
      { nameEn := some "Lamp", nameFr := some "Lampe", nameAr := none
        sku := some "LMP-1", image := none, category := some "Home" }
    quantity := 2
    unitPrice := 100
    totalPrice := 200
    currency := "MAD" }

/-- A loaded (already persisted) pending cash-on-delivery order with one line
item, tax 10, shipping 20 and discount 5; every path passes its validators. -/
def pendingOrder : Order :=
  { orderNumber := some "ORD-00000123-042"
    customer :=
      { firstName := some "6f1c:2a9d", lastName := some "03be:77f0", email := some "amina@example.com"
        phone := some "9a41:c0de"
        address :=
          { street := some "51aa:0b1c", city := some "77e2:19f3", state := none
            postalCode := none, country := some "Morocco" } }
    items := [lampItem]
    totals :=
      { subtotal := some 200, tax := 10, shipping := 20, discount := 5, total := some 225
        currency := "MAD" }
    status := some "pending"
    paymentStatus := some "pending"
    paymentMethod := some "cash_on_delivery"
    shippingMethod := some "standard"
    trackingNumber := none
    notesCustomer := none
    notesAdmin := none
    language := some "en"
    consentGiven := some true
    consentDate := some 1730000000000
    ipAddress := some "203.0.113.7"
    userAgent := none
    statusHistory := []
    estimatedDelivery := none
    actualDelivery := none
    createdAt := some 1730000000000
    isNew := false
    statusModified := false }

/-- An environment for the examples. -/
def sampleEnv : Env := { now := 1730000100123, random := 1 / 3, historyNow := 1730000100125 }

/-- The administrator acting in the examples. -/
def adminId : ObjectId := "64b7f0c2a1d3e4f5a6b7c8d9"

/-- The scenario order as a client submits it: one line item of total 200,
tax 10, shipping 20, discount 5, and placeholder values for the derived totals. -/
def scenarioOrder : Order :=
  { pendingOrder with
    totals :=
      { subtotal := some 0, tax := 10, shipping := 20, discount := 5, total := some 0
        currency := "MAD" }
    isNew := true }

/-- A loaded pending order paid by credit card. -/
def creditCardOrder : Order := { pendingOrder with paymentMethod := some "credit_card" }

/-- A loaded order that is already being processed. -/
def processingOrder : Order := { pendingOrder with status := some "processing" }

/-- A loaded order that has been confirmed. -/
def confirmedOrder : Order := { pendingOrder with status := some "confirmed" }

/-- A new order whose discount (500) exceeds subtotal, tax and shipping together;
the submitted totals are the placeholders 200 and 0. -/
def discountedOrder : Order :=
  { pendingOrder with
    totals :=
      { subtotal := some 200, tax := 0, shipping := 0, discount := 500, total := some 0
        currency := "MAD" }
    isNew := true }

/-- A line item whose line total (1) is not quantity times unit price (200). -/
def mismatchedItem : Item := { lampItem with totalPrice := 1 }

/-- A new order made of the mismatched line item. -/
def mismatchedOrder : Order := { pendingOrder with items := [mismatchedItem], isNew := true }

/-- An order without line items, submitted with subtotal 5 and total 5. -/
def emptyOrderA : Order :=
  { pendingOrder with
    items := []
    totals :=
      { subtotal := some 5, tax := 10, shipping := 20, discount := 5, total := some 5
        currency := "MAD" }
    isNew := true }

/-- The same order submitted with subtotal 7000 and total 7000. -/
def emptyOrderB : Order :=
  { emptyOrderA with
    totals :=
      { subtotal := some 7000, tax := 10, shipping := 20, discount := 5, total := some 7000
        currency := "MAD" } }

/-- A new order submitted without consent (the schema default `false`). -/
def noConsentOrder : Order := { pendingOrder with consentGiven := some false, isNew := true }


/-! ## Field cipher -/

/-- The keyed cipher of Node's `crypto` module, as `encrypt` and `decrypt` use
it: `crypto.createCipher(algorithm, secretKey)` and
`crypto.createDecipher(algorithm, secretKey)` for the fixed algorithm and the
key of the process. Neither constructor takes an initialization vector. -/
structure Cipher where
  /-- The value of `cipher.update(text, 'utf8', 'hex') + cipher.final('hex')`. -/
  cipherHex : String → String
  /-- The value of `decipher.update(hex, 'hex', 'utf8') + decipher.final('utf8')`,
  or `none` when one of the two calls throws. -/
  decipherUtf8 : String → Option String

/-- The hexadecimal digit of a value below sixteen. -/
def hexDigit (n : Nat) : Char :=
  ['0', '1', '2', '3', '4', '5', '6', '7', '8', '9', 'a', 'b', 'c', 'd', 'e', 'f'].getD n '0'

/-- The characters of `buffer.toString('hex')`: two digits per byte. -/
def hexChars : List (Fin 256) → List Char
  | [] => []
  | b :: rest => hexDigit (b.val / 16) :: hexDigit (b.val % 16) :: hexChars rest

/-- The call `buffer.toString('hex')`. -/
def toHex (bytes : List (Fin 256)) : String := String.mk (hexChars bytes)

/-- The call `text.split(sep)` for a one-character separator, on character lists. -/
def jsSplit (sep : Char) : List Char → List (List Char)
  | [] => [[]]
  | c :: cs =>
    if c = sep then [] :: jsSplit sep cs
    else
      match jsSplit sep cs with
      | part :: parts => (c :: part) :: parts
      | [] => [[c]]

/-- The function `encrypt`; `iv` is the value of `crypto.randomBytes(16)`. -/
def encrypt (C : Cipher) (iv : List (Fin 256)) (text : Option String) : Option String :=
  match text with
  | none => text
  | some t =>
    if !truthy (some t) then text
    else
      let encrypted := C.cipherHex t
      some (toHex iv ++ ":" ++ encrypted)

/-- The function `decrypt`. -/
def decrypt (C : Cipher) (text : Option String) : Option String :=
  match text with
  | none => text
  | some t =>
    if !truthy (some t) then text
    else
      let parts := (jsSplit ':' t.toList).map String.mk
      let ivHex := parts[0]?
      let encryptedHex := parts[1]?
      if !truthy ivHex || !truthy encryptedHex then text
      else
        match C.decipherUtf8 (jsStr encryptedHex) with
        | some decrypted => some decrypted
        | none => text

/-- The value of a hexadecimal digit. -/
def hexValue (c : Char) : Option Nat :=
  if '0' ≤ c ∧ c ≤ '9' then some (c.toNat - '0'.toNat)
  else if 'a' ≤ c ∧ c ≤ 'f' then some (c.toNat - 'a'.toNat + 10)
  else none

/-- Reading of a string of two-digit hexadecimal character codes. -/
def readHexCodes : List Char → Option (List Char)
  | [] => some []
  | [_] => none
  | a :: b :: rest =>
    match hexValue a, hexValue b, readHexCodes rest with
    | some x, some y, some r => some (Char.ofNat (x * 16 + y) :: r)
    | _, _, _ => none

/-- Writing of character codes as two hexadecimal digits each. -/
def writeHexCodes : List Char → List Char
  | [] => []
  | c :: rest => hexDigit (c.toNat / 16 % 16) :: hexDigit (c.toNat % 16) :: writeHexCodes rest

/-- A stand-in for the keyed cipher in the examples: it writes every character
code as two hexadecimal digits and reads them back, and fails on anything that
is not such a string. It keeps the shape of the real cipher (text in, non-empty
hexadecimal out, failure on foreign input) and none of its secrecy. -/
def sampleCipher : Cipher :=
  { cipherHex := fun p => String.mk (writeHexCodes p.toList)
    decipherUtf8 := fun h => (readHexCodes h.toList).map String.mk }

/-- A draw of `crypto.randomBytes(16)`. -/
def sampleIvA : List (Fin 256) := [0, 17, 34, 51, 68, 85, 102, 119, 136, 153, 170, 187, 204, 221, 238, 255]

/-- A second draw of `crypto.randomBytes(16)`. -/
def sampleIvB : List (Fin 256) := [254, 220, 186, 152, 118, 84, 50, 16, 1, 35, 69, 103, 137, 171, 205, 239]

/-- The part of a token before its first `:` (the whole token when it has none). -/
def partBeforeColon (t : String) : String :=
  String.mk (t.toList.takeWhile (fun c => c != ':'))

/-- The part of a token between its first `:` and the next one (or the end). -/
def partAfterColon (t : String) : String :=
  String.mk (((t.toList.dropWhile (fun c => c != ':')).drop 1).takeWhile (fun c => c != ':'))

/-- Whether a string consists of hexadecimal digits only. -/
def isHex (s : String) : Bool := s.toList.all (fun c => (hexValue c).isSome)





/-! ## Aggregations

The two static methods run an aggregation pipeline over the collection. The
collection is the list of its documents in the order in which the server
scans them; `now` is the instant at which the method reads the clock for the
default window. -/

/-- Thirty days in milliseconds, `30 * 24 * 60 * 60 * 1000`. -/
def thirtyDays : Nat := 30 * 24 * 60 * 60 * 1000

/-- The condition on `createdAt` of both `$match` stages: at least `startDate`
(by default thirty days before `now`) and at most `endDate` (by default `now`).
A document without `createdAt` does not match. -/
def inWindow (startDate endDate : Option Date) (now : Date) (o : Order) : Bool :=
  match o.createdAt with
  | some c => decide (startDate.getD (now - thirtyDays) ≤ c) && decide (c ≤ endDate.getD now)
  | none => false

/-- The document that `getAnalytics` resolves to when the window is not empty. -/
structure AnalyticsSummary where
  totalOrders : Nat
  totalRevenue : ℚ
  averageOrderValue : Option ℚ
  pendingOrders : Nat
  deliveredOrders : Nat
  cancelledOrders : Nat
  deriving DecidableEq, Repr

/-- The accumulators of the `$group` stage of `getAnalytics`. `$sum` adds the
numeric values and skips missing ones; `$avg` divides their sum by their number. -/
structure AnalyticsAcc where
  totalOrders : Nat
  totalRevenue : ℚ
  avgSum : ℚ
  avgCount : Nat
  pendingOrders : Nat
  deliveredOrders : Nat
  cancelledOrders : Nat
  deriving DecidableEq, Repr

/-- The accumulators before the first document. -/
def AnalyticsAcc.init : AnalyticsAcc :=
  { totalOrders := 0, totalRevenue := 0, avgSum := 0, avgCount := 0
    pendingOrders := 0, deliveredOrders := 0, cancelledOrders := 0 }

/-- The accumulators after one more document. -/
def AnalyticsAcc.step (a : AnalyticsAcc) (o : Order) : AnalyticsAcc :=
  { totalOrders := a.totalOrders + 1
    totalRevenue := a.totalRevenue + o.totals.total.getD 0
    avgSum := a.avgSum + o.totals.total.getD 0
    avgCount := a.avgCount + (if o.totals.total.isSome then 1 else 0)
    pendingOrders := a.pendingOrders + (if o.status == some "pending" then 1 else 0)
    deliveredOrders := a.deliveredOrders + (if o.status == some "delivered" then 1 else 0)
    cancelledOrders := a.cancelledOrders + (if o.status == some "cancelled" then 1 else 0) }

/-- The output document of the `$group` stage. -/
def AnalyticsAcc.finish (a : AnalyticsAcc) : AnalyticsSummary :=
  { totalOrders := a.totalOrders
    totalRevenue := a.totalRevenue
    averageOrderValue := if a.avgCount = 0 then none else some (a.avgSum / a.avgCount)
    pendingOrders := a.pendingOrders
    deliveredOrders := a.deliveredOrders
    cancelledOrders := a.cancelledOrders }

/-- The static method `getAnalytics(startDate, endDate)`: a `$match` on the
window, then one `$group` with `_id: null`, which emits a document only when
at least one document reaches it. -/
def getAnalytics (orders : List Order) (startDate endDate : Option Date) (now : Date) :
    List AnalyticsSummary :=
  match orders.filter (inWindow startDate endDate now) with
  | [] => []
  | o :: rest => [((o :: rest).foldl AnalyticsAcc.step AnalyticsAcc.init).finish]

/-- The three names of a product snapshot. -/
structure LocalizedName where
  en : Option String
  fr : Option String
  ar : Option String
  deriving DecidableEq, Repr

/-- The value of `productSnapshot.name`. -/
def ProductSnapshot.name (p : ProductSnapshot) : LocalizedName :=
  { en := p.nameEn, fr := p.nameFr, ar := p.nameAr }

/-- One output document of the `$group` stage of `getTopProducts`; `id` is its `_id`. -/
structure ProductGroup where
  id : Option ObjectId
  totalQuantity : ℚ
  totalRevenue : ℚ
  orderCount : Nat
  productName : LocalizedName
  sku : Option String
  deriving DecidableEq, Repr

/-- The `$match` stage of `getTopProducts`: the window, and a status that is
not in `['cancelled']`. -/
def matchTopProducts (startDate endDate : Option Date) (now : Date) (o : Order) : Bool :=
  inWindow startDate endDate now o && o.status != some "cancelled"

/-- The stage `$unwind: '$items'`: one document per line item, in order. -/
def unwindItems : List Order → List Item
  | [] => []
  | o :: rest => o.items ++ unwindItems rest

/-- One step of the `$group` stage of `getTopProducts`: the line item joins the
group of its product reference, or opens a new group after the existing ones. -/
def addToGroup : List ProductGroup → Item → List ProductGroup
  | [], item =>
    [{ id := item.product
       totalQuantity := item.quantity
       totalRevenue := item.totalPrice
       orderCount := 1
       productName := item.productSnapshot.name
       sku := item.productSnapshot.sku }]
  | g :: rest, item =>
    if g.id = item.product then
      { g with
        totalQuantity := g.totalQuantity + item.quantity
        totalRevenue := g.totalRevenue + item.totalPrice
        orderCount := g.orderCount + 1 } :: rest
    else g :: addToGroup rest item

/-- The `$group` stage of `getTopProducts`. -/
def groupByProduct (items : List Item) : List ProductGroup :=
  items.foldl addToGroup []

/-- The order of `$sort: { totalQuantity: -1 }`. -/
def byTotalQuantityDesc (a b : ProductGroup) : Prop := b.totalQuantity ≤ a.totalQuantity

instance : DecidableRel byTotalQuantityDesc :=
  fun a b => inferInstanceAs (Decidable (b.totalQuantity ≤ a.totalQuantity))

/-- The groups of `getTopProducts` after `$sort` and before `$limit`. -/
def sortedProductGroups (orders : List Order) (startDate endDate : Option Date) (now : Date) :
    List ProductGroup :=
  List.insertionSort byTotalQuantityDesc
    (groupByProduct (unwindItems (orders.filter (matchTopProducts startDate endDate now))))

/-- The static method `getTopProducts(limit = 10, startDate, endDate)`. The
result is `none` when the server rejects the pipeline, which it does for a
`$limit` that is not positive. -/
def getTopProducts (orders : List Order) (limit : Option Nat) (startDate endDate : Option Date)
    (now : Date) : Option (List ProductGroup) :=
  let n := limit.getD 10
  if n = 0 then none
  else some ((sortedProductGroups orders startDate endDate now).take n)

/-- The product reference `A` of the examples. -/
def productA : ObjectId := "507f1f77bcf86cd799439011"

/-- The product reference `B` of the examples. -/
def productB : ObjectId := "507f1f77bcf86cd799439012"

/-- The instant at which the examples run their queries. -/
def queryNow : Date := 1730600000000

/-- A delivered order inside the default window with three units of product `A`. -/
def deliveredOrderA : Order :=
  { pendingOrder with
    items := [{ lampItem with product := some productA, quantity := 3, totalPrice := 300 }]
    totals :=
      { subtotal := some 300, tax := 0, shipping := 0, discount := 0, total := some 300
        currency := "MAD" }
    status := some "delivered"
    paymentStatus := some "paid"
    createdAt := some 1730000000000 }

/-- A cancelled order inside the default window with five units of product `A`. -/
def cancelledOrderA : Order :=
  { pendingOrder with
    items := [{ lampItem with product := some productA, quantity := 5, totalPrice := 500 }]
    totals :=
      { subtotal := some 500, tax := 0, shipping := 0, discount := 0, total := some 500
        currency := "MAD" }
    status := some "cancelled"
    createdAt := some 1730100000000 }

/-- The collection of the scenario: the delivered and the cancelled order. -/
def scenarioOrders : List Order := [deliveredOrderA, cancelledOrderA]

/-- Sum of `quantity` over the line items that reference the product `k`. -/
def quantityOf (k : Option ObjectId) (items : List Item) : ℚ :=
  ((items.filter (fun it => it.product = k)).map Item.quantity).sum

/-- Sum of `totalPrice` over the line items that reference the product `k`. -/
def revenueOf (k : Option ObjectId) (items : List Item) : ℚ :=
  ((items.filter (fun it => it.product = k)).map Item.totalPrice).sum

/-- Number of line items that reference the product `k`. -/
def linesOf (k : Option ObjectId) (items : List Item) : Nat :=
  (items.filter (fun it => it.product = k)).length

/-- The groups `gs` are the grouping of the line items `items`: one group per
product reference that occurs, holding the sums and the count of its line items. -/
def GroupsOf (gs : List ProductGroup) (items : List Item) : Prop :=
  (gs.map ProductGroup.id).Nodup ∧
  (∀ g ∈ gs, g.totalQuantity = quantityOf g.id items ∧ g.totalRevenue = revenueOf g.id items ∧
    g.orderCount = linesOf g.id items ∧ 0 < linesOf g.id items) ∧
  (∀ it ∈ items, it.product ∈ gs.map ProductGroup.id)

instance : IsTotal ProductGroup byTotalQuantityDesc :=
  ⟨fun a b => le_total b.totalQuantity a.totalQuantity⟩

instance : IsTrans ProductGroup byTotalQuantityDesc :=
  ⟨fun _ _ _ hab hbc => le_trans hbc hab⟩

/-- A pending order inside the default window with seven units of product `B`. -/
def pendingOrderB : Order :=
  { pendingOrder with
    items := [{ lampItem with product := some productB, quantity := 7, totalPrice := 700 }]
    totals :=
      { subtotal := some 700, tax := 0, shipping := 0, discount := 0, total := some 700
        currency := "MAD" }
    createdAt := some 1730200000000 }

/-- A collection with two products: the scenario orders and the order for `B`. -/
def twoProductOrders : List Order := [deliveredOrderA, cancelledOrderA, pendingOrderB]



/-- The `k` low-order decimal digits of `n`, most significant first, with
leading zeros when `n` has fewer than `k` digits. -/
def decimalDigits : Nat → Nat → List Char
  | 0, _ => []
  | k + 1, n => decimalDigits k (n / 10) ++ [Nat.digitChar (n % 10)]

/-- An order that has not been given an order number yet. -/
def unnumberedOrder : Order := { pendingOrder with orderNumber := none, isNew := true }

/-- Everything in a token after its first `:` (empty when it has none). -/
def restAfterColon (t : String) : String :=
  String.mk ((t.toList.dropWhile (fun c => c != ':')).drop 1)

/-- An order inside the default window that lists product `A` in two line items. -/
def doubleLineOrderA : Order :=
  { pendingOrder with
    items :=
      [ { lampItem with product := some productA, quantity := 1, totalPrice := 100 },
        { lampItem with product := some productA, quantity := 2, totalPrice := 200 } ]
    totals :=
      { subtotal := some 300, tax := 0, shipping := 0, discount := 0, total := some 300
        currency := "MAD" }
    createdAt := some 1730300000000 }



/-! ## Slugs (`server/models/Product.js`, `server/models/Category.js`)

The pre-save hooks of the two models derive the English slug from the English
name with one and the same expression. `String.prototype.toLowerCase` is the
Unicode lower-casing of the JavaScript engine and is a parameter `lower` here. -/

/-- The class `[a-z0-9]`. -/
def isSlugAlnum (c : Char) : Bool := ('a' ≤ c && c ≤ 'z') || ('0' ≤ c && c ≤ '9')

/-- The call `.replace(/[^a-z0-9]+/g, '-')` on a character list: every maximal
run of characters outside `[a-z0-9]` becomes one `-`. The flag tells whether the
previous character belonged to such a run. -/
def replaceRuns (inRun : Bool) : List Char → List Char
  | [] => []
  | c :: cs =>
    if isSlugAlnum c then c :: replaceRuns false cs
    else if inRun then replaceRuns true cs
    else '-' :: replaceRuns true cs

/-- The alternative `-+$` of `.replace(/^-+|-+$/g, '')`: the trailing dashes are removed. -/
def dropTrailingDashes : List Char → List Char
  | [] => []
  | c :: cs =>
    match dropTrailingDashes cs with
    | [] => if c == '-' then [] else [c]
    | r :: rs => c :: r :: rs

/-- The call `.replace(/^-+|-+$/g, '')`: leading and trailing dashes are removed. -/
def stripDashes (l : List Char) : List Char :=
  dropTrailingDashes (l.dropWhile (fun c => c == '-'))

/-- The expression
`name.toLowerCase().replace(/[^a-z0-9]+/g, '-').replace(/^-+|-+$/g, '')`. -/
def slugText (lower : String → String) (name : String) : String :=
  String.mk (stripDashes (replaceRuns false (lower name).toList))

/-- The setter of a path declared `lowercase: true`. -/
def lowercaseSetter (lower : String → String) (v : String) : String :=
  if v != "" then lower v else v

/-- The paths of a product that the English slug hook reads and writes:
`name.en` and `seo.slug.en`. -/
structure Product where
  nameEn : Option String
  seoSlugEn : Option String
  deriving DecidableEq, Repr

/-- The paths of a category that the English slug hook reads and writes:
`name.en` and `slug.en`. -/
structure Category where
  nameEn : Option String
  slugEn : Option String
  deriving DecidableEq, Repr

/-- The English-slug step of `productSchema.pre('save')`. -/
def Product.preSaveSlugEn (lower : String → String) (p : Product) : Product :=
  if !truthy p.seoSlugEn && truthy p.nameEn then
    { p with seoSlugEn := some (lowercaseSetter lower (slugText lower (jsStr p.nameEn))) }
  else p

/-- The English-slug step of `categorySchema.pre('save')`. -/
def Category.preSaveSlugEn (lower : String → String) (c : Category) : Category :=
  if !truthy c.slugEn && truthy c.nameEn then
    { c with slugEn := some (lowercaseSetter lower (slugText lower (jsStr c.nameEn))) }
  else c

/-- Whether a character list contains two adjacent dashes. -/
def hasDoubleDash : List Char → Bool
  | a :: b :: rest => (a == '-' && b == '-') || hasDoubleDash (b :: rest)
  | _ => false

/-- A stand-in for `toLowerCase` in the examples: it lowers the letters `A` to
`Z` and leaves every other character alone. -/
def asciiLower (s : String) : String := String.mk (s.toList.map Char.toLower)

/-- The double that the literal `0.1` denotes. -/
def doubleTenth : ℚ := 3602879701896397 / 36028797018963968

/-- The double that the literal `0.2` denotes. -/
def doubleFifth : ℚ := 3602879701896397 / 18014398509481984

/-- An order with two line items whose line totals are the doubles `0.1` and `0.2`. -/
def roundingOrder : Order :=
  { scenarioOrder with
    items :=
      [ { lampItem with quantity := 1, unitPrice := doubleTenth, totalPrice := doubleTenth },
        { lampItem with quantity := 1, unitPrice := doubleFifth, totalPrice := doubleFifth } ]
    totals :=
      { subtotal := some 0, tax := 0, shipping := 0, discount := 0, total := some 0
        currency := "MAD" } }

/-- An order with two line items whose line totals are `2 ^ 53` and `1`. -/
def largeOrder : Order :=
  { scenarioOrder with
    items :=
      [ { lampItem with
          quantity := 1, unitPrice := 9007199254740992, totalPrice := 9007199254740992 },
        { lampItem with quantity := 1, unitPrice := 1, totalPrice := 1 } ]
    totals :=
      { subtotal := some 0, tax := 0, shipping := 0, discount := 0, total := some 0
        currency := "MAD" } }

/-! ## The cipher of Node's `crypto` module

The functions `crypto.createCipher('aes-256-cbc', secretKey)` and
`crypto.createDecipher('aes-256-cbc', secretKey)` derive a 32-byte key and a
16-byte initialization vector from the secret (OpenSSL's `EVP_BytesToKey` with
MD5, one round, no salt) and run AES-256 in CBC mode with PKCS#7 padding. The
derived key and vector are parameters below; the block cipher, the mode, the
padding and the text encodings are written out. -/

/-- A byte. -/
abbrev Byte := Fin 256

/-- Bitwise exclusive or of two bytes. -/
def bxor (a b : Byte) : Byte :=
  ⟨a.val ^^^ b.val, Nat.xor_lt_two_pow (n := 8) a.isLt b.isLt⟩

/-- The AES substitution table. -/
def sboxTable : List Nat :=
  [
    99, 124, 119, 123, 242, 107, 111, 197, 48, 1, 103, 43, 254, 215, 171, 118,
    202, 130, 201, 125, 250, 89, 71, 240, 173, 212, 162, 175, 156, 164, 114, 192,
    183, 253, 147, 38, 54, 63, 247, 204, 52, 165, 229, 241, 113, 216, 49, 21,
    4, 199, 35, 195, 24, 150, 5, 154, 7, 18, 128, 226, 235, 39, 178, 117,
    9, 131, 44, 26, 27, 110, 90, 160, 82, 59, 214, 179, 41, 227, 47, 132,
    83, 209, 0, 237, 32, 252, 177, 91, 106, 203, 190, 57, 74, 76, 88, 207,
    208, 239, 170, 251, 67, 77, 51, 133, 69, 249, 2, 127, 80, 60, 159, 168,
    81, 163, 64, 143, 146, 157, 56, 245, 188, 182, 218, 33, 16, 255, 243, 210,
    205, 12, 19, 236, 95, 151, 68, 23, 196, 167, 126, 61, 100, 93, 25, 115,
    96, 129, 79, 220, 34, 42, 144, 136, 70, 238, 184, 20, 222, 94, 11, 219,
    224, 50, 58, 10, 73, 6, 36, 92, 194, 211, 172, 98, 145, 149, 228, 121,
    231, 200, 55, 109, 141, 213, 78, 169, 108, 86, 244, 234, 101, 122, 174, 8,
    186, 120, 37, 46, 28, 166, 180, 198, 232, 221, 116, 31, 75, 189, 139, 138,
    112, 62, 181, 102, 72, 3, 246, 14, 97, 53, 87, 185, 134, 193, 29, 158,
    225, 248, 152, 17, 105, 217, 142, 148, 155, 30, 135, 233, 206, 85, 40, 223,
    140, 161, 137, 13, 191, 230, 66, 104, 65, 153, 45, 15, 176, 84, 187, 22 ]

/-- The inverse AES substitution table. -/
def invSboxTable : List Nat :=
  [
    82, 9, 106, 213, 48, 54, 165, 56, 191, 64, 163, 158, 129, 243, 215, 251,
    124, 227, 57, 130, 155, 47, 255, 135, 52, 142, 67, 68, 196, 222, 233, 203,
    84, 123, 148, 50, 166, 194, 35, 61, 238, 76, 149, 11, 66, 250, 195, 78,
    8, 46, 161, 102, 40, 217, 36, 178, 118, 91, 162, 73, 109, 139, 209, 37,
    114, 248, 246, 100, 134, 104, 152, 22, 212, 164, 92, 204, 93, 101, 182, 146,
    108, 112, 72, 80, 253, 237, 185, 218, 94, 21, 70, 87, 167, 141, 157, 132,
    144, 216, 171, 0, 140, 188, 211, 10, 247, 228, 88, 5, 184, 179, 69, 6,
    208, 44, 30, 143, 202, 63, 15, 2, 193, 175, 189, 3, 1, 19, 138, 107,
    58, 145, 17, 65, 79, 103, 220, 234, 151, 242, 207, 206, 240, 180, 230, 115,
    150, 172, 116, 34, 231, 173, 53, 133, 226, 249, 55, 232, 28, 117, 223, 110,
    71, 241, 26, 113, 29, 41, 197, 137, 111, 183, 98, 14, 170, 24, 190, 27,
    252, 86, 62, 75, 198, 210, 121, 32, 154, 219, 192, 254, 120, 205, 90, 244,
    31, 221, 168, 51, 136, 7, 199, 49, 177, 18, 16, 89, 39, 128, 236, 95,
    96, 81, 127, 169, 25, 181, 74, 13, 45, 229, 122, 159, 147, 201, 156, 239,
    160, 224, 59, 77, 174, 42, 245, 176, 200, 235, 187, 60, 131, 83, 153, 97,
    23, 43, 4, 126, 186, 119, 214, 38, 225, 105, 20, 99, 85, 33, 12, 125 ]

/-- The byte substitution of `SubBytes`. -/
def subByte (b : Byte) : Byte := Fin.ofNat (sboxTable.getD b.val 0)

/-- The byte substitution of `InvSubBytes`. -/
def invSubByte (b : Byte) : Byte := Fin.ofNat (invSboxTable.getD b.val 0)

/-- Multiplication by `x` in the AES field, modulo `x^8 + x^4 + x^3 + x + 1`. -/
def xtime (b : Byte) : Byte :=
  Fin.ofNat (if b.val < 128 then b.val * 2 else (b.val * 2 - 256) ^^^ 27)

/-- Multiplication by `03` in the AES field. -/
def mul3 (b : Byte) : Byte := bxor (xtime b) b

/-- Multiplication by `09` in the AES field. -/
def mul9 (b : Byte) : Byte := bxor (xtime (xtime (xtime b))) b

/-- Multiplication by `0b` in the AES field. -/
def mul11 (b : Byte) : Byte := bxor (bxor (xtime (xtime (xtime b))) (xtime b)) b

/-- Multiplication by `0d` in the AES field. -/
def mul13 (b : Byte) : Byte := bxor (bxor (xtime (xtime (xtime b))) (xtime (xtime b))) b

/-- Multiplication by `0e` in the AES field. -/
def mul14 (b : Byte) : Byte :=
  bxor (bxor (xtime (xtime (xtime b))) (xtime (xtime b))) (xtime b)

/-- A column of the AES state: four bytes. -/
structure Word where
  b0 : Byte
  b1 : Byte
  b2 : Byte
  b3 : Byte
  deriving DecidableEq

/-- Bytewise exclusive or of two words. -/
def Word.xor (u v : Word) : Word :=
  ⟨bxor u.b0 v.b0, bxor u.b1 v.b1, bxor u.b2 v.b2, bxor u.b3 v.b3⟩

/-- A function applied to every byte of a word. -/
def Word.map (f : Byte → Byte) (w : Word) : Word := ⟨f w.b0, f w.b1, f w.b2, f w.b3⟩

/-- One column of `MixColumns`. -/
def mixColumn (w : Word) : Word :=
  ⟨bxor (bxor (bxor (xtime w.b0) (mul3 w.b1)) w.b2) w.b3,
   bxor (bxor (bxor w.b0 (xtime w.b1)) (mul3 w.b2)) w.b3,
   bxor (bxor (bxor w.b0 w.b1) (xtime w.b2)) (mul3 w.b3),
   bxor (bxor (bxor (mul3 w.b0) w.b1) w.b2) (xtime w.b3)⟩

/-- One column of `InvMixColumns`. -/
def invMixColumn (w : Word) : Word :=
  ⟨bxor (bxor (bxor (mul14 w.b0) (mul11 w.b1)) (mul13 w.b2)) (mul9 w.b3),
   bxor (bxor (bxor (mul9 w.b0) (mul14 w.b1)) (mul11 w.b2)) (mul13 w.b3),
   bxor (bxor (bxor (mul13 w.b0) (mul9 w.b1)) (mul14 w.b2)) (mul11 w.b3),
   bxor (bxor (bxor (mul11 w.b0) (mul13 w.b1)) (mul9 w.b2)) (mul14 w.b3)⟩

/-- A 16-byte block, as the four columns of the AES state. -/
structure Block where
  c0 : Word
  c1 : Word
  c2 : Word
  c3 : Word
  deriving DecidableEq

/-- Bytewise exclusive or of two blocks; `AddRoundKey` and the CBC chaining. -/
def Block.xor (s t : Block) : Block :=
  ⟨s.c0.xor t.c0, s.c1.xor t.c1, s.c2.xor t.c2, s.c3.xor t.c3⟩

/-- A function applied to every column of a block. -/
def Block.mapWords (f : Word → Word) (s : Block) : Block := ⟨f s.c0, f s.c1, f s.c2, f s.c3⟩

/-- The step `SubBytes`. -/
def subBytes (s : Block) : Block := s.mapWords (Word.map subByte)

/-- The step `InvSubBytes`. -/
def invSubBytes (s : Block) : Block := s.mapWords (Word.map invSubByte)

/-- The step `ShiftRows`: row `r` moves `r` columns to the left. -/
def shiftRows (s : Block) : Block :=
  ⟨⟨s.c0.b0, s.c1.b1, s.c2.b2, s.c3.b3⟩,
   ⟨s.c1.b0, s.c2.b1, s.c3.b2, s.c0.b3⟩,
   ⟨s.c2.b0, s.c3.b1, s.c0.b2, s.c1.b3⟩,
   ⟨s.c3.b0, s.c0.b1, s.c1.b2, s.c2.b3⟩⟩

/-- The step `InvShiftRows`. -/
def invShiftRows (s : Block) : Block :=
  ⟨⟨s.c0.b0, s.c3.b1, s.c2.b2, s.c1.b3⟩,
   ⟨s.c1.b0, s.c0.b1, s.c3.b2, s.c2.b3⟩,
   ⟨s.c2.b0, s.c1.b1, s.c0.b2, s.c3.b3⟩,
   ⟨s.c3.b0, s.c2.b1, s.c1.b2, s.c0.b3⟩⟩

/-- The step `MixColumns`. -/
def mixColumns (s : Block) : Block := s.mapWords mixColumn

/-- The step `InvMixColumns`. -/
def invMixColumns (s : Block) : Block := s.mapWords invMixColumn

/-- The word made of four consecutive bytes of a list, from index `i` (missing bytes are 0). -/
def wordAt (l : List Byte) (i : Nat) : Word :=
  ⟨l.getD i 0, l.getD (i + 1) 0, l.getD (i + 2) 0, l.getD (i + 3) 0⟩

/-- The block made of the first sixteen bytes of a list (missing bytes are 0). -/
def Block.ofList (l : List Byte) : Block := ⟨wordAt l 0, wordAt l 4, wordAt l 8, wordAt l 12⟩

/-- The bytes of a word. -/
def Word.toList (w : Word) : List Byte := [w.b0, w.b1, w.b2, w.b3]

/-- The sixteen bytes of a block. -/
def Block.toList (s : Block) : List Byte :=
  s.c0.toList ++ s.c1.toList ++ s.c2.toList ++ s.c3.toList

/-- The round constants of the key expansion. -/
def rconTable : List Nat := [0, 1, 2, 4, 8, 16, 32, 64, 128, 27, 54]

/-- The word `w[i]` of the AES-256 key expansion, from the words before it. -/
def nextKeyWord (ws : List Word) (i : Nat) : Word :=
  let zero : Word := ⟨0, 0, 0, 0⟩
  let prev := ws.getD (i - 1) zero
  let temp :=
    if i % 8 = 0 then
      (Word.map subByte ⟨prev.b1, prev.b2, prev.b3, prev.b0⟩).xor
        ⟨Fin.ofNat (rconTable.getD (i / 8) 0), 0, 0, 0⟩
    else if i % 8 = 4 then Word.map subByte prev
    else prev
  (ws.getD (i - 8) zero).xor temp

/-- The sixty words of the AES-256 key expansion of a 32-byte key. -/
def expandKey (key : List Byte) : List Word :=
  (List.range 52).foldl (fun ws k => ws ++ [nextKeyWord ws (k + 8)])
    ((List.range 8).map (fun i => wordAt key (4 * i)))

/-- The fifteen round keys of a 32-byte key. -/
def roundKeys (key : List Byte) : List Block :=
  let ws := expandKey key
  let zero : Word := ⟨0, 0, 0, 0⟩
  (List.range 15).map (fun r =>
    ⟨ws.getD (4 * r) zero, ws.getD (4 * r + 1) zero, ws.getD (4 * r + 2) zero,
      ws.getD (4 * r + 3) zero⟩)

/-- The rounds of the cipher after the initial `AddRoundKey`: every round key
but the last closes a full round, the last one a round without `MixColumns`. -/
def encryptRounds : List Block → Block → Block
  | [], s => s
  | [k], s => (shiftRows (subBytes s)).xor k
  | k :: k' :: ks, s => encryptRounds (k' :: ks) ((mixColumns (shiftRows (subBytes s))).xor k)

/-- The AES encryption of one block under the given round keys. -/
def encryptBlock (keys : List Block) (s : Block) : Block :=
  match keys with
  | [] => s
  | k :: ks => encryptRounds ks (s.xor k)

/-- The inverse of `encryptRounds`. -/
def decryptRounds : List Block → Block → Block
  | [], s => s
  | [k], s => invSubBytes (invShiftRows (s.xor k))
  | k :: k' :: ks, s =>
    invSubBytes (invShiftRows (invMixColumns ((decryptRounds (k' :: ks) s).xor k)))

/-- The AES decryption of one block under the given round keys. -/
def decryptBlock (keys : List Block) (s : Block) : Block :=
  match keys with
  | [] => s
  | k :: ks => (decryptRounds ks s).xor k

/-- CBC encryption of a sequence of blocks; `prev` is the vector, then the
previous cipher block. -/
def cbcEncrypt (keys : List Block) (prev : Block) : List Block → List Block
  | [] => []
  | p :: ps =>
    let c := encryptBlock keys (p.xor prev)
    c :: cbcEncrypt keys c ps

/-- CBC decryption of a sequence of blocks. -/
def cbcDecrypt (keys : List Block) (prev : Block) : List Block → List Block
  | [] => []
  | c :: cs => (decryptBlock keys c).xor prev :: cbcDecrypt keys c cs

/-- The bytes of a sequence of blocks. -/
def blocksToBytes : List Block → List Byte
  | [] => []
  | b :: bs => b.toList ++ blocksToBytes bs

/-- The last block of a padded message: the remaining bytes (fewer than
sixteen) followed by `n` bytes of value `n`, where `n` fills the block. -/
def finalBlock (l : List Byte) : Block :=
  Block.ofList (l ++ List.replicate (16 - l.length) (Fin.ofNat (16 - l.length)))

/-- The blocks of a message under PKCS#7 padding, with `fuel` bounding the
number of full blocks. -/
def padBlocksAux : Nat → List Byte → List Block
  | 0, l => [finalBlock l]
  | fuel + 1, l =>
    if 16 ≤ l.length then Block.ofList (l.take 16) :: padBlocksAux fuel (l.drop 16)
    else [finalBlock l]

/-- The blocks of a message under PKCS#7 padding: full blocks of the message,
then one padded block (a whole block of `16` when nothing remains). -/
def padBlocks (l : List Byte) : List Block := padBlocksAux l.length l

/-- The message in the last block of a padded message, or `none` when the
padding is malformed (`decipher.final` throws `bad decrypt`). -/
def unpadFinal (b : Block) : Option (List Byte) :=
  let l := b.toList
  let n := b.c3.b3.val
  if 1 ≤ n ∧ n ≤ 16 ∧ (l.drop (16 - n)).all (fun x => x.val = n) then some (l.take (16 - n))
  else none

/-- The message of a sequence of deciphered blocks, or `none` when there is no
block or the padding is malformed. -/
def unpadBlocks : List Block → Option (List Byte)
  | [] => none
  | [b] => unpadFinal b
  | b :: b' :: bs => (unpadBlocks (b' :: bs)).map (fun rest => b.toList ++ rest)

/-- The blocks of a byte sequence, or `none` when its length is not a multiple
of sixteen (`decipher.final` throws `wrong final block length`); `fuel` bounds
the number of blocks. -/
def chunkBlocks : Nat → List Byte → Option (List Block)
  | 0, l => if l = [] then some [] else none
  | fuel + 1, l =>
    if l = [] then some []
    else if l.length < 16 then none
    else (chunkBlocks fuel (l.drop 16)).map (fun rest => Block.ofList (l.take 16) :: rest)

/-- The value of a hexadecimal digit of either case. -/
def hexNibble (c : Char) : Option Nat :=
  if '0' ≤ c ∧ c ≤ '9' then some (c.toNat - '0'.toNat)
  else if 'a' ≤ c ∧ c ≤ 'f' then some (c.toNat - 'a'.toNat + 10)
  else if 'A' ≤ c ∧ c ≤ 'F' then some (c.toNat - 'A'.toNat + 10)
  else none

/-- The bytes Node reads from a string under the `'hex'` encoding: one byte per
pair of digits, up to the first pair that is not two hexadecimal digits. -/
def hexBytes : List Char → List Byte
  | a :: b :: rest =>
    match hexNibble a, hexNibble b with
    | some x, some y => Fin.ofNat (x * 16 + y) :: hexBytes rest
    | _, _ => []
  | _ => []

/-- The UTF-8 bytes of one Unicode scalar value. -/
def utf8EncodeChar (c : Char) : List Byte :=
  let n := c.toNat
  if n < 0x80 then [Fin.ofNat n]
  else if n < 0x800 then [Fin.ofNat (0xC0 + n / 64), Fin.ofNat (0x80 + n % 64)]
  else if n < 0x10000 then
    [Fin.ofNat (0xE0 + n / 4096), Fin.ofNat (0x80 + n / 64 % 64), Fin.ofNat (0x80 + n % 64)]
  else
    [Fin.ofNat (0xF0 + n / 262144), Fin.ofNat (0x80 + n / 4096 % 64),
      Fin.ofNat (0x80 + n / 64 % 64), Fin.ofNat (0x80 + n % 64)]

/-- The UTF-8 bytes of a text without lone surrogates. -/
def utf8Encode : List Char → List Byte
  | [] => []
  | c :: cs => utf8EncodeChar c ++ utf8Encode cs

/-- The state of the UTF-8 decoder inside a multi-byte sequence. -/
structure Utf8Pending where
  /-- The number of continuation bytes still expected. -/
  needed : Nat
  /-- The code point bits read so far. -/
  codePoint : Nat
  /-- The least value allowed for the next byte. -/
  lower : Nat
  /-- The greatest value allowed for the next byte. -/
  upper : Nat

/-- The decoder on a byte read outside a multi-byte sequence. -/
def utf8Lead (b : Byte) : List Char × Option Utf8Pending :=
  let v := b.val
  if v < 0x80 then ([Char.ofNat v], none)
  else if 0xC2 ≤ v ∧ v ≤ 0xDF then ([], some ⟨1, v % 32, 0x80, 0xBF⟩)
  else if 0xE0 ≤ v ∧ v ≤ 0xEF then
    ([], some ⟨2, v % 16, if v = 0xE0 then 0xA0 else 0x80, if v = 0xED then 0x9F else 0xBF⟩)
  else if 0xF0 ≤ v ∧ v ≤ 0xF4 then
    ([], some ⟨3, v % 8, if v = 0xF0 then 0x90 else 0x80, if v = 0xF4 then 0x8F else 0xBF⟩)
  else ([Char.ofNat 0xFFFD], none)

/-- One step of the UTF-8 decoder: the characters it emits on a byte and its
next state. A byte that cannot continue the pending sequence ends it with
U+FFFD and is read again as a first byte. -/
def utf8Step (st : Option Utf8Pending) (b : Byte) : List Char × Option Utf8Pending :=
  match st with
  | none => utf8Lead b
  | some p =>
    if b.val < p.lower ∨ p.upper < b.val then
      (Char.ofNat 0xFFFD :: (utf8Lead b).1, (utf8Lead b).2)
    else
      let cp := p.codePoint * 64 + b.val % 64
      if p.needed ≤ 1 then ([Char.ofNat cp], none)
      else ([], some ⟨p.needed - 1, cp, 0x80, 0xBF⟩)

/-- The UTF-8 decoder from a given state; a sequence cut off by the end of the
input gives U+FFFD. -/
def utf8DecodeFrom : Option Utf8Pending → List Byte → List Char
  | st, [] => if st.isSome then [Char.ofNat 0xFFFD] else []
  | st, b :: bs => (utf8Step st b).1 ++ utf8DecodeFrom (utf8Step st b).2 bs

/-- The text Node reads from bytes under the `'utf8'` encoding; ill-formed
sequences are replaced by U+FFFD. -/
def utf8Decode (bytes : List Byte) : List Char := utf8DecodeFrom none bytes

/-- The cipher `crypto.createCipher('aes-256-cbc', secretKey)` and its decipher,
for the 32-byte key and the initialization vector derived from the secret. -/
def nodeCipher (key : List Byte) (derivedIv : Block) : Cipher :=
  { cipherHex := fun text =>
      toHex (blocksToBytes
        (cbcEncrypt (roundKeys key) derivedIv (padBlocks (utf8Encode text.toList))))
    decipherUtf8 := fun hex =>
      let bytes := hexBytes hex.toList
      match chunkBlocks bytes.length bytes with
      | none => none
      | some blocks =>
        match unpadBlocks (cbcDecrypt (roundKeys key) derivedIv blocks) with
        | none => none
        | some plain => some (String.mk (utf8Decode plain)) }

/-! ## Key derivation

The constructor `crypto.createCipher(algorithm, password)` derives the key and
the initialization vector from the password with OpenSSL's `EVP_BytesToKey`:
MD5 as digest, one iteration, no salt. -/

/-- The per-round left rotations of MD5. -/
def md5Shifts : List Nat :=
  [7, 12, 17, 22, 7, 12, 17, 22, 7, 12, 17, 22, 7, 12, 17, 22,
   5, 9, 14, 20, 5, 9, 14, 20, 5, 9, 14, 20, 5, 9, 14, 20,
   4, 11, 16, 23, 4, 11, 16, 23, 4, 11, 16, 23, 4, 11, 16, 23,
   6, 10, 15, 21, 6, 10, 15, 21, 6, 10, 15, 21, 6, 10, 15, 21]

/-- The per-round additive constants of MD5: the integer part of
`2 ^ 32 * |sin (i + 1)|`. -/
def md5Constants : List Nat :=
  [3614090360, 3905402710, 606105819, 3250441966, 4118548399, 1200080426,
   2821735955, 4249261313, 1770035416, 2336552879, 4294925233, 2304563134,
   1804603682, 4254626195, 2792965006, 1236535329, 4129170786, 3225465664,
   643717713, 3921069994, 3593408605, 38016083, 3634488961, 3889429448,
   568446438, 3275163606, 4107603335, 1163531501, 2850285829, 4243563512,
   1735328473, 2368359562, 4294588738, 2272392833, 1839030562, 4259657740,
   2763975236, 1272893353, 4139469664, 3200236656, 681279174, 3936430074,
   3572445317, 76029189, 3654602809, 3873151461, 530742520, 3299628645,
   4096336452, 1126891415, 2878612391, 4237533241, 1700485571, 2399980690,
   4293915773, 2240044497, 1873313359, 4264355552, 2734768916, 1309151649,
   4149444226, 3174756917, 718787259, 3951481745]

/-- Rotation of a 32-bit word to the left. -/
def rotateLeft32 (x c : Nat) : Nat := ((x <<< c) ||| (x >>> (32 - c))) % 4294967296

/-- The bitwise complement of a 32-bit word. -/
def not32 (x : Nat) : Nat := 4294967295 - x % 4294967296

/-- The padded message of MD5: the message, the byte `0x80`, zero bytes up to
56 modulo 64, and the bit length of the message as eight bytes, least
significant first. -/
def md5Pad (msg : List Byte) : List Byte :=
  let bits := msg.length * 8
  msg ++ [Fin.ofNat 0x80] ++ List.replicate ((119 - msg.length % 64) % 64) 0
    ++ (List.range 8).map (fun i => Fin.ofNat (bits / 256 ^ i))

/-- The 32-bit word stored least significant byte first at offset `i`. -/
def word32At (l : List Byte) (i : Nat) : Nat :=
  (l.getD i 0).val + (l.getD (i + 1) 0).val * 256 + (l.getD (i + 2) 0).val * 65536
    + (l.getD (i + 3) 0).val * 16777216

/-- The four state words of MD5. -/
structure Md5State where
  a : Nat
  b : Nat
  c : Nat
  d : Nat

/-- One of the 64 operations of MD5 on the 64-byte chunk at `offset`. -/
def md5Round (msg : List Byte) (offset : Nat) (s : Md5State) (i : Nat) : Md5State :=
  let f :=
    if i < 16 then (s.b &&& s.c) ||| (not32 s.b &&& s.d)
    else if i < 32 then (s.d &&& s.b) ||| (not32 s.d &&& s.c)
    else if i < 48 then s.b ^^^ s.c ^^^ s.d
    else s.c ^^^ (s.b ||| not32 s.d)
  let g :=
    if i < 16 then i
    else if i < 32 then (5 * i + 1) % 16
    else if i < 48 then (3 * i + 5) % 16
    else (7 * i) % 16
  let sum := (f + s.a + md5Constants.getD i 0 + word32At msg (offset + 4 * g)) % 4294967296
  ⟨s.d, (s.b + rotateLeft32 sum (md5Shifts.getD i 0)) % 4294967296, s.b, s.c⟩

/-- The MD5 compression of the 64-byte chunk at `offset` into the state. -/
def md5Chunk (msg : List Byte) (s : Md5State) (chunk : Nat) : Md5State :=
  let r := (List.range 64).foldl (md5Round msg (64 * chunk)) s
  ⟨(s.a + r.a) % 4294967296, (s.b + r.b) % 4294967296, (s.c + r.c) % 4294967296,
    (s.d + r.d) % 4294967296⟩

/-- The four bytes of a 32-bit word, least significant first. -/
def word32Bytes (x : Nat) : List Byte :=
  [Fin.ofNat x, Fin.ofNat (x / 256), Fin.ofNat (x / 65536), Fin.ofNat (x / 16777216)]

/-- The MD5 digest of a byte sequence. -/
def md5 (msg : List Byte) : List Byte :=
  let padded := md5Pad msg
  let s := (List.range (padded.length / 64)).foldl (md5Chunk padded)
    ⟨0x67452301, 0xefcdab89, 0x98badcfe, 0x10325476⟩
  word32Bytes s.a ++ word32Bytes s.b ++ word32Bytes s.c ++ word32Bytes s.d

/-- The 32-byte key that `EVP_BytesToKey` derives from a password. -/
def derivedKey (password : List Byte) : List Byte :=
  md5 password ++ md5 (md5 password ++ password)

/-- The 16-byte initialization vector that `EVP_BytesToKey` derives from a
password. -/
def derivedIv (password : List Byte) : Block :=
  Block.ofList (md5 (md5 (md5 password ++ password) ++ password))

/-- The cipher `crypto.createCipher('aes-256-cbc', secretKey)` and its decipher
for the bytes of the secret. -/
def secretCipher (secretKey : List Byte) : Cipher :=
  nodeCipher (derivedKey secretKey) (derivedIv secretKey)

/-- The bytes of the secret used when `ENCRYPTION_KEY` is not set. -/
def defaultSecret : List Byte := utf8Encode "your-32-character-encryption-key".toList

/-- The cipher of a process started without `ENCRYPTION_KEY`. -/
def defaultCipher : Cipher := secretCipher defaultSecret

/-! ## JavaScript strings

A JavaScript string is a sequence of UTF-16 code units and may hold a
surrogate that is not part of a pair; a value of type `String` is a sequence
of Unicode scalar values and cannot. The functions `encrypt` and `decrypt`
above are the source functions on the strings without lone surrogates; the
functions below are the same two source functions on all JavaScript strings. -/

/-- A UTF-16 code unit. -/
abbrev CodeUnit := Fin 65536

/-- A JavaScript string value: its UTF-16 code units. -/
abbrev JsString := List CodeUnit

/-- Whether a code unit is a high (leading) surrogate. -/
def isHighSurrogate (u : CodeUnit) : Bool := 0xD800 ≤ u.val && u.val ≤ 0xDBFF

/-- Whether a code unit is a low (trailing) surrogate. -/
def isLowSurrogate (u : CodeUnit) : Bool := 0xDC00 ≤ u.val && u.val ≤ 0xDFFF

/-- The text that Node's `'utf8'` encoding reads from a JavaScript string: a
surrogate pair is one scalar value, and a surrogate outside a pair is replaced
by U+FFFD. -/
def scalarValues : JsString → List Char
  | [] => []
  | [u] =>
    if isHighSurrogate u || isLowSurrogate u then [Char.ofNat 0xFFFD] else [Char.ofNat u.val]
  | u :: v :: rest =>
    if isHighSurrogate u && isLowSurrogate v then
      Char.ofNat (0x10000 + (u.val - 0xD800) * 1024 + (v.val - 0xDC00)) :: scalarValues rest
    else if isHighSurrogate u || isLowSurrogate u then
      Char.ofNat 0xFFFD :: scalarValues (v :: rest)
    else Char.ofNat u.val :: scalarValues (v :: rest)

/-- The code units of a text: one unit for a scalar value below `0x10000`, a
surrogate pair for any other. -/
def codeUnits : List Char → JsString
  | [] => []
  | c :: cs =>
    if c.toNat < 0x10000 then Fin.ofNat c.toNat :: codeUnits cs
    else
      Fin.ofNat (0xD800 + (c.toNat - 0x10000) / 1024)
        :: Fin.ofNat (0xDC00 + (c.toNat - 0x10000) % 1024) :: codeUnits cs

/-- The JavaScript string with the given text. -/
def JsString.ofString (s : String) : JsString := codeUnits s.toList

/-- The call `text.toWellFormed()`: every lone surrogate replaced by U+FFFD. -/
def JsString.toWellFormed (text : JsString) : JsString := codeUnits (scalarValues text)

/-- The call `text.isWellFormed()`: the string has no lone surrogate. -/
def JsString.isWellFormed (text : JsString) : Bool := text.toWellFormed = text

/-- JavaScript truthiness of a possibly-undefined JavaScript string. -/
def jsTruthy : Option JsString → Bool
  | none => false
  | some t => t ≠ []

/-- The call `text.split(sep)` for a one-unit separator, on code units. -/
def jsSplitUnits (sep : CodeUnit) : JsString → List JsString
  | [] => [[]]
  | u :: us =>
    if u = sep then [] :: jsSplitUnits sep us
    else
      match jsSplitUnits sep us with
      | part :: parts => (u :: part) :: parts
      | [] => [[u]]

/-- The function `encrypt` on JavaScript strings; `iv` is the value of
`crypto.randomBytes(16)`. -/
def encryptJs (C : Cipher) (iv : List Byte) (text : Option JsString) : Option JsString :=
  match text with
  | none => text
  | some t =>
    if !jsTruthy (some t) then text
    else
      let encrypted := C.cipherHex (String.mk (scalarValues t))
      some (JsString.ofString (toHex iv ++ ":" ++ encrypted))

/-- The function `decrypt` on JavaScript strings. -/
def decryptJs (C : Cipher) (text : Option JsString) : Option JsString :=
  match text with
  | none => text
  | some t =>
    if !jsTruthy (some t) then text
    else
      let parts := jsSplitUnits 58 t
      let ivHex := parts[0]?
      let encryptedHex := parts[1]?
      if !jsTruthy ivHex || !jsTruthy encryptedHex then text
      else
        match C.decipherUtf8 (String.mk (scalarValues (encryptedHex.getD []))) with
        | some decrypted => some (JsString.ofString decrypted)
        | none => text

/-- The JavaScript string `'\uD800'`: one high surrogate without its pair. -/
def loneSurrogate : JsString := [0xD800]

/-! ## Auxiliary lemmas -/

theorem sumTotalPrice_eq_jsSum (items : List Item) :
    sumTotalPrice items = jsSum (items.map Item.totalPrice) := by
  simp [sumTotalPrice, jsSum, List.foldl_map]

/-- A JavaScript sum in which no addition rounds is the exact sum. -/
theorem foldl_jsAdd_exact (xs : List ℚ) :
    ∀ a : ℚ,
      (∀ k, 1 ≤ k → k ≤ xs.length →
        roundDouble (a + (xs.take k).sum) = a + (xs.take k).sum) →
      xs.foldl jsAdd a = a + xs.sum := by
  induction xs with
  | nil => intro a _; simp
  | cons x rest ih =>
    intro a h
    have h1 : jsAdd a x = a + x := by
      have := h 1 (le_refl 1) (by simp)
      simpa [jsAdd] using this
    rw [List.foldl_cons, h1, ih (a + x), List.sum_cons, add_assoc]
    intro k hk1 hk2
    have := h (k + 1) (by omega) (by simpa using hk2)
    simpa [List.take_succ_cons, add_assoc] using this

theorem jsSum_exact (xs : List ℚ)
    (h : ∀ k ≤ xs.length, roundDouble ((xs.take k).sum) = (xs.take k).sum) :
    jsSum xs = xs.sum := by
  have := foldl_jsAdd_exact xs 0 (fun k _ hk => by simpa using h k hk)
  simpa [jsSum] using this

/-- The errors `save` reports are exactly those of the schema validators. -/
theorem save_errors (o : Order) (env : Env) : (o.save env).errors = validate o := by
  unfold Order.save
  cases h : validate o <;> simp

theorem save_doc_of_valid (o : Order) (env : Env) (h : validate o = []) :
    (o.save env).doc =
      { preSaveStatusHistory env (preSaveOrderNumberTotals env o) with
        isNew := false, statusModified := false } := by
  simp [Order.save, h]

theorem save_doc_of_invalid (o : Order) (env : Env) (h : validate o ≠ []) :
    (o.save env).doc = o := by
  unfold Order.save
  cases h' : validate o with
  | nil => exact absurd h' h
  | cons e es => simp

/-- With line items, the first hook overwrites `subtotal` and `total`. -/
theorem preSaveTotals_totals_of_items (env : Env) (o : Order) (h : o.items ≠ []) :
    (preSaveOrderNumberTotals env o).totals =
      { o.totals with
        subtotal := some (sumTotalPrice o.items)
        total := some (jsSub (jsAdd (jsAdd (sumTotalPrice o.items) o.totals.tax)
          o.totals.shipping) o.totals.discount) } := by
  have hlen : 0 < o.items.length := List.length_pos.mpr h
  unfold preSaveOrderNumberTotals
  by_cases h1 : (!truthy o.orderNumber) = true <;> simp [h1, hlen]

/-- Without line items, the first hook leaves `totals` alone. -/
theorem preSaveTotals_totals_of_no_items (env : Env) (o : Order) (h : o.items = []) :
    (preSaveOrderNumberTotals env o).totals = o.totals := by
  unfold preSaveOrderNumberTotals
  by_cases h1 : (!truthy o.orderNumber) = true <;> simp [h1, h]

theorem preSaveTotals_items (env : Env) (o : Order) :
    (preSaveOrderNumberTotals env o).items = o.items := by
  unfold preSaveOrderNumberTotals
  by_cases h1 : (!truthy o.orderNumber) = true <;> by_cases h2 : o.items.length > 0 <;>
    simp [h1, h2]

theorem preSaveTotals_paymentStatus (env : Env) (o : Order) :
    (preSaveOrderNumberTotals env o).paymentStatus = o.paymentStatus := by
  unfold preSaveOrderNumberTotals
  by_cases h1 : (!truthy o.orderNumber) = true <;> by_cases h2 : o.items.length > 0 <;>
    simp [h1, h2]

theorem preSaveTotals_status (env : Env) (o : Order) :
    (preSaveOrderNumberTotals env o).status = o.status := by
  unfold preSaveOrderNumberTotals
  by_cases h1 : (!truthy o.orderNumber) = true <;> by_cases h2 : o.items.length > 0 <;>
    simp [h1, h2]

theorem preSaveTotals_statusHistory (env : Env) (o : Order) :
    (preSaveOrderNumberTotals env o).statusHistory = o.statusHistory := by
  unfold preSaveOrderNumberTotals
  by_cases h1 : (!truthy o.orderNumber) = true <;> by_cases h2 : o.items.length > 0 <;>
    simp [h1, h2]

theorem preSaveHistory_totals (env : Env) (o : Order) :
    (preSaveStatusHistory env o).totals = o.totals := by
  unfold preSaveStatusHistory
  split <;> rfl

theorem preSaveHistory_items (env : Env) (o : Order) :
    (preSaveStatusHistory env o).items = o.items := by
  unfold preSaveStatusHistory
  split <;> rfl

theorem preSaveHistory_paymentStatus (env : Env) (o : Order) :
    (preSaveStatusHistory env o).paymentStatus = o.paymentStatus := by
  unfold preSaveStatusHistory
  split <;> rfl

theorem preSaveHistory_status (env : Env) (o : Order) :
    (preSaveStatusHistory env o).status = o.status := by
  unfold preSaveStatusHistory
  split <;> rfl

/-- The second hook only ever appends to the history. -/
theorem preSaveHistory_extends (env : Env) (o : Order) :
    o.statusHistory <+: (preSaveStatusHistory env o).statusHistory := by
  unfold preSaveStatusHistory
  split
  · exact List.prefix_append _ _
  · exact List.prefix_refl _

theorem save_paymentStatus (o : Order) (env : Env) :
    (o.save env).doc.paymentStatus = o.paymentStatus := by
  by_cases h : validate o = []
  · rw [save_doc_of_valid o env h]
    simp [preSaveHistory_paymentStatus, preSaveTotals_paymentStatus]
  · rw [save_doc_of_invalid o env h]

theorem save_status (o : Order) (env : Env) : (o.save env).doc.status = o.status := by
  by_cases h : validate o = []
  · rw [save_doc_of_valid o env h]
    simp [preSaveHistory_status, preSaveTotals_status]
  · rw [save_doc_of_invalid o env h]

theorem save_extends (o : Order) (env : Env) :
    o.statusHistory <+: (o.save env).doc.statusHistory := by
  by_cases h : validate o = []
  · rw [save_doc_of_valid o env h]
    have hp := preSaveHistory_extends env (preSaveOrderNumberTotals env o)
    rw [preSaveTotals_statusHistory] at hp
    exact hp
  · rw [save_doc_of_invalid o env h]

theorem checkEnum_eq_nil_iff (path : String) (values : List String) (v : Option String) :
    checkEnum path values v = [] ↔ ∀ s, v = some s → s ∈ values := by
  cases v with
  | none => simp [checkEnum]
  | some s => by_cases h : s ∈ values <;> simp [checkEnum, h]

/-- When every path but `status` is valid, `updateStatus` is rejected exactly
with the errors of the `enum` validator on the new status. -/
theorem updateStatus_errors (o : Order) (newStatus note : Option String)
    (updatedBy : Option ObjectId) (t : Date) (env : Env) (h : validateOther o = []) :
    (o.updateStatus newStatus note updatedBy t env).errors
      = checkEnum "status" statusEnum newStatus := by
  have hp : checkEnum "paymentStatus" paymentStatusEnum (some "paid") = [] := by decide
  simp only [validateOther, List.append_eq_nil] at h
  obtain ⟨⟨⟨⟨⟨⟨⟨⟨⟨h1, h2⟩, h3⟩, h4⟩, h5⟩, h6⟩, h7⟩, h8⟩, h9⟩, h10⟩ := h
  simp only [Order.updateStatus, Order.applyStatus, save_errors, Order.setStatus]
  split <;> simp [validate, validateOther, h1, h2, h3, h4, h5, h6, h7, h8, h9, h10, hp]

theorem updateStatus_status (o : Order) (newStatus note : Option String)
    (updatedBy : Option ObjectId) (t : Date) (env : Env) :
    (o.updateStatus newStatus note updatedBy t env).doc.status = newStatus := by
  simp only [Order.updateStatus, Order.applyStatus, save_status, Order.setStatus]
  split <;> rfl

theorem preSaveTotals_isNew (env : Env) (o : Order) :
    (preSaveOrderNumberTotals env o).isNew = o.isNew := by
  unfold preSaveOrderNumberTotals
  by_cases h1 : (!truthy o.orderNumber) = true <;> by_cases h2 : o.items.length > 0 <;>
    simp [h1, h2]

theorem preSaveTotals_statusModified (env : Env) (o : Order) :
    (preSaveOrderNumberTotals env o).statusModified = o.statusModified := by
  unfold preSaveOrderNumberTotals
  by_cases h1 : (!truthy o.orderNumber) = true <;> by_cases h2 : o.items.length > 0 <;>
    simp [h1, h2]

/-- Saving a valid loaded document whose status is marked modified appends the
entry of the status-history hook. -/
theorem save_history_of_modified (d : Order) (env : Env) (hv : validate d = [])
    (hn : d.isNew = false) (hm : d.statusModified = true) :
    (d.save env).doc.statusHistory = d.statusHistory ++
      [ { status := d.status, timestamp := env.historyNow
          note := some ("Status changed to " ++ jsStr d.status), updatedBy := none } ] := by
  rw [save_doc_of_valid d env hv]
  simp [preSaveStatusHistory, preSaveTotals_isNew, preSaveTotals_statusModified,
    preSaveTotals_statusHistory, preSaveTotals_status, hn, hm]

theorem applyStatus_status (o : Order) (newStatus note : Option String)
    (updatedBy : Option ObjectId) (t : Date) :
    (o.applyStatus newStatus note updatedBy t).status = newStatus := by
  simp only [Order.applyStatus, Order.setStatus]
  split <;> rfl

theorem applyStatus_isNew (o : Order) (newStatus note : Option String)
    (updatedBy : Option ObjectId) (t : Date) :
    (o.applyStatus newStatus note updatedBy t).isNew = o.isNew := by
  simp only [Order.applyStatus, Order.setStatus]
  split <;> rfl

theorem applyStatus_statusModified (o : Order) (newStatus note : Option String)
    (updatedBy : Option ObjectId) (t : Date) :
    (o.applyStatus newStatus note updatedBy t).statusModified
      = (o.statusModified || o.isNew || newStatus != o.status) := by
  simp only [Order.applyStatus, Order.setStatus]
  split <;> rfl

theorem applyStatus_statusHistory (o : Order) (newStatus note : Option String)
    (updatedBy : Option ObjectId) (t : Date) :
    (o.applyStatus newStatus note updatedBy t).statusHistory = o.statusHistory ++
      [ { status := newStatus, timestamp := t
          note := some (jsOr note ("Status changed to " ++ jsStr newStatus))
          updatedBy := updatedBy } ] := by
  simp only [Order.applyStatus, Order.setStatus]
  split <;> rfl

/-! ## Derived totals -/

set_option maxRecDepth 8000 in
/-- C1 as stated fails: with line totals `0.1` and `0.2` the subtotal is the
double `0.30000000000000004`, not their sum; with line totals `2 ^ 53` and `1`
the subtotal and the total are `2 ^ 53`, not `2 ^ 53 + 1`. -/
theorem preSave_totals_rounded :
    roundingOrder.items ≠ [] ∧ totalsFinite roundingOrder = true ∧
    (preSaveOrderNumberTotals sampleEnv roundingOrder).totals.subtotal
      = some (1351079888211149 / 4503599627370496) ∧
    (preSaveOrderNumberTotals sampleEnv roundingOrder).totals.subtotal
      ≠ some ((roundingOrder.items.map Item.totalPrice).sum) ∧
    largeOrder.items ≠ [] ∧ totalsFinite largeOrder = true ∧
    (preSaveOrderNumberTotals sampleEnv largeOrder).totals.subtotal = some 9007199254740992 ∧
    (preSaveOrderNumberTotals sampleEnv largeOrder).totals.subtotal
      ≠ some ((largeOrder.items.map Item.totalPrice).sum) ∧
    (preSaveOrderNumberTotals sampleEnv largeOrder).totals.total
      ≠ some ((largeOrder.items.map Item.totalPrice).sum + largeOrder.totals.tax
          + largeOrder.totals.shipping - largeOrder.totals.discount) := by
  decide!

/-- C1 amended. For every order with a non-empty item list whose totals
computation stays within the finite doubles, after the first pre-save hook
`totals.subtotal` is the JavaScript sum of `totalPrice` over the items (double
additions, left to right from 0) and `totals.total` is the double result of
`((subtotal + tax) + shipping) - discount`. Whenever no addition on the way
rounds, the subtotal is the exact sum, and whenever the three further steps do
not round either, the total is the exact sum plus tax plus shipping minus
discount. -/
theorem preSave_totals_derived (env : Env) (o : Order) (h : o.items ≠ [])
    (_hfin : totalsFinite o = true) :
    (preSaveOrderNumberTotals env o).totals.subtotal
        = some (jsSum (o.items.map Item.totalPrice)) ∧
    (preSaveOrderNumberTotals env o).totals.total
        = some (jsSub (jsAdd (jsAdd (jsSum (o.items.map Item.totalPrice)) o.totals.tax)
            o.totals.shipping) o.totals.discount) ∧
    ((∀ k ≤ o.items.length,
        roundDouble (((o.items.map Item.totalPrice).take k).sum)
          = ((o.items.map Item.totalPrice).take k).sum) →
      (preSaveOrderNumberTotals env o).totals.subtotal
          = some ((o.items.map Item.totalPrice).sum) ∧
      (roundDouble ((o.items.map Item.totalPrice).sum + o.totals.tax)
          = (o.items.map Item.totalPrice).sum + o.totals.tax →
        roundDouble ((o.items.map Item.totalPrice).sum + o.totals.tax + o.totals.shipping)
          = (o.items.map Item.totalPrice).sum + o.totals.tax + o.totals.shipping →
        roundDouble ((o.items.map Item.totalPrice).sum + o.totals.tax + o.totals.shipping
            - o.totals.discount)
          = (o.items.map Item.totalPrice).sum + o.totals.tax + o.totals.shipping
            - o.totals.discount →
        (preSaveOrderNumberTotals env o).totals.total
          = some ((o.items.map Item.totalPrice).sum + o.totals.tax + o.totals.shipping
              - o.totals.discount))) := by
  rw [preSaveTotals_totals_of_items env o h, sumTotalPrice_eq_jsSum]
  refine ⟨rfl, rfl, ?_⟩
  intro hex
  have hsum : jsSum (o.items.map Item.totalPrice) = (o.items.map Item.totalPrice).sum :=
    jsSum_exact _ (fun k hk => hex k (by simpa using hk))
  refine ⟨by simp only [hsum], ?_⟩
  intro h1 h2 h3
  simp only [hsum, jsAdd, jsSub, h1, h2, h3]

set_option maxRecDepth 8000 in
/-- C1 amended, the scenario: one item of quantity 2, unit price 100 and line
total 200 with tax 10, shipping 20 and discount 5; every result is finite, no
step rounds, and the hook gives subtotal 200 and total 225. -/
theorem preSave_totals_derived_scenario :
    scenarioOrder.items ≠ [] ∧ totalsFinite scenarioOrder = true ∧
    (preSaveOrderNumberTotals sampleEnv scenarioOrder).totals.subtotal = some 200 ∧
    (preSaveOrderNumberTotals sampleEnv scenarioOrder).totals.total = some 225 := by
  have h := (preSave_totals_derived sampleEnv scenarioOrder (by decide) (by decide!)).2.2
    (by decide!)
  have hs : (scenarioOrder.items.map Item.totalPrice).sum = 200 := by
    norm_num [scenarioOrder, pendingOrder, lampItem]
  refine ⟨by decide, by decide!, ?_, ?_⟩
  · rw [h.1, hs]
  · rw [h.2 (by decide!) (by decide!) (by decide!), hs]
    norm_num [scenarioOrder]

/-! ## Status transitions -/

/-- On a loaded document whose other paths are valid, a change of status to an
allowed value records two history entries: the one pushed by `updateStatus`
and the one pushed by the status-history hook during the save. -/
theorem updateStatus_history_of_change (o : Order) (s : String) (note : Option String)
    (updatedBy : Option ObjectId) (t : Date) (env : Env) (hv : validateOther o = [])
    (hs : s ∈ statusEnum) (hnew : o.isNew = false) (hne : o.status ≠ some s) :
    (o.updateStatus (some s) note updatedBy t env).doc.statusHistory
      = o.statusHistory ++
        [ { status := some s, timestamp := t
            note := some (jsOr note ("Status changed to " ++ s)), updatedBy := updatedBy },
          { status := some s, timestamp := env.historyNow
            note := some ("Status changed to " ++ s), updatedBy := none } ] := by
  have he := updateStatus_errors o (some s) note updatedBy t env hv
  have hc : checkEnum "status" statusEnum (some s) = [] := by
    rw [checkEnum_eq_nil_iff]
    intro s' h'
    cases h'
    exact hs
  rw [hc, Order.updateStatus, save_errors] at he
  have hm : (o.applyStatus (some s) note updatedBy t).statusModified = true := by
    rw [applyStatus_statusModified]
    have : (some s != o.status) = true := by
      simpa using fun h => hne h.symm
    simp [this]
  rw [Order.updateStatus, save_history_of_modified _ env he
    (by rw [applyStatus_isNew]; exact hnew) hm, applyStatus_statusHistory, applyStatus_status]
  simp [jsStr]

/-- C2. A loaded pending order updated to `confirmed` with a note and an actor
is saved without error and ends with two new history entries, not one: the entry
of `updateStatus` followed by an entry of the status-history hook that has the
generated note and no actor. -/
theorem updateStatus_confirmed_appends_two :
    (pendingOrder.updateStatus (some "confirmed") (some "Payment verified") (some adminId)
        1730000100120 sampleEnv).errors = [] ∧
    (pendingOrder.updateStatus (some "confirmed") (some "Payment verified") (some adminId)
        1730000100120 sampleEnv).doc.statusHistory
      = pendingOrder.statusHistory ++
        [ { status := some "confirmed", timestamp := 1730000100120
            note := some "Payment verified", updatedBy := some adminId },
          { status := some "confirmed", timestamp := 1730000100125
            note := some "Status changed to confirmed", updatedBy := none } ] ∧
    (pendingOrder.updateStatus (some "confirmed") (some "Payment verified") (some adminId)
        1730000100120 sampleEnv).doc.statusHistory.length
      = pendingOrder.statusHistory.length + 2 := by
  decide

/-- C3. `updateStatus` to `delivered` on a cash-on-delivery order sets
`paymentStatus` to `paid`; for every other combination of new status and
payment method it leaves `paymentStatus` as it was. -/
theorem updateStatus_paymentStatus (o : Order) (newStatus note : Option String)
    (updatedBy : Option ObjectId) (t : Date) (env : Env) :
    (newStatus = some "delivered" ∧ o.paymentMethod = some "cash_on_delivery" →
      (o.updateStatus newStatus note updatedBy t env).doc.paymentStatus = some "paid") ∧
    (¬ (newStatus = some "delivered" ∧ o.paymentMethod = some "cash_on_delivery") →
      (o.updateStatus newStatus note updatedBy t env).doc.paymentStatus = o.paymentStatus) := by
  constructor
  · rintro ⟨h1, h2⟩
    simp [Order.updateStatus, Order.applyStatus, save_paymentStatus, Order.setStatus, h1, h2]
  · intro h
    simp only [Order.updateStatus, Order.applyStatus, save_paymentStatus, Order.setStatus]
    split
    · rename_i hc
      simp at hc
      exact absurd hc h
    · rfl

/-- C3 on three documents: cash on delivery marked delivered becomes paid, a
credit-card order marked delivered and a cash-on-delivery order marked shipped
keep their payment status. -/
theorem updateStatus_paymentStatus_examples :
    (pendingOrder.updateStatus (some "delivered") none (some adminId) 1730000100120
        sampleEnv).doc.paymentStatus = some "paid" ∧
    (creditCardOrder.updateStatus (some "delivered") none (some adminId) 1730000100120
        sampleEnv).doc.paymentStatus = creditCardOrder.paymentStatus ∧
    (pendingOrder.updateStatus (some "shipped") none (some adminId) 1730000100120
        sampleEnv).doc.paymentStatus = pendingOrder.paymentStatus :=
  ⟨(updateStatus_paymentStatus pendingOrder _ _ _ _ _).1 ⟨rfl, rfl⟩,
   (updateStatus_paymentStatus creditCardOrder _ _ _ _ _).2 (by decide),
   (updateStatus_paymentStatus pendingOrder _ _ _ _ _).2 (by decide)⟩

/-- C4 as stated fails: an order in status `processing`, for which `canCancel`
is false, is updated to `cancelled` without any error. -/
theorem updateStatus_cancel_processing_accepted :
    processingOrder.status = some "processing" ∧
    processingOrder.canCancel = false ∧
    (processingOrder.updateStatus (some "cancelled") none (some adminId) 1730000100120
        sampleEnv).errors = [] ∧
    (processingOrder.updateStatus (some "cancelled") none (some adminId) 1730000100120
        sampleEnv).doc.status = some "cancelled" := by
  decide

/-- C4 amended. `updateStatus` to `cancelled` does not look at the current
status: for every order whose other paths are valid it is accepted and leaves
the order cancelled. -/
theorem updateStatus_cancel_unconditional (o : Order) (note : Option String)
    (updatedBy : Option ObjectId) (t : Date) (env : Env) (h : validateOther o = []) :
    (o.updateStatus (some "cancelled") note updatedBy t env).errors = [] ∧
    (o.updateStatus (some "cancelled") note updatedBy t env).doc.status = some "cancelled" := by
  refine ⟨?_, updateStatus_status _ _ _ _ _ _⟩
  rw [updateStatus_errors _ _ _ _ _ _ h]
  decide

set_option maxRecDepth 8000 in
/-- C4 amended, on the path pending, confirmed, cancelled: the pending order is
confirmed without error and the resulting document is then cancelled without error. -/
theorem updateStatus_cancel_after_confirm :
    validateOther (pendingOrder.updateStatus (some "confirmed") none (some adminId)
        1730000100120 sampleEnv).doc = [] ∧
    (pendingOrder.updateStatus (some "confirmed") none (some adminId)
        1730000100120 sampleEnv).errors = [] ∧
    ((pendingOrder.updateStatus (some "confirmed") none (some adminId)
        1730000100120 sampleEnv).doc.updateStatus (some "cancelled") (some "Customer request")
        (some adminId) 1730000200000 sampleEnv).errors = [] ∧
    ((pendingOrder.updateStatus (some "confirmed") none (some adminId)
        1730000100120 sampleEnv).doc.updateStatus (some "cancelled") (some "Customer request")
        (some adminId) 1730000200000 sampleEnv).doc.status = some "cancelled" := by
  have hv : validateOther (pendingOrder.updateStatus (some "confirmed") none (some adminId)
      1730000100120 sampleEnv).doc = [] := by decide!
  have h := updateStatus_cancel_unconditional
    (pendingOrder.updateStatus (some "confirmed") none (some adminId) 1730000100120 sampleEnv).doc
    (some "Customer request") (some adminId) 1730000200000 sampleEnv hv
  exact ⟨hv, by decide, h.1, h.2⟩

/-- C5 as stated fails: an undefined new status is not one of the seven allowed
values, yet `updateStatus` with it is saved without a validation error. -/
theorem updateStatus_undefined_accepted :
    (none : Option String) ∉ statusEnum.map some ∧
    (pendingOrder.updateStatus none none (some adminId) 1730000100120 sampleEnv).errors = [] ∧
    (pendingOrder.updateStatus none none (some adminId) 1730000100120 sampleEnv).doc.status
      = none := by
  decide

/-- C5 amended. For every order whose other paths are valid, `updateStatus`
fails with a validation error exactly when the new status is a string outside
the seven allowed values, and then every error is an `enum` error on `status`. -/
theorem updateStatus_fails_iff (o : Order) (newStatus note : Option String)
    (updatedBy : Option ObjectId) (t : Date) (env : Env) (h : validateOther o = []) :
    ((o.updateStatus newStatus note updatedBy t env).errors ≠ [] ↔
      ∃ s, newStatus = some s ∧ s ∉ statusEnum) ∧
    (∀ e ∈ (o.updateStatus newStatus note updatedBy t env).errors,
      e.path = "status" ∧ e.kind = ValidatorKind.enum) := by
  rw [updateStatus_errors _ _ _ _ _ _ h]
  constructor
  · rw [Ne, checkEnum_eq_nil_iff]
    push_neg
    rfl
  · cases newStatus with
    | none => simp [checkEnum]
    | some s => by_cases hs : s ∈ statusEnum <;> simp [checkEnum, hs]

/-- C5 amended, on the valid pending order: the status `bogus` is rejected and
the status `refunded` is accepted. -/
theorem updateStatus_fails_iff_examples :
    validateOther pendingOrder = [] ∧
    (pendingOrder.updateStatus (some "bogus") none (some adminId) 1730000100120
        sampleEnv).errors ≠ [] ∧
    (pendingOrder.updateStatus (some "refunded") none (some adminId) 1730000100120
        sampleEnv).errors = [] := by
  have hv : validateOther pendingOrder = [] := by decide
  refine ⟨hv, ?_, ?_⟩
  · exact (updateStatus_fails_iff pendingOrder (some "bogus") none (some adminId) 1730000100120
      sampleEnv hv).1.mpr ⟨"bogus", rfl, by decide⟩
  · have h := (updateStatus_fails_iff pendingOrder (some "refunded") none (some adminId)
      1730000100120 sampleEnv hv).1
    by_contra hne
    obtain ⟨s, hs, hn⟩ := h.mp hne
    cases hs
    exact hn (by decide)

/-- C6. The status history is append-only: after `updateStatus`, after
`addTracking`, after either pre-save hook and after `save`, the previous
history is an initial segment of the new one. -/
theorem statusHistory_append_only (o : Order) (env : Env) (t : Date)
    (newStatus note trackingNumber : Option String) (updatedBy : Option ObjectId)
    (estimatedDelivery : Option Date) :
    o.statusHistory <+: (o.updateStatus newStatus note updatedBy t env).doc.statusHistory ∧
    o.statusHistory <+: (o.addTracking trackingNumber estimatedDelivery t env).doc.statusHistory ∧
    o.statusHistory <+: (preSaveOrderNumberTotals env o).statusHistory ∧
    o.statusHistory <+: (preSaveStatusHistory env o).statusHistory ∧
    o.statusHistory <+: (o.save env).doc.statusHistory := by
  refine ⟨?_, ?_, ?_, preSaveHistory_extends env o, save_extends o env⟩
  · unfold Order.updateStatus
    refine List.IsPrefix.trans ?_ (save_extends _ env)
    rw [applyStatus_statusHistory]
    exact List.prefix_append _ _
  · unfold Order.addTracking
    refine List.IsPrefix.trans ?_ (save_extends _ env)
    simp only [Order.setStatus]
    cases estimatedDelivery <;> exact List.prefix_append _ _
  · rw [preSaveTotals_statusHistory]

/-! ## Validation and the derived totals -/

set_option maxRecDepth 8000 in
/-- C7. An order with one line item of total 200, no tax, no shipping and a
discount of 500 passes validation, is saved without error and is persisted
with the negative total -300. -/
theorem save_persists_negative_total :
    validate discountedOrder = [] ∧
    (discountedOrder.save sampleEnv).errors = [] ∧
    (discountedOrder.save sampleEnv).doc.totals.subtotal = some 200 ∧
    (discountedOrder.save sampleEnv).doc.totals.total = some (-300) := by
  decide!

set_option maxRecDepth 8000 in
/-- C8 as stated fails: an order whose only item has quantity 2, unit price 100
and line total 1 is saved without error, and the supplied 1 is the subtotal. -/
theorem save_accepts_mismatched_item :
    (∃ item ∈ mismatchedOrder.items,
      |item.totalPrice - item.quantity * item.unitPrice| > 1 / 100) ∧
    (mismatchedOrder.save sampleEnv).errors = [] ∧
    (mismatchedOrder.save sampleEnv).doc.totals.subtotal = some 1 := by
  refine ⟨⟨mismatchedItem, by decide, ?_⟩, by decide!, by decide!⟩
  norm_num [mismatchedItem, lampItem]

/-- C8 amended. The line total is not compared with quantity times unit price:
every order that passes the schema validators and has at least one item is
saved without error and its items are stored as supplied; as long as the
partial sums are finite doubles, the subtotal is the JavaScript sum of the
supplied line totals (double additions, left to right), which is their exact
sum whenever no addition rounds. -/
theorem save_sums_supplied_totalPrice (o : Order) (env : Env) (hv : validate o = [])
    (hne : o.items ≠ []) :
    (o.save env).errors = [] ∧
    (o.save env).doc.items = o.items ∧
    (sumsFinite (o.items.map Item.totalPrice) = true →
      (o.save env).doc.totals.subtotal = some (jsSum (o.items.map Item.totalPrice)) ∧
      ((∀ k ≤ o.items.length,
          roundDouble (((o.items.map Item.totalPrice).take k).sum)
            = ((o.items.map Item.totalPrice).take k).sum) →
        (o.save env).doc.totals.subtotal = some ((o.items.map Item.totalPrice).sum))) := by
  have hsub : (o.save env).doc.totals.subtotal
      = some (jsSum (o.items.map Item.totalPrice)) := by
    rw [save_doc_of_valid o env hv]
    simp only [preSaveHistory_totals, preSaveTotals_totals_of_items env o hne,
      sumTotalPrice_eq_jsSum]
  refine ⟨by rw [save_errors, hv], ?_, fun _ => ⟨hsub, fun hex => ?_⟩⟩
  · rw [save_doc_of_valid o env hv]
    simp only [preSaveHistory_items, preSaveTotals_items]
  · rw [hsub, jsSum_exact _ (fun k hk => hex k (by simpa using hk))]

set_option maxRecDepth 8000 in
/-- C8 amended, on the order with the mismatched item: it is valid, its one
partial sum is finite and exact, and saving it stores the item and the
subtotal 1. -/
theorem save_sums_supplied_totalPrice_mismatched :
    validate mismatchedOrder = [] ∧ mismatchedOrder.items ≠ [] ∧
    sumsFinite (mismatchedOrder.items.map Item.totalPrice) = true ∧
    (mismatchedOrder.save sampleEnv).errors = [] ∧
    (mismatchedOrder.save sampleEnv).doc.items = [mismatchedItem] ∧
    (mismatchedOrder.save sampleEnv).doc.totals.subtotal = some 1 := by
  have h := save_sums_supplied_totalPrice mismatchedOrder sampleEnv (by decide) (by decide)
  have hs : (mismatchedOrder.items.map Item.totalPrice).sum = 1 := by
    norm_num [mismatchedOrder, mismatchedItem, lampItem, pendingOrder]
  refine ⟨by decide, by decide, by decide!, h.1, h.2.1, ?_⟩
  rw [(h.2.2 (by decide!)).2 (by decide!), hs]

/-- C9 as stated fails: two orders without items that agree on items, tax,
shipping and discount and differ in the supplied subtotal and total keep
their different subtotals and totals through the hook. -/
theorem preSave_keeps_supplied_totals_without_items :
    emptyOrderA.items = emptyOrderB.items ∧
    emptyOrderA.totals.tax = emptyOrderB.totals.tax ∧
    emptyOrderA.totals.shipping = emptyOrderB.totals.shipping ∧
    emptyOrderA.totals.discount = emptyOrderB.totals.discount ∧
    (preSaveOrderNumberTotals sampleEnv emptyOrderA).totals.subtotal
      ≠ (preSaveOrderNumberTotals sampleEnv emptyOrderB).totals.subtotal ∧
    (preSaveOrderNumberTotals sampleEnv emptyOrderA).totals.total
      ≠ (preSaveOrderNumberTotals sampleEnv emptyOrderB).totals.total := by
  decide

/-- C9 amended. For two orders that agree on items, tax, shipping and discount:
if the item list is not empty the hook produces the same subtotal and the same
total whatever subtotal and total were supplied; if it is empty the hook
leaves the supplied totals unchanged. -/
theorem preSave_totals_ignore_supplied (env₁ env₂ : Env) (o₁ o₂ : Order)
    (hi : o₁.items = o₂.items) (ht : o₁.totals.tax = o₂.totals.tax)
    (hs : o₁.totals.shipping = o₂.totals.shipping)
    (hd : o₁.totals.discount = o₂.totals.discount) :
    (o₁.items ≠ [] →
      (preSaveOrderNumberTotals env₁ o₁).totals.subtotal
        = (preSaveOrderNumberTotals env₂ o₂).totals.subtotal ∧
      (preSaveOrderNumberTotals env₁ o₁).totals.total
        = (preSaveOrderNumberTotals env₂ o₂).totals.total) ∧
    (o₁.items = [] →
      (preSaveOrderNumberTotals env₁ o₁).totals = o₁.totals ∧
      (preSaveOrderNumberTotals env₂ o₂).totals = o₂.totals) := by
  constructor
  · intro hne
    have hne₂ : o₂.items ≠ [] := hi ▸ hne
    rw [preSaveTotals_totals_of_items env₁ o₁ hne, preSaveTotals_totals_of_items env₂ o₂ hne₂]
    simp [hi, ht, hs, hd]
  · intro he
    exact ⟨preSaveTotals_totals_of_no_items env₁ o₁ he,
      preSaveTotals_totals_of_no_items env₂ o₂ (hi ▸ he)⟩

/-- C9 amended, on documents: the scenario order submitted with subtotal 0 and
total 0 and the pending order holding 200 and 225 leave the hook with the same
subtotal and total; the order without items keeps its supplied totals. -/
theorem preSave_totals_ignore_supplied_examples :
    scenarioOrder.totals.subtotal ≠ pendingOrder.totals.subtotal ∧
    (preSaveOrderNumberTotals sampleEnv scenarioOrder).totals.subtotal
      = (preSaveOrderNumberTotals sampleEnv pendingOrder).totals.subtotal ∧
    (preSaveOrderNumberTotals sampleEnv scenarioOrder).totals.total
      = (preSaveOrderNumberTotals sampleEnv pendingOrder).totals.total ∧
    (preSaveOrderNumberTotals sampleEnv emptyOrderA).totals = emptyOrderA.totals :=
  ⟨by decide,
   ((preSave_totals_ignore_supplied sampleEnv sampleEnv scenarioOrder pendingOrder
      rfl rfl rfl rfl).1 (by decide)).1,
   ((preSave_totals_ignore_supplied sampleEnv sampleEnv scenarioOrder pendingOrder
      rfl rfl rfl rfl).1 (by decide)).2,
   ((preSave_totals_ignore_supplied sampleEnv sampleEnv emptyOrderA emptyOrderA
      rfl rfl rfl rfl).2 rfl).1⟩

/-- C10. An order submitted with `consentGiven` false, and valid otherwise,
passes validation and is saved without error, still without consent. -/
theorem save_accepts_missing_consent :
    noConsentOrder.consentGiven = some false ∧
    validate noConsentOrder = [] ∧
    (noConsentOrder.save sampleEnv).errors = [] ∧
    (noConsentOrder.save sampleEnv).doc.consentGiven = some false := by
  decide

/-! ## Auxiliary lemmas: field cipher -/

theorem jsSplit_ne_nil (sep : Char) (l : List Char) : jsSplit sep l ≠ [] := by
  induction l with
  | nil => simp [jsSplit]
  | cons c cs ih =>
    unfold jsSplit
    split
    · simp
    · split <;> simp

theorem jsSplit_head (sep : Char) (l : List Char) :
    (jsSplit sep l)[0]? = some (l.takeWhile (fun c => c != sep)) := by
  induction l with
  | nil => simp [jsSplit]
  | cons c cs ih =>
    unfold jsSplit
    by_cases h : c = sep
    · simp [h]
    · cases hs : jsSplit sep cs with
      | nil => exact absurd hs (jsSplit_ne_nil sep cs)
      | cons part parts =>
        rw [hs] at ih
        simp at ih
        simp [h, ih]

theorem jsSplit_second (sep : Char) (l : List Char) :
    (jsSplit sep l)[1]? =
      if sep ∈ l then
        some (((l.dropWhile (fun c => c != sep)).drop 1).takeWhile (fun c => c != sep))
      else none := by
  induction l with
  | nil => simp [jsSplit]
  | cons c cs ih =>
    unfold jsSplit
    by_cases h : c = sep
    · subst h
      have := jsSplit_head c cs
      simp [this]
    · cases hs : jsSplit sep cs with
      | nil => exact absurd hs (jsSplit_ne_nil sep cs)
      | cons part parts =>
        rw [hs] at ih
        have hne : ¬ sep = c := fun e => h e.symm
        simp at ih
        simp [h, hne, ih]

theorem truthy_some (s : String) : truthy (some s) = true ↔ s ≠ "" := by
  simp [truthy]

theorem split_part_zero (t : String) :
    ((jsSplit ':' t.toList).map String.mk)[0]? = some (partBeforeColon t) := by
  rw [List.getElem?_map, jsSplit_head]
  rfl

theorem split_part_one (t : String) :
    ((jsSplit ':' t.toList).map String.mk)[1]? =
      if ':' ∈ t.toList then some (partAfterColon t) else none := by
  rw [List.getElem?_map, jsSplit_second]
  split <;> rfl

/-- What `decrypt` returns for a defined token, in terms of the parts around
the first `:`. -/
theorem decrypt_some (C : Cipher) (t : String) :
    decrypt C (some t) =
      if t = "" ∨ ':' ∉ t.toList ∨ partBeforeColon t = "" ∨ partAfterColon t = "" then some t
      else
        match C.decipherUtf8 (partAfterColon t) with
        | some decrypted => some decrypted
        | none => some t := by
  simp only [decrypt]
  rw [split_part_zero, split_part_one]
  by_cases h0 : t = ""
  · rw [if_pos (Or.inl h0)]
    simp [h0, truthy]
  · have ht : truthy (some t) = true := (truthy_some t).mpr h0
    simp only [ht, Bool.not_true, Bool.false_eq_true, if_false]
    by_cases hc : ':' ∈ t.toList
    · rw [if_pos hc]
      by_cases h1 : partBeforeColon t = ""
      · rw [if_pos (Or.inr (Or.inr (Or.inl h1)))]
        simp [h1, truthy]
      · have t1 : truthy (some (partBeforeColon t)) = true := (truthy_some _).mpr h1
        by_cases h2 : partAfterColon t = ""
        · rw [if_pos (Or.inr (Or.inr (Or.inr h2)))]
          simp [h2, truthy]
        · have t2 : truthy (some (partAfterColon t)) = true := (truthy_some _).mpr h2
          have hn : ¬ (t = "" ∨ ':' ∉ t.toList ∨ partBeforeColon t = "" ∨
              partAfterColon t = "") := by
            rintro (h | h | h | h)
            · exact h0 h
            · exact h hc
            · exact h1 h
            · exact h2 h
          rw [if_neg hn]
          simp only [t1, t2, jsStr, Bool.not_true, Bool.or_self, Bool.false_eq_true, if_false]
    · rw [if_neg hc, if_pos (Or.inr (Or.inl hc))]
      simp [truthy]

theorem hexDigit_ne_colon (n : Nat) : hexDigit n ≠ ':' := by
  unfold hexDigit
  by_cases h : n < 16
  · interval_cases n <;> decide
  · have : (['0', '1', '2', '3', '4', '5', '6', '7', '8', '9', 'a', 'b', 'c', 'd', 'e',
        'f'] : List Char).getD n '0' = '0' := by
      rw [List.getD_eq_default]
      simpa using h
    rw [this]
    decide

theorem colon_not_mem_hexChars (bytes : List (Fin 256)) : ':' ∉ hexChars bytes := by
  induction bytes with
  | nil => simp [hexChars]
  | cons b rest ih =>
    simp only [hexChars, List.mem_cons, not_or]
    exact ⟨fun h => hexDigit_ne_colon _ h.symm, fun h => hexDigit_ne_colon _ h.symm, ih⟩

theorem colon_not_mem_of_isHex (s : String) (h : isHex s = true) : ':' ∉ s.toList := by
  intro hc
  have := (List.all_eq_true.mp h) ':' hc
  revert this
  decide

theorem token_toList (iv : List (Fin 256)) (x : String) :
    (toHex iv ++ ":" ++ x).toList = hexChars iv ++ ':' :: x.toList := by
  simp [toHex, String.toList]

theorem colon_mem_token (iv : List (Fin 256)) (x : String) :
    ':' ∈ (toHex iv ++ ":" ++ x).toList := by
  rw [token_toList]
  simp

theorem ne_colon_of_not_mem (l : List Char) (h : ':' ∉ l) :
    ∀ a ∈ l, (fun c : Char => c != ':') a = true := by
  intro a ha
  have : a ≠ ':' := fun e => h (e ▸ ha)
  simpa using this

theorem takeWhile_ne_of_not_mem (l : List Char) (h : ':' ∉ l) :
    l.takeWhile (fun c => c != ':') = l :=
  List.takeWhile_eq_self_iff.mpr (ne_colon_of_not_mem l h)

theorem takeWhile_token (a b : List Char) (h : ':' ∉ a) :
    (a ++ ':' :: b).takeWhile (fun c => c != ':') = a := by
  rw [List.takeWhile_append_of_pos (ne_colon_of_not_mem a h)]
  simp [List.takeWhile_cons]

theorem dropWhile_token (a b : List Char) (h : ':' ∉ a) :
    (a ++ ':' :: b).dropWhile (fun c => c != ':') = ':' :: b := by
  rw [List.dropWhile_append_of_pos (ne_colon_of_not_mem a h)]
  simp [List.dropWhile_cons]

/-- The part of an `encrypt` token before the first `:` is the hexadecimal IV. -/
theorem partBeforeColon_token (iv : List (Fin 256)) (x : String) :
    partBeforeColon (toHex iv ++ ":" ++ x) = toHex iv := by
  unfold partBeforeColon
  rw [token_toList, takeWhile_token _ _ (colon_not_mem_hexChars iv)]
  rfl

/-- The part of an `encrypt` token after the first `:` is the cipher output,
as long as that output has no `:` of its own. -/
theorem partAfterColon_token (iv : List (Fin 256)) (x : String) (h : ':' ∉ x.toList) :
    partAfterColon (toHex iv ++ ":" ++ x) = x := by
  unfold partAfterColon
  rw [token_toList, dropWhile_token _ _ (colon_not_mem_hexChars iv)]
  simp only [List.drop_succ_cons, List.drop_zero]
  rw [takeWhile_ne_of_not_mem _ h]
  rfl

theorem toHex_ne_empty (iv : List (Fin 256)) (h : iv ≠ []) : toHex iv ≠ "" := by
  cases iv with
  | nil => exact absurd rfl h
  | cons b rest =>
    intro he
    have := congrArg String.toList he
    simp [toHex, hexChars, String.toList] at this

theorem encrypt_some (C : Cipher) (iv : List (Fin 256)) (p : String) (hp : p ≠ "") :
    encrypt C iv (some p) = some (toHex iv ++ ":" ++ C.cipherHex p) := by
  simp [encrypt, truthy, hp]

/-- Decryption of a token built by `encrypt`, when the cipher output is a
non-empty hexadecimal string. -/
theorem decrypt_token (C : Cipher) (iv : List (Fin 256)) (x : String) (hiv : iv ≠ [])
    (hx : x ≠ "") (hhex : isHex x = true) :
    decrypt C (some (toHex iv ++ ":" ++ x)) =
      match C.decipherUtf8 x with
      | some decrypted => some decrypted
      | none => some (toHex iv ++ ":" ++ x) := by
  have hcol := colon_not_mem_of_isHex x hhex
  rw [decrypt_some, partBeforeColon_token, partAfterColon_token iv x hcol]
  have hn : ¬ (toHex iv ++ ":" ++ x = "" ∨ ':' ∉ (toHex iv ++ ":" ++ x).toList ∨
      toHex iv = "" ∨ x = "") := by
    rintro (h | h | h | h)
    · have := congrArg String.toList h
      rw [token_toList] at this
      simp [String.toList] at this
    · exact h (colon_mem_token iv x)
    · exact toHex_ne_empty iv hiv h
    · exact hx h
  rw [if_neg hn]

/-! ## The block cipher is invertible -/

theorem bxor_comm (a b : Byte) : bxor a b = bxor b a :=
  Fin.ext (Nat.xor_comm a.val b.val)

theorem bxor_assoc (a b c : Byte) : bxor (bxor a b) c = bxor a (bxor b c) :=
  Fin.ext (Nat.xor_assoc a.val b.val c.val)

theorem bxor_left_comm (a b c : Byte) : bxor a (bxor b c) = bxor b (bxor a c) := by
  rw [← bxor_assoc, bxor_comm a b, bxor_assoc]

theorem bxor_cancel_right (a b : Byte) : bxor (bxor a b) b = a := by
  apply Fin.ext
  show (a.val ^^^ b.val) ^^^ b.val = a.val
  rw [Nat.xor_assoc, Nat.xor_self, Nat.xor_zero]

theorem bxor_zero (a : Byte) : bxor a 0 = a := by
  apply Fin.ext
  show a.val ^^^ 0 = a.val
  rw [Nat.xor_zero]

set_option maxRecDepth 100000 in
theorem invSubByte_subByte : ∀ b : Byte, invSubByte (subByte b) = b := by decide!

theorem testBit_ite_const (p : Bool) (c i : Nat) :
    (if p = true then c else 0).testBit i = (p && c.testBit i) := by
  cases p <;> simp

theorem testBit_seven (v : Nat) (h : v < 256) : v.testBit 7 = decide (128 ≤ v) := by
  rw [Nat.testBit_to_div_mod]
  congr 1
  apply propext
  constructor <;> intro h2 <;> omega

theorem xtime_val (b : Byte) :
    (xtime b).val = ((b.val * 2) % 256) ^^^ (if b.val.testBit 7 = true then 27 else 0) := by
  have hb := b.isLt
  show (if b.val < 128 then b.val * 2 else (b.val * 2 - 256) ^^^ 27) % 256 = _
  rw [testBit_seven _ hb]
  by_cases h : b.val < 128
  · have h2 : ¬ 128 ≤ b.val := by omega
    simp only [h, h2, if_true, decide_False, Bool.false_eq_true, if_false, Nat.xor_zero]
  · have h2 : 128 ≤ b.val := by omega
    have h3 : (b.val * 2 - 256) ^^^ 27 < 2 ^ 8 :=
      Nat.xor_lt_two_pow (by omega) (by omega)
    have h4 : b.val * 2 % 256 = b.val * 2 - 256 := by omega
    simp only [h, h2, if_false, decide_True, if_true, h4]
    omega

theorem xtime_bxor (a b : Byte) : xtime (bxor a b) = bxor (xtime a) (xtime b) := by
  apply Fin.ext
  show (xtime (bxor a b)).val = (xtime a).val ^^^ (xtime b).val
  rw [xtime_val, xtime_val, xtime_val]
  show ((a.val ^^^ b.val) * 2) % 256 ^^^ (if (a.val ^^^ b.val).testBit 7 = true then 27 else 0) = _
  apply Nat.eq_of_testBit_eq
  intro i
  have e : ∀ v : Nat, v * 2 = v <<< 1 := fun v => by rw [Nat.shiftLeft_eq]
  have e256 : (256 : Nat) = 2 ^ 8 := rfl
  simp only [e, e256, Nat.testBit_xor, Nat.testBit_mod_two_pow, Nat.testBit_shiftLeft,
    testBit_ite_const]
  generalize decide (i < 8) = p1
  generalize decide (i ≥ 1) = p2
  generalize a.val.testBit (i - 1) = p3
  generalize b.val.testBit (i - 1) = p4
  generalize a.val.testBit 7 = p5
  generalize b.val.testBit 7 = p6
  generalize Nat.testBit 27 i = p7
  cases p1 <;> cases p2 <;> cases p3 <;> cases p4 <;> cases p5 <;> cases p6 <;> cases p7 <;> rfl

theorem mul3_bxor (a b : Byte) : mul3 (bxor a b) = bxor (mul3 a) (mul3 b) := by
  simp only [mul3, xtime_bxor, bxor_assoc, bxor_left_comm, bxor_comm]

theorem mul9_bxor (a b : Byte) : mul9 (bxor a b) = bxor (mul9 a) (mul9 b) := by
  simp only [mul9, xtime_bxor, bxor_assoc, bxor_left_comm, bxor_comm]

theorem mul11_bxor (a b : Byte) : mul11 (bxor a b) = bxor (mul11 a) (mul11 b) := by
  simp only [mul11, xtime_bxor, bxor_assoc, bxor_left_comm, bxor_comm]

theorem mul13_bxor (a b : Byte) : mul13 (bxor a b) = bxor (mul13 a) (mul13 b) := by
  simp only [mul13, xtime_bxor, bxor_assoc, bxor_left_comm, bxor_comm]

theorem mul14_bxor (a b : Byte) : mul14 (bxor a b) = bxor (mul14 a) (mul14 b) := by
  simp only [mul14, xtime_bxor, bxor_assoc, bxor_left_comm, bxor_comm]

set_option maxRecDepth 100000 in
theorem mix_coeff_same : ∀ b : Byte,
    bxor (bxor (bxor (mul14 (xtime b)) (mul11 b)) (mul13 b)) (mul9 (mul3 b)) = b := by
  decide!

set_option maxRecDepth 100000 in
theorem mix_coeff_one : ∀ b : Byte,
    bxor (bxor (bxor (mul14 (mul3 b)) (mul11 (xtime b))) (mul13 b)) (mul9 b) = 0 := by
  decide!

set_option maxRecDepth 100000 in
theorem mix_coeff_two : ∀ b : Byte,
    bxor (bxor (bxor (mul14 b) (mul11 (mul3 b))) (mul13 (xtime b))) (mul9 b) = 0 := by
  decide!

set_option maxRecDepth 100000 in
theorem mix_coeff_three : ∀ b : Byte,
    bxor (bxor (bxor (mul14 b) (mul11 b)) (mul13 (mul3 b))) (mul9 (xtime b)) = 0 := by
  decide!

theorem bxor_regroup (a1 a2 a3 a4 b1 b2 b3 b4 c1 c2 c3 c4 d1 d2 d3 d4 : Byte) :
    bxor (bxor (bxor (bxor (bxor (bxor a1 b1) c1) d1) (bxor (bxor (bxor a2 b2) c2) d2))
        (bxor (bxor (bxor a3 b3) c3) d3)) (bxor (bxor (bxor a4 b4) c4) d4)
      = bxor (bxor (bxor (bxor (bxor (bxor a1 a2) a3) a4) (bxor (bxor (bxor b1 b2) b3) b4))
        (bxor (bxor (bxor c1 c2) c3) c4)) (bxor (bxor (bxor d1 d2) d3) d4) := by
  simp only [bxor_assoc, bxor_left_comm, bxor_comm]

theorem bxor_regroup_one (a1 a2 a3 a4 b1 b2 b3 b4 c1 c2 c3 c4 d1 d2 d3 d4 : Byte) :
    bxor (bxor (bxor (bxor (bxor (bxor a1 b1) c1) d1) (bxor (bxor (bxor a2 b2) c2) d2))
        (bxor (bxor (bxor a3 b3) c3) d3)) (bxor (bxor (bxor a4 b4) c4) d4)
      = bxor (bxor (bxor (bxor (bxor (bxor a2 a3) a4) a1) (bxor (bxor (bxor b2 b3) b4) b1))
        (bxor (bxor (bxor c2 c3) c4) c1)) (bxor (bxor (bxor d2 d3) d4) d1) := by
  simp only [bxor_assoc, bxor_left_comm, bxor_comm]

theorem bxor_regroup_two (a1 a2 a3 a4 b1 b2 b3 b4 c1 c2 c3 c4 d1 d2 d3 d4 : Byte) :
    bxor (bxor (bxor (bxor (bxor (bxor a1 b1) c1) d1) (bxor (bxor (bxor a2 b2) c2) d2))
        (bxor (bxor (bxor a3 b3) c3) d3)) (bxor (bxor (bxor a4 b4) c4) d4)
      = bxor (bxor (bxor (bxor (bxor (bxor a3 a4) a1) a2) (bxor (bxor (bxor b3 b4) b1) b2))
        (bxor (bxor (bxor c3 c4) c1) c2)) (bxor (bxor (bxor d3 d4) d1) d2) := by
  simp only [bxor_assoc, bxor_left_comm, bxor_comm]

theorem bxor_regroup_three (a1 a2 a3 a4 b1 b2 b3 b4 c1 c2 c3 c4 d1 d2 d3 d4 : Byte) :
    bxor (bxor (bxor (bxor (bxor (bxor a1 b1) c1) d1) (bxor (bxor (bxor a2 b2) c2) d2))
        (bxor (bxor (bxor a3 b3) c3) d3)) (bxor (bxor (bxor a4 b4) c4) d4)
      = bxor (bxor (bxor (bxor (bxor (bxor a4 a1) a2) a3) (bxor (bxor (bxor b4 b1) b2) b3))
        (bxor (bxor (bxor c4 c1) c2) c3)) (bxor (bxor (bxor d4 d1) d2) d3) := by
  simp only [bxor_assoc, bxor_left_comm, bxor_comm]

theorem invMixColumn_mixColumn (w : Word) : invMixColumn (mixColumn w) = w := by
  obtain ⟨a, b, c, d⟩ := w
  simp only [invMixColumn, mixColumn, mul9_bxor, mul11_bxor, mul13_bxor, mul14_bxor,
    Word.mk.injEq]
  refine ⟨?_, ?_, ?_, ?_⟩
  · rw [bxor_regroup, mix_coeff_same, mix_coeff_one, mix_coeff_two, mix_coeff_three]
    simp only [bxor_zero]
  · rw [bxor_regroup_one, mix_coeff_three, mix_coeff_same, mix_coeff_one, mix_coeff_two]
    simp only [bxor_zero, bxor_comm 0 b]
  · rw [bxor_regroup_two, mix_coeff_two, mix_coeff_three, mix_coeff_same, mix_coeff_one]
    simp only [bxor_zero, bxor_comm 0 c]
  · rw [bxor_regroup_three, mix_coeff_one, mix_coeff_two, mix_coeff_three, mix_coeff_same]
    simp only [bxor_zero, bxor_comm 0 d]

theorem bxor_zero_left (a : Byte) : bxor 0 a = a := by rw [bxor_comm, bxor_zero]

theorem wordXor_cancel_right (u v : Word) : (u.xor v).xor v = u := by
  obtain ⟨a, b, c, d⟩ := u
  simp only [Word.xor, bxor_cancel_right]

theorem blockXor_cancel_right (s t : Block) : (s.xor t).xor t = s := by
  obtain ⟨a, b, c, d⟩ := s
  simp only [Block.xor, wordXor_cancel_right]

theorem invSubBytes_subBytes (s : Block) : invSubBytes (subBytes s) = s := by
  obtain ⟨⟨a0, a1, a2, a3⟩, ⟨b0, b1, b2, b3⟩, ⟨c0, c1, c2, c3⟩, ⟨d0, d1, d2, d3⟩⟩ := s
  simp only [invSubBytes, subBytes, Block.mapWords, Word.map, invSubByte_subByte]

theorem invShiftRows_shiftRows (s : Block) : invShiftRows (shiftRows s) = s := rfl

theorem invMixColumns_mixColumns (s : Block) : invMixColumns (mixColumns s) = s := by
  obtain ⟨a, b, c, d⟩ := s
  simp only [invMixColumns, mixColumns, Block.mapWords, invMixColumn_mixColumn]

theorem decryptRounds_encryptRounds (keys : List Block) :
    ∀ s : Block, decryptRounds keys (encryptRounds keys s) = s := by
  induction keys with
  | nil => intro s; rfl
  | cons k ks ih =>
    intro s
    cases ks with
    | nil =>
      simp only [encryptRounds, decryptRounds, blockXor_cancel_right, invShiftRows_shiftRows,
        invSubBytes_subBytes]
    | cons k2 ks =>
      simp only [encryptRounds, decryptRounds, ih, blockXor_cancel_right,
        invMixColumns_mixColumns, invShiftRows_shiftRows, invSubBytes_subBytes]

theorem decryptBlock_encryptBlock (keys : List Block) (s : Block) :
    decryptBlock keys (encryptBlock keys s) = s := by
  cases keys with
  | nil => rfl
  | cons k ks =>
    simp only [encryptBlock, decryptBlock, decryptRounds_encryptRounds,
      blockXor_cancel_right]

theorem cbcDecrypt_cbcEncrypt (keys : List Block) (ps : List Block) :
    ∀ prev : Block, cbcDecrypt keys prev (cbcEncrypt keys prev ps) = ps := by
  induction ps with
  | nil => intro prev; rfl
  | cons p ps ih =>
    intro prev
    simp only [cbcEncrypt, cbcDecrypt, decryptBlock_encryptBlock, blockXor_cancel_right, ih]

/-! ## Blocks, padding and encodings -/

theorem Block.toList_length (b : Block) : b.toList.length = 16 := rfl

theorem Block.ofList_toList (b : Block) : Block.ofList b.toList = b := rfl

theorem Block.toList_ofList (l : List Byte) (h : l.length = 16) :
    (Block.ofList l).toList = l := by
  match l, h with
  | [_, _, _, _, _, _, _, _, _, _, _, _, _, _, _, _], _ => rfl

theorem blocksToBytes_length (bs : List Block) : (blocksToBytes bs).length = 16 * bs.length := by
  induction bs with
  | nil => rfl
  | cons b bs ih =>
    simp only [blocksToBytes, List.length_append, Block.toList_length, ih, List.length_cons]
    omega

theorem chunkBlocks_blocksToBytes (bs : List Block) :
    ∀ fuel, bs.length ≤ fuel → chunkBlocks fuel (blocksToBytes bs) = some bs := by
  induction bs with
  | nil =>
    intro fuel _
    cases fuel <;> simp [chunkBlocks, blocksToBytes]
  | cons b bs ih =>
    intro fuel hfuel
    cases fuel with
    | zero => simp at hfuel
    | succ fuel =>
      have hlen : b.toList.length = 16 := Block.toList_length b
      have hne : blocksToBytes (b :: bs) ≠ [] := by
        intro h
        have := congrArg List.length h
        simp [blocksToBytes, hlen] at this
      have h16 : ¬ (blocksToBytes (b :: bs)).length < 16 := by
        simp [blocksToBytes, hlen]
      have htake : (blocksToBytes (b :: bs)).take 16 = b.toList := by
        simp only [blocksToBytes]
        rw [← hlen, List.take_left]
      have hdrop : (blocksToBytes (b :: bs)).drop 16 = blocksToBytes bs := by
        simp only [blocksToBytes]
        rw [← hlen, List.drop_left]
      simp only [chunkBlocks, hne, h16, if_false, htake, hdrop,
        ih fuel (by simpa using hfuel), Option.map_some', Block.ofList_toList]

theorem cbcEncrypt_length (keys : List Block) (ps : List Block) :
    ∀ prev, (cbcEncrypt keys prev ps).length = ps.length := by
  induction ps with
  | nil => intro prev; rfl
  | cons p ps ih => intro prev; simp only [cbcEncrypt, List.length_cons, ih]

theorem padBlocksAux_ne_nil (fuel : Nat) (l : List Byte) : padBlocksAux fuel l ≠ [] := by
  cases fuel with
  | zero => simp [padBlocksAux]
  | succ fuel =>
    simp only [padBlocksAux]
    split <;> simp

theorem unpadBlocks_cons (b : Block) (bs : List Block) (h : bs ≠ []) :
    unpadBlocks (b :: bs) = (unpadBlocks bs).map (fun rest => b.toList ++ rest) := by
  cases bs with
  | nil => exact absurd rfl h
  | cons b2 bs => rfl

theorem unpadFinal_finalBlock (l : List Byte) (h : l.length < 16) :
    unpadFinal (finalBlock l) = some l := by
  rcases l with _ | ⟨a0, l⟩
  · rfl
  rcases l with _ | ⟨a1, l⟩
  · rfl
  rcases l with _ | ⟨a2, l⟩
  · rfl
  rcases l with _ | ⟨a3, l⟩
  · rfl
  rcases l with _ | ⟨a4, l⟩
  · rfl
  rcases l with _ | ⟨a5, l⟩
  · rfl
  rcases l with _ | ⟨a6, l⟩
  · rfl
  rcases l with _ | ⟨a7, l⟩
  · rfl
  rcases l with _ | ⟨a8, l⟩
  · rfl
  rcases l with _ | ⟨a9, l⟩
  · rfl
  rcases l with _ | ⟨a10, l⟩
  · rfl
  rcases l with _ | ⟨a11, l⟩
  · rfl
  rcases l with _ | ⟨a12, l⟩
  · rfl
  rcases l with _ | ⟨a13, l⟩
  · rfl
  rcases l with _ | ⟨a14, l⟩
  · rfl
  rcases l with _ | ⟨a15, l⟩
  · rfl
  simp only [List.length_cons] at h
  omega

theorem unpadBlocks_padBlocksAux (fuel : Nat) :
    ∀ l : List Byte, l.length ≤ fuel → unpadBlocks (padBlocksAux fuel l) = some l := by
  induction fuel with
  | zero =>
    intro l hl
    have : l = [] := List.length_eq_zero.mp (Nat.le_zero.mp hl)
    subst this
    rfl
  | succ fuel ih =>
    intro l hl
    simp only [padBlocksAux]
    split
    · rename_i h16
      rw [unpadBlocks_cons _ _ (padBlocksAux_ne_nil _ _),
        ih (l.drop 16) (by rw [List.length_drop]; omega)]
      simp only [Option.map_some', Option.some.injEq]
      rw [Block.toList_ofList _ (by rw [List.length_take]; omega), List.take_append_drop]
    · rename_i h16
      exact unpadFinal_finalBlock l (by omega)

theorem unpadBlocks_padBlocks (l : List Byte) : unpadBlocks (padBlocks l) = some l :=
  unpadBlocks_padBlocksAux l.length l (le_refl _)

set_option maxRecDepth 100000 in
theorem hexNibble_hexDigit : ∀ n : Fin 16, hexNibble (hexDigit n.val) = some n.val := by
  decide

theorem hexBytes_hexChars (bs : List Byte) : hexBytes (hexChars bs) = bs := by
  induction bs with
  | nil => rfl
  | cons b bs ih =>
    have h1 := hexNibble_hexDigit ⟨b.val / 16, by omega⟩
    have h2 := hexNibble_hexDigit ⟨b.val % 16, by omega⟩
    simp only at h1 h2
    simp only [hexChars, hexBytes, h1, h2, ih]
    congr 1
    apply Fin.ext
    show (b.val / 16 * 16 + b.val % 16) % 256 = b.val
    omega

set_option maxRecDepth 100000 in
theorem hexValue_hexDigit : ∀ n : Fin 16, (hexValue (hexDigit n.val)).isSome = true := by
  decide

theorem all_hex_hexChars (bs : List Byte) :
    (hexChars bs).all (fun c => (hexValue c).isSome) = true := by
  induction bs with
  | nil => rfl
  | cons b bs ih =>
    have h1 := hexValue_hexDigit ⟨b.val / 16, by omega⟩
    have h2 := hexValue_hexDigit ⟨b.val % 16, by omega⟩
    simp only at h1 h2
    simp only [hexChars, List.all_cons, h1, h2, Bool.true_and]
    exact ih

theorem isHex_toHex (bs : List Byte) : isHex (toHex bs) = true :=
  all_hex_hexChars bs

theorem byte_val (k : Nat) : (Fin.ofNat k : Byte).val = k % 256 := rfl

theorem utf8DecodeFrom_cons (st : Option Utf8Pending) (b : Byte) (bs : List Byte) :
    utf8DecodeFrom st (b :: bs) = (utf8Step st b).1 ++ utf8DecodeFrom (utf8Step st b).2 bs := rfl

theorem utf8Lead_one (n : Nat) (h : n < 0x80) :
    utf8Lead (Fin.ofNat n) = ([Char.ofNat n], none) := by
  have e : n % 256 = n := by omega
  simp only [utf8Lead, byte_val, e, if_pos h]

theorem utf8Lead_two (v : Nat) (h1 : 0xC2 ≤ v) (h2 : v ≤ 0xDF) :
    utf8Lead (Fin.ofNat v) = ([], some ⟨1, v % 32, 0x80, 0xBF⟩) := by
  have e : v % 256 = v := by omega
  simp only [utf8Lead, byte_val, e]
  rw [if_neg (by omega), if_pos ⟨h1, h2⟩]

theorem utf8Lead_three (v : Nat) (h1 : 0xE0 ≤ v) (h2 : v ≤ 0xEF) :
    utf8Lead (Fin.ofNat v) = ([], some ⟨2, v % 16, if v = 0xE0 then 0xA0 else 0x80,
      if v = 0xED then 0x9F else 0xBF⟩) := by
  have e : v % 256 = v := by omega
  simp only [utf8Lead, byte_val, e]
  rw [if_neg (by omega), if_neg (by omega), if_pos ⟨h1, h2⟩]

theorem utf8Lead_four (v : Nat) (h1 : 0xF0 ≤ v) (h2 : v ≤ 0xF4) :
    utf8Lead (Fin.ofNat v) = ([], some ⟨3, v % 8, if v = 0xF0 then 0x90 else 0x80,
      if v = 0xF4 then 0x8F else 0xBF⟩) := by
  have e : v % 256 = v := by omega
  simp only [utf8Lead, byte_val, e]
  rw [if_neg (by omega), if_neg (by omega), if_neg (by omega), if_pos ⟨h1, h2⟩]

theorem utf8Step_last (cp lo hi v : Nat) (h1 : lo ≤ v) (h2 : v ≤ hi) (h3 : v < 256) :
    utf8Step (some ⟨1, cp, lo, hi⟩) (Fin.ofNat v) = ([Char.ofNat (cp * 64 + v % 64)], none) := by
  have e : v % 256 = v := by omega
  simp only [utf8Step, byte_val, e]
  rw [if_neg (by omega)]
  simp

theorem utf8Step_more (k cp lo hi v : Nat) (h1 : lo ≤ v) (h2 : v ≤ hi) (h3 : v < 256) :
    utf8Step (some ⟨k + 2, cp, lo, hi⟩) (Fin.ofNat v)
      = ([], some ⟨k + 1, cp * 64 + v % 64, 0x80, 0xBF⟩) := by
  have e : v % 256 = v := by omega
  simp only [utf8Step, byte_val, e]
  rw [if_neg (by omega)]
  simp

theorem utf8Step_none (b : Byte) : utf8Step none b = utf8Lead b := rfl

theorem utf8DecodeFrom_encoded (n : Nat) (hv : n < 0xD800 ∨ (0xDFFF < n ∧ n < 0x110000))
    (rest : List Byte) :
    utf8DecodeFrom none
      ((if n < 0x80 then [(Fin.ofNat n : Byte)]
        else if n < 0x800 then [Fin.ofNat (0xC0 + n / 64), Fin.ofNat (0x80 + n % 64)]
        else if n < 0x10000 then
          [Fin.ofNat (0xE0 + n / 4096), Fin.ofNat (0x80 + n / 64 % 64), Fin.ofNat (0x80 + n % 64)]
        else
          [Fin.ofNat (0xF0 + n / 262144), Fin.ofNat (0x80 + n / 4096 % 64),
            Fin.ofNat (0x80 + n / 64 % 64), Fin.ofNat (0x80 + n % 64)]) ++ rest)
      = Char.ofNat n :: utf8DecodeFrom none rest := by
  by_cases h1 : n < 0x80
  · rw [if_pos h1]
    show utf8DecodeFrom none (Fin.ofNat n :: rest) = _
    rw [utf8DecodeFrom_cons, utf8Step_none, utf8Lead_one n h1]
    rfl
  rw [if_neg h1]
  by_cases h2 : n < 0x800
  · rw [if_pos h2]
    show utf8DecodeFrom none (Fin.ofNat (0xC0 + n / 64) :: Fin.ofNat (0x80 + n % 64) :: rest) = _
    rw [utf8DecodeFrom_cons, utf8Step_none, utf8Lead_two (0xC0 + n / 64) (by omega) (by omega)]
    show utf8DecodeFrom (some ⟨1, (0xC0 + n / 64) % 32, 0x80, 0xBF⟩)
      (Fin.ofNat (0x80 + n % 64) :: rest) = _
    rw [utf8DecodeFrom_cons,
      utf8Step_last _ 0x80 0xBF (0x80 + n % 64) (by omega) (by omega) (by omega)]
    have e : (0xC0 + n / 64) % 32 * 64 + (0x80 + n % 64) % 64 = n := by omega
    rw [e]
    rfl
  rw [if_neg h2]
  by_cases h3 : n < 0x10000
  · rw [if_pos h3]
    have lo : (if 0xE0 + n / 4096 = 0xE0 then 0xA0 else 0x80) ≤ 0x80 + n / 64 % 64 := by
      split <;> omega
    have hi : 0x80 + n / 64 % 64 ≤ (if 0xE0 + n / 4096 = 0xED then 0x9F else 0xBF) := by
      split <;> omega
    show utf8DecodeFrom none (Fin.ofNat (0xE0 + n / 4096) :: Fin.ofNat (0x80 + n / 64 % 64)
      :: Fin.ofNat (0x80 + n % 64) :: rest) = _
    rw [utf8DecodeFrom_cons, utf8Step_none,
      utf8Lead_three (0xE0 + n / 4096) (by omega) (by omega)]
    show utf8DecodeFrom (some ⟨0 + 2, (0xE0 + n / 4096) % 16, _, _⟩)
      (Fin.ofNat (0x80 + n / 64 % 64) :: Fin.ofNat (0x80 + n % 64) :: rest) = _
    rw [utf8DecodeFrom_cons, utf8Step_more 0 _ _ _ (0x80 + n / 64 % 64) lo hi (by omega)]
    show utf8DecodeFrom (some ⟨1, _, 0x80, 0xBF⟩) (Fin.ofNat (0x80 + n % 64) :: rest) = _
    rw [utf8DecodeFrom_cons,
      utf8Step_last _ 0x80 0xBF (0x80 + n % 64) (by omega) (by omega) (by omega)]
    have e : ((0xE0 + n / 4096) % 16 * 64 + (0x80 + n / 64 % 64) % 64) * 64
        + (0x80 + n % 64) % 64 = n := by omega
    rw [e]
    rfl
  rw [if_neg h3]
  have lo : (if 0xF0 + n / 262144 = 0xF0 then 0x90 else 0x80) ≤ 0x80 + n / 4096 % 64 := by
    split <;> omega
  have hi : 0x80 + n / 4096 % 64 ≤ (if 0xF0 + n / 262144 = 0xF4 then 0x8F else 0xBF) := by
    split <;> omega
  show utf8DecodeFrom none (Fin.ofNat (0xF0 + n / 262144) :: Fin.ofNat (0x80 + n / 4096 % 64)
    :: Fin.ofNat (0x80 + n / 64 % 64) :: Fin.ofNat (0x80 + n % 64) :: rest) = _
  rw [utf8DecodeFrom_cons, utf8Step_none,
    utf8Lead_four (0xF0 + n / 262144) (by omega) (by omega)]
  show utf8DecodeFrom (some ⟨1 + 2, (0xF0 + n / 262144) % 8, _, _⟩)
    (Fin.ofNat (0x80 + n / 4096 % 64) :: Fin.ofNat (0x80 + n / 64 % 64)
      :: Fin.ofNat (0x80 + n % 64) :: rest) = _
  rw [utf8DecodeFrom_cons, utf8Step_more 1 _ _ _ (0x80 + n / 4096 % 64) lo hi (by omega)]
  show utf8DecodeFrom (some ⟨0 + 2, _, 0x80, 0xBF⟩)
    (Fin.ofNat (0x80 + n / 64 % 64) :: Fin.ofNat (0x80 + n % 64) :: rest) = _
  rw [utf8DecodeFrom_cons,
    utf8Step_more 0 _ 0x80 0xBF (0x80 + n / 64 % 64) (by omega) (by omega) (by omega)]
  show utf8DecodeFrom (some ⟨1, _, 0x80, 0xBF⟩) (Fin.ofNat (0x80 + n % 64) :: rest) = _
  rw [utf8DecodeFrom_cons,
    utf8Step_last _ 0x80 0xBF (0x80 + n % 64) (by omega) (by omega) (by omega)]
  have e : (((0xF0 + n / 262144) % 8 * 64 + (0x80 + n / 4096 % 64) % 64) * 64
      + (0x80 + n / 64 % 64) % 64) * 64 + (0x80 + n % 64) % 64 = n := by omega
  rw [e]
  rfl

theorem utf8DecodeFrom_encodeChar (c : Char) (rest : List Byte) :
    utf8DecodeFrom none (utf8EncodeChar c ++ rest) = c :: utf8DecodeFrom none rest := by
  have h := utf8DecodeFrom_encoded c.toNat c.valid rest
  rw [Char.ofNat_toNat] at h
  exact h

theorem utf8Decode_utf8Encode (cs : List Char) : utf8Decode (utf8Encode cs) = cs := by
  induction cs with
  | nil => rfl
  | cons c cs ih =>
    show utf8DecodeFrom none (utf8EncodeChar c ++ utf8Encode cs) = c :: cs
    rw [utf8DecodeFrom_encodeChar]
    exact congrArg _ ih

/-! ## JavaScript strings and the cipher round trip -/

theorem unit_val (k : Nat) : (Fin.ofNat k : CodeUnit).val = k % 65536 := rfl

theorem scalarValues_cons_plain (u : CodeUnit) (rest : JsString)
    (h : (isHighSurrogate u || isLowSurrogate u) = false) :
    scalarValues (u :: rest) = Char.ofNat u.val :: scalarValues rest := by
  have hh : isHighSurrogate u = false := by
    cases hu : isHighSurrogate u
    · rfl
    · rw [hu] at h; simp at h
  have hl : isLowSurrogate u = false := by
    rw [hh] at h
    simpa using h
  cases rest with
  | nil => simp [scalarValues, hh, hl]
  | cons v rest => simp [scalarValues, hh, hl]

theorem scalarValues_cons_pair (u v : CodeUnit) (rest : JsString)
    (hu : isHighSurrogate u = true) (hv : isLowSurrogate v = true) :
    scalarValues (u :: v :: rest)
      = Char.ofNat (0x10000 + (u.val - 0xD800) * 1024 + (v.val - 0xDC00)) :: scalarValues rest := by
  simp [scalarValues, hu, hv]

theorem scalarValues_codeUnits (cs : List Char) : scalarValues (codeUnits cs) = cs := by
  induction cs with
  | nil => rfl
  | cons c cs ih =>
    have hv : c.toNat < 0xD800 ∨ (0xDFFF < c.toNat ∧ c.toNat < 0x110000) := c.valid
    have hc : Char.ofNat c.toNat = c := Char.ofNat_toNat c
    simp only [codeUnits]
    generalize c.toNat = n at hv hc
    by_cases h : n < 0x10000
    · rw [if_pos h]
      have e : n % 65536 = n := by omega
      rw [scalarValues_cons_plain _ _ (by
        simp only [isHighSurrogate, isLowSurrogate, unit_val, e]
        rcases hv with hv | hv
        · simp; omega
        · simp; omega), ih, unit_val, e, hc]
    · rw [if_neg h]
      have e1 : (0xD800 + (n - 0x10000) / 1024) % 65536 = 0xD800 + (n - 0x10000) / 1024 := by
        omega
      have e2 : (0xDC00 + (n - 0x10000) % 1024) % 65536 = 0xDC00 + (n - 0x10000) % 1024 := by
        omega
      rw [scalarValues_cons_pair _ _ _ (by
          simp only [isHighSurrogate, unit_val, e1]
          simp; omega) (by
          simp only [isLowSurrogate, unit_val, e2]
          simp; omega), ih, unit_val, unit_val, e1, e2]
      have e : 0x10000 + (0xD800 + (n - 0x10000) / 1024 - 0xD800) * 1024
          + (0xDC00 + (n - 0x10000) % 1024 - 0xDC00) = n := by omega
      rw [e, hc]

theorem codeUnits_eq_nil (cs : List Char) : codeUnits cs = [] ↔ cs = [] := by
  cases cs with
  | nil => simp [codeUnits]
  | cons c cs =>
    simp only [codeUnits]
    split <;> simp

theorem scalarValues_eq_nil (t : JsString) : scalarValues t = [] ↔ t = [] := by
  match t with
  | [] => simp [scalarValues]
  | [u] =>
    simp only [scalarValues]
    split <;> simp
  | u :: v :: rest =>
    simp only [scalarValues]
    split
    · simp
    · split <;> simp
theorem jsSplitUnits_ne_nil (sep : CodeUnit) (l : JsString) : jsSplitUnits sep l ≠ [] := by
  induction l with
  | nil => simp [jsSplitUnits]
  | cons c cs ih =>
    unfold jsSplitUnits
    split
    · simp
    · split <;> simp

theorem jsSplitUnits_cons_ne (sep u : CodeUnit) (us : JsString) (part : JsString)
    (parts : List JsString) (h : u ≠ sep) (hs : jsSplitUnits sep us = part :: parts) :
    jsSplitUnits sep (u :: us) = (u :: part) :: parts := by
  simp [jsSplitUnits, h, hs]

theorem jsSplit_cons_ne (sep c : Char) (cs : List Char) (part : List Char)
    (parts : List (List Char)) (h : c ≠ sep) (hs : jsSplit sep cs = part :: parts) :
    jsSplit sep (c :: cs) = (c :: part) :: parts := by
  simp [jsSplit, h, hs]

theorem jsSplitUnits_codeUnits (l : List Char) :
    jsSplitUnits 58 (codeUnits l) = (jsSplit ':' l).map codeUnits := by
  induction l with
  | nil => rfl
  | cons c cs ih =>
    by_cases hc : c = ':'
    · subst hc
      have e : codeUnits (':' :: cs) = 58 :: codeUnits cs := rfl
      rw [e]
      simp only [jsSplitUnits, jsSplit, if_true, List.map_cons, ih]
      rfl
    · obtain ⟨part, parts, hs⟩ : ∃ part parts, jsSplit ':' cs = part :: parts := by
        cases hs : jsSplit ':' cs with
        | nil => exact absurd hs (jsSplit_ne_nil _ _)
        | cons part parts => exact ⟨part, parts, rfl⟩
      rw [hs] at ih
      rw [jsSplit_cons_ne _ _ _ _ _ hc hs]
      simp only [List.map_cons] at ih ⊢
      have hn : c.toNat ≠ 58 := by
        intro h
        apply hc
        rw [← Char.ofNat_toNat c, h]
      have hv : c.toNat < 0xD800 ∨ (0xDFFF < c.toNat ∧ c.toNat < 0x110000) := c.valid
      simp only [codeUnits]
      by_cases h : c.toNat < 0x10000
      · rw [if_pos h, if_pos h]
        apply jsSplitUnits_cons_ne _ _ _ _ _ _ ih
        intro he
        have := congrArg Fin.val he
        rw [unit_val] at this
        simp at this
        omega
      · rw [if_neg h, if_neg h]
        apply jsSplitUnits_cons_ne
        · intro he
          have := congrArg Fin.val he
          rw [unit_val] at this
          simp at this
          omega
        apply jsSplitUnits_cons_ne _ _ _ _ _ _ ih
        intro he
        have := congrArg Fin.val he
        rw [unit_val] at this
        simp at this
        omega

theorem ofString_eq_nil (s : String) : JsString.ofString s = [] ↔ s = "" := by
  unfold JsString.ofString
  rw [codeUnits_eq_nil]
  constructor
  · intro h
    exact String.ext h
  · intro h
    rw [h]
    rfl

theorem jsTruthy_ofString (s : Option String) :
    jsTruthy (s.map JsString.ofString) = truthy s := by
  cases s with
  | none => rfl
  | some s =>
    by_cases h : s = ""
    · subst h
      rfl
    · have h2 : JsString.ofString s ≠ [] := fun e => h ((ofString_eq_nil s).mp e)
      simp [jsTruthy, truthy, h, h2]

theorem scalarValues_ofString (s : String) : String.mk (scalarValues (JsString.ofString s)) = s := by
  unfold JsString.ofString
  rw [scalarValues_codeUnits]
  rfl

/-- On a string without lone surrogates `encryptJs` is `encrypt`. -/
theorem encryptJs_ofString (C : Cipher) (iv : List Byte) (s : String) :
    encryptJs C iv (some (JsString.ofString s))
      = (encrypt C iv (some s)).map JsString.ofString := by
  have ht := jsTruthy_ofString (some s)
  simp only [Option.map_some'] at ht
  simp only [encryptJs, encrypt, ht, scalarValues_ofString]
  split <;> rfl

/-- On a string without lone surrogates `decryptJs` is `decrypt`. -/
theorem decryptJs_ofString (C : Cipher) (s : String) :
    decryptJs C (some (JsString.ofString s))
      = (decrypt C (some s)).map JsString.ofString := by
  have ht := jsTruthy_ofString (some s)
  simp only [Option.map_some'] at ht
  have hparts : jsSplitUnits 58 (JsString.ofString s)
      = ((jsSplit ':' s.toList).map String.mk).map JsString.ofString := by
    unfold JsString.ofString
    rw [jsSplitUnits_codeUnits, List.map_map]
    rfl
  simp only [decryptJs, decrypt, ht, hparts, List.getElem?_map, jsTruthy_ofString]
  split
  · rfl
  · split
    · rfl
    · rename_i h1 h2
      cases hx : (jsSplit ':' s.toList)[1]? with
      | none =>
        rw [hx] at h2
        simp [truthy] at h2
      | some x =>
        simp only [Option.map_some', Option.getD_some, jsStr, scalarValues_ofString]
        cases C.decipherUtf8 (String.mk x) <;> rfl
theorem blocksToBytes_ne_nil (bs : List Block) (h : bs ≠ []) : blocksToBytes bs ≠ [] := by
  intro he
  have hl := blocksToBytes_length bs
  rw [he] at hl
  cases bs with
  | nil => exact h rfl
  | cons b bs =>
    simp only [List.length_nil, List.length_cons] at hl
    omega

theorem cbcEncrypt_ne_nil (keys : List Block) (prev : Block) (ps : List Block) (h : ps ≠ []) :
    cbcEncrypt keys prev ps ≠ [] := by
  cases ps with
  | nil => exact absurd rfl h
  | cons p ps => simp [cbcEncrypt]

theorem nodeCipher_cipherHex (key : List Byte) (derivedIv : Block) (text : String) :
    (nodeCipher key derivedIv).cipherHex text
      = toHex (blocksToBytes
          (cbcEncrypt (roundKeys key) derivedIv (padBlocks (utf8Encode text.toList)))) := rfl

/-- The cipher output is never empty: the padding adds at least one byte. -/
theorem nodeCipher_cipherHex_ne_empty (key : List Byte) (derivedIv : Block) (text : String) :
    (nodeCipher key derivedIv).cipherHex text ≠ "" := by
  rw [nodeCipher_cipherHex]
  exact toHex_ne_empty _ (blocksToBytes_ne_nil _
    (cbcEncrypt_ne_nil _ _ _ (padBlocksAux_ne_nil _ _)))

/-- The cipher output is a string of hexadecimal digits. -/
theorem nodeCipher_cipherHex_isHex (key : List Byte) (derivedIv : Block) (text : String) :
    isHex ((nodeCipher key derivedIv).cipherHex text) = true := by
  rw [nodeCipher_cipherHex]
  exact isHex_toHex _

/-- The decipher reads back what the cipher wrote. -/
theorem nodeCipher_decipher_cipher (key : List Byte) (derivedIv : Block) (text : String) :
    (nodeCipher key derivedIv).decipherUtf8 ((nodeCipher key derivedIv).cipherHex text)
      = some text := by
  rw [nodeCipher_cipherHex]
  show (match chunkBlocks (hexBytes (toHex _).toList).length (hexBytes (toHex _).toList) with
    | none => none
    | some blocks =>
      match unpadBlocks (cbcDecrypt (roundKeys key) derivedIv blocks) with
      | none => none
      | some plain => some (String.mk (utf8Decode plain))) = some text
  have hhex : ∀ bs : List Byte, hexBytes (toHex bs).toList = bs := hexBytes_hexChars
  rw [hhex, chunkBlocks_blocksToBytes _ _ (by rw [blocksToBytes_length]; omega)]
  simp only [cbcDecrypt_cbcEncrypt, unpadBlocks_padBlocks, utf8Decode_utf8Encode]
  rfl

/-- The round trip under the Node cipher, on strings without lone surrogates. -/
theorem decrypt_encrypt_node (key : List Byte) (derivedIv : Block) (iv : List Byte)
    (hiv : iv ≠ []) (text : String) :
    decrypt (nodeCipher key derivedIv) (encrypt (nodeCipher key derivedIv) iv (some text))
      = some text := by
  by_cases hp : text = ""
  · subst hp
    simp [encrypt, decrypt, truthy]
  · rw [encrypt_some _ iv text hp,
      decrypt_token _ iv _ hiv (nodeCipher_cipherHex_ne_empty key derivedIv text)
        (nodeCipher_cipherHex_isHex key derivedIv text),
      nodeCipher_decipher_cipher]

/-- The round trip under the Node cipher, on every JavaScript string: the
result is the string with its lone surrogates replaced by U+FFFD. -/
theorem decryptJs_encryptJs_node (key : List Byte) (derivedIv : Block) (iv : List Byte)
    (hiv : iv ≠ []) (text : JsString) :
    decryptJs (nodeCipher key derivedIv) (encryptJs (nodeCipher key derivedIv) iv (some text))
      = some text.toWellFormed := by
  by_cases ht : text = []
  · subst ht
    rfl
  · have hs : scalarValues text ≠ [] := fun e => ht ((scalarValues_eq_nil text).mp e)
    have hp : String.mk (scalarValues text) ≠ "" := by
      intro e
      exact hs (congrArg String.toList e)
    have he : encryptJs (nodeCipher key derivedIv) iv (some text)
        = some (JsString.ofString (toHex iv ++ ":"
            ++ (nodeCipher key derivedIv).cipherHex (String.mk (scalarValues text)))) := by
      simp [encryptJs, jsTruthy, ht]
    rw [he, decryptJs_ofString,
      decrypt_token _ iv _ hiv (nodeCipher_cipherHex_ne_empty key derivedIv _)
        (nodeCipher_cipherHex_isHex key derivedIv _),
      nodeCipher_decipher_cipher]
    rfl

theorem ofString_isWellFormed (s : String) : (JsString.ofString s).isWellFormed = true := by
  simp only [JsString.isWellFormed, JsString.toWellFormed, JsString.ofString,
    scalarValues_codeUnits, decide_True]

theorem ne_nil_of_length_sixteen (iv : List Byte) (h : iv.length = 16) : iv ≠ [] := by
  intro e
  rw [e] at h
  simp at h

/-! ## Round trip of the field cipher -/

set_option maxRecDepth 1000000 in
/-- C11 as stated fails on a plaintext with a lone surrogate. Under the default
secret and a 16-byte IV, `encrypt('\uD800')` enciphers the UTF-8 bytes of
U+FFFD, and decrypting that token gives `'\uFFFD'`, not the plaintext. -/
theorem decryptJs_encryptJs_lone_surrogate :
    sampleIvA.length = 16 ∧
    jsTruthy (some loneSurrogate) = true ∧
    encryptJs defaultCipher sampleIvA (some loneSurrogate)
      = some (JsString.ofString
          "00112233445566778899aabbccddeeff:0982d62de7f1513b52bd26f8a9c7b7d3") ∧
    decryptJs defaultCipher (encryptJs defaultCipher sampleIvA (some loneSurrogate))
      = some [0xFFFD] ∧
    decryptJs defaultCipher (encryptJs defaultCipher sampleIvA (some loneSurrogate))
      ≠ some loneSurrogate := by
  decide!

/-- C11 amended. Under the cipher of every secret and for every 16-byte IV:
`decrypt (encrypt text)` is `text.toWellFormed()` for every JavaScript string
`text`, hence `text` itself for every string without a lone surrogate, and in
particular for every value of type `String`; on such strings the functions on
code units agree with `encrypt` and `decrypt`; on the empty and on the absent
input `encrypt` and `decrypt` return the input unchanged. -/
theorem decryptJs_encryptJs_wellFormed (secretKey : List Byte) (iv : List Byte)
    (hiv : iv.length = 16) :
    (∀ text : JsString,
      decryptJs (secretCipher secretKey) (encryptJs (secretCipher secretKey) iv (some text))
        = some text.toWellFormed) ∧
    (∀ text : JsString, text.isWellFormed = true →
      decryptJs (secretCipher secretKey) (encryptJs (secretCipher secretKey) iv (some text))
        = some text) ∧
    (∀ text : String,
      decrypt (secretCipher secretKey) (encrypt (secretCipher secretKey) iv (some text))
        = some text) ∧
    (∀ text : String, (JsString.ofString text).isWellFormed = true ∧
      encryptJs (secretCipher secretKey) iv (some (JsString.ofString text))
        = (encrypt (secretCipher secretKey) iv (some text)).map JsString.ofString ∧
      decryptJs (secretCipher secretKey) (some (JsString.ofString text))
        = (decrypt (secretCipher secretKey) (some text)).map JsString.ofString) ∧
    encryptJs (secretCipher secretKey) iv (some []) = some [] ∧
    encryptJs (secretCipher secretKey) iv none = none ∧
    decryptJs (secretCipher secretKey) (some []) = some [] ∧
    decryptJs (secretCipher secretKey) none = none ∧
    encrypt (secretCipher secretKey) iv (some "") = some "" ∧
    encrypt (secretCipher secretKey) iv none = none ∧
    decrypt (secretCipher secretKey) (some "") = some "" ∧
    decrypt (secretCipher secretKey) none = none := by
  have hne := ne_nil_of_length_sixteen iv hiv
  refine ⟨fun text => decryptJs_encryptJs_node _ _ iv hne text, ?_,
    fun text => decrypt_encrypt_node _ _ iv hne text,
    fun text => ⟨ofString_isWellFormed text, encryptJs_ofString _ iv text,
      decryptJs_ofString _ text⟩,
    rfl, rfl, rfl, rfl, by simp [encrypt, truthy], rfl, by simp [decrypt, truthy], rfl⟩
  intro text hw
  have e : text.toWellFormed = text := by
    simpa [JsString.isWellFormed] using hw
  show decryptJs (nodeCipher _ _) (encryptJs (nodeCipher _ _) iv (some text)) = some text
  rw [decryptJs_encryptJs_node _ _ iv hne text, e]

set_option maxRecDepth 1000000 in
/-- C11 amended, on the plaintext `Amina` under the default secret and a
16-byte IV: the token and the round trip, on code units and on `String`. -/
theorem decryptJs_encryptJs_wellFormed_amina :
    sampleIvA.length = 16 ∧
    (JsString.ofString "Amina").isWellFormed = true ∧
    encrypt defaultCipher sampleIvA (some "Amina")
      = some "00112233445566778899aabbccddeeff:565db03e5d2ae2e92981514f2705fa2b" ∧
    decryptJs defaultCipher
        (encryptJs defaultCipher sampleIvA (some (JsString.ofString "Amina")))
      = some (JsString.ofString "Amina") ∧
    decrypt defaultCipher (encrypt defaultCipher sampleIvA (some "Amina")) = some "Amina" :=
  ⟨by decide, by decide, by decide!,
    (decryptJs_encryptJs_wellFormed defaultSecret sampleIvA (by decide)).2.1 _ (by decide),
    (decryptJs_encryptJs_wellFormed defaultSecret sampleIvA (by decide)).2.2.1 "Amina"⟩

/-! ## Tokens and the initialization vector -/

/-- C12. Two encryptions of one non-empty plaintext under different IVs give
tokens that differ in the IV part only: the part after the `:` is the same
cipher output, which does not depend on the IV. -/
theorem encrypt_same_cipher_part (C : Cipher) (iv₁ iv₂ : List (Fin 256)) (p : String)
    (hp : p ≠ "") :
    ∃ x : String,
      encrypt C iv₁ (some p) = some (toHex iv₁ ++ ":" ++ x) ∧
      encrypt C iv₂ (some p) = some (toHex iv₂ ++ ":" ++ x) ∧
      partAfterColon (toHex iv₁ ++ ":" ++ x) = partAfterColon (toHex iv₂ ++ ":" ++ x) := by
  refine ⟨C.cipherHex p, encrypt_some C iv₁ p hp, encrypt_some C iv₂ p hp, ?_⟩
  unfold partAfterColon
  rw [token_toList, token_toList, dropWhile_token _ _ (colon_not_mem_hexChars iv₁),
    dropWhile_token _ _ (colon_not_mem_hexChars iv₂)]

/-- C12 on the plaintext `Amina`: two different IVs, two tokens, one and the
same cipher part `416d696e61`. -/
theorem encrypt_same_cipher_part_amina :
    sampleIvA ≠ sampleIvB ∧
    encrypt sampleCipher sampleIvA (some "Amina")
      = some "00112233445566778899aabbccddeeff:416d696e61" ∧
    encrypt sampleCipher sampleIvB (some "Amina")
      = some "fedcba98765432100123456789abcdef:416d696e61" ∧
    (∃ x : String,
      encrypt sampleCipher sampleIvA (some "Amina") = some (toHex sampleIvA ++ ":" ++ x) ∧
      encrypt sampleCipher sampleIvB (some "Amina") = some (toHex sampleIvB ++ ":" ++ x) ∧
      partAfterColon (toHex sampleIvA ++ ":" ++ x)
        = partAfterColon (toHex sampleIvB ++ ":" ++ x)) :=
  ⟨by decide, by decide, by decide,
    encrypt_same_cipher_part sampleCipher sampleIvA sampleIvB "Amina" (by decide)⟩

/-- C13. `decrypt` is total, and it returns the token unchanged whenever the
token has no `:`, has nothing before its first `:`, has nothing after it, or
has a cipher part that the decipher rejects. -/
theorem decrypt_fallback (C : Cipher) (t : String)
    (h : ':' ∉ t.toList ∨ partBeforeColon t = "" ∨ partAfterColon t = "" ∨
      C.decipherUtf8 (partAfterColon t) = none) :
    decrypt C (some t) = some t := by
  rw [decrypt_some]
  split
  · rfl
  · rename_i hn
    rcases h with h | h | h | h
    · exact absurd (Or.inr (Or.inl h)) hn
    · exact absurd (Or.inr (Or.inr (Or.inl h))) hn
    · exact absurd (Or.inr (Or.inr (Or.inr h))) hn
    · rw [h]

/-- C13 on four tokens: no delimiter, nothing before it, nothing after it, and
a cipher part that is not decipherable. -/
theorem decrypt_fallback_examples :
    decrypt sampleCipher (some "plain") = some "plain" ∧
    decrypt sampleCipher (some ":416d") = some ":416d" ∧
    decrypt sampleCipher (some "0011:") = some "0011:" ∧
    decrypt sampleCipher (some "0011:zz") = some "0011:zz" :=
  ⟨decrypt_fallback sampleCipher "plain" (Or.inl (by decide)),
   decrypt_fallback sampleCipher ":416d" (Or.inr (Or.inl (by decide))),
   decrypt_fallback sampleCipher "0011:" (Or.inr (Or.inr (Or.inl (by decide)))),
   decrypt_fallback sampleCipher "0011:zz" (Or.inr (Or.inr (Or.inr (by decide))))⟩

/-- C14 as stated fails: the malformed token `plain` and a well-formed token
whose plaintext is `plain` give the same result, the bare string `plain`. -/
theorem decrypt_results_coincide :
    ':' ∉ "plain".toList ∧
    decrypt sampleCipher (some "plain") = some "plain" ∧
    encrypt sampleCipher sampleIvA (some "plain")
      = some "00112233445566778899aabbccddeeff:706c61696e" ∧
    decrypt sampleCipher (some "00112233445566778899aabbccddeeff:706c61696e")
      = some "plain" := by
  decide

/-- C14 amended. The result of `decrypt` carries no failure marker: for every
token `t` without a `:` and every token that `encrypt` builds from the
plaintext `t`, `decrypt` returns the same value, the string `t`. -/
theorem decrypt_no_failure_marker (C : Cipher) (iv : List (Fin 256)) (t : String)
    (hmal : ':' ∉ t.toList) (hiv : iv.length = 16) (hne : C.cipherHex t ≠ "")
    (hhex : isHex (C.cipherHex t) = true) (hrt : C.decipherUtf8 (C.cipherHex t) = some t) :
    decrypt C (some t) = some t ∧ decrypt C (encrypt C iv (some t)) = some t := by
  constructor
  · rw [decrypt_some, if_pos (Or.inr (Or.inl hmal))]
  · by_cases hp : t = ""
    · subst hp
      simp [encrypt, decrypt, truthy]
    · have hiv' : iv ≠ [] := by
        intro h
        rw [h] at hiv
        simp at hiv
      rw [encrypt_some C iv t hp, decrypt_token C iv _ hiv' hne hhex, hrt]

/-- C14 amended, on the string `plain`: read as a token and read back from its
encryption it gives the same result. -/
theorem decrypt_no_failure_marker_plain :
    decrypt sampleCipher (some "plain")
      = decrypt sampleCipher (encrypt sampleCipher sampleIvB (some "plain")) := by
  have h := decrypt_no_failure_marker sampleCipher sampleIvB "plain" (by decide) (by decide)
    (by decide) (by decide) (by decide)
  rw [h.1, h.2]

/-! ## Tracking -/

theorem preSaveTotals_trackingNumber (env : Env) (o : Order) :
    (preSaveOrderNumberTotals env o).trackingNumber = o.trackingNumber := by
  unfold preSaveOrderNumberTotals
  by_cases h1 : (!truthy o.orderNumber) = true <;> by_cases h2 : o.items.length > 0 <;>
    simp [h1, h2]

theorem preSaveTotals_estimatedDelivery (env : Env) (o : Order) :
    (preSaveOrderNumberTotals env o).estimatedDelivery = o.estimatedDelivery := by
  unfold preSaveOrderNumberTotals
  by_cases h1 : (!truthy o.orderNumber) = true <;> by_cases h2 : o.items.length > 0 <;>
    simp [h1, h2]

theorem preSaveHistory_trackingNumber (env : Env) (o : Order) :
    (preSaveStatusHistory env o).trackingNumber = o.trackingNumber := by
  unfold preSaveStatusHistory
  split <;> rfl

theorem preSaveHistory_estimatedDelivery (env : Env) (o : Order) :
    (preSaveStatusHistory env o).estimatedDelivery = o.estimatedDelivery := by
  unfold preSaveStatusHistory
  split <;> rfl

theorem save_trackingNumber (o : Order) (env : Env) :
    (o.save env).doc.trackingNumber = o.trackingNumber := by
  by_cases h : validate o = []
  · rw [save_doc_of_valid o env h]
    simp [preSaveHistory_trackingNumber, preSaveTotals_trackingNumber]
  · rw [save_doc_of_invalid o env h]

theorem save_estimatedDelivery (o : Order) (env : Env) :
    (o.save env).doc.estimatedDelivery = o.estimatedDelivery := by
  by_cases h : validate o = []
  · rw [save_doc_of_valid o env h]
    simp [preSaveHistory_estimatedDelivery, preSaveTotals_estimatedDelivery]
  · rw [save_doc_of_invalid o env h]

/-- C15 as stated fails: a tracking number given with surrounding white space
is stored without it, while the history note quotes it as given. -/
theorem addTracking_trims_trackingNumber :
    (pendingOrder.addTracking (some "  TRK-2024-001 ") none 1730000100120
        sampleEnv).doc.trackingNumber = some "TRK-2024-001" ∧
    (pendingOrder.addTracking (some "  TRK-2024-001 ") none 1730000100120
        sampleEnv).doc.trackingNumber ≠ some "  TRK-2024-001 " ∧
    (pendingOrder.addTracking (some "  TRK-2024-001 ") none 1730000100120
        sampleEnv).doc.statusHistory.head?
      = some { status := some "shipped", timestamp := 1730000100120
               note := some "Order shipped with tracking number:   TRK-2024-001 "
               updatedBy := none } := by
  decide

/-- C15 amended. `addTracking` stores the given tracking number with leading
and trailing white space removed, sets the status to `shipped`, sets
`estimatedDelivery` to the given value when one is supplied and leaves it
unchanged otherwise, and appends to the history an entry with status `shipped`
whose note ends with the tracking number as given. -/
theorem addTracking_effect (o : Order) (trackingNumber : Option String)
    (estimatedDelivery : Option Date) (t : Date) (env : Env) :
    (o.addTracking trackingNumber estimatedDelivery t env).doc.trackingNumber
      = trackingNumber.map jsTrim ∧
    (o.addTracking trackingNumber estimatedDelivery t env).doc.status = some "shipped" ∧
    (∀ d, estimatedDelivery = some d →
      (o.addTracking trackingNumber estimatedDelivery t env).doc.estimatedDelivery = some d) ∧
    (estimatedDelivery = none →
      (o.addTracking trackingNumber estimatedDelivery t env).doc.estimatedDelivery
        = o.estimatedDelivery) ∧
    (o.statusHistory ++
        [ { status := some "shipped", timestamp := t
            note := some ("Order shipped with tracking number: " ++ jsStr trackingNumber)
            updatedBy := none } ])
      <+: (o.addTracking trackingNumber estimatedDelivery t env).doc.statusHistory := by
  refine ⟨?_, ?_, ?_, ?_, ?_⟩
  · unfold Order.addTracking
    rw [save_trackingNumber]
    cases estimatedDelivery <;> rfl
  · unfold Order.addTracking
    rw [save_status]
    cases estimatedDelivery <;> rfl
  · intro d hd
    subst hd
    unfold Order.addTracking
    rw [save_estimatedDelivery]
  · intro hd
    subst hd
    unfold Order.addTracking
    rw [save_estimatedDelivery]
    rfl
  · unfold Order.addTracking
    refine List.IsPrefix.trans ?_ (save_extends _ env)
    cases estimatedDelivery <;> exact List.prefix_refl _

/-- C15 amended, on a document: tracking number `TRK-2024-001` with an
estimated delivery date. -/
theorem addTracking_effect_example :
    (pendingOrder.addTracking (some "TRK-2024-001") (some 1730500000000) 1730000100120
        sampleEnv).doc.estimatedDelivery = some 1730500000000 ∧
    (pendingOrder.addTracking (some "TRK-2024-001") none 1730000100120
        sampleEnv).doc.estimatedDelivery = pendingOrder.estimatedDelivery :=
  ⟨(addTracking_effect pendingOrder (some "TRK-2024-001") (some 1730500000000) 1730000100120
      sampleEnv).2.2.1 _ rfl,
   (addTracking_effect pendingOrder (some "TRK-2024-001") none 1730000100120
      sampleEnv).2.2.2.1 rfl⟩

/-- C19. `canCancel` is true exactly when the status is `pending` or `confirmed`. -/
theorem canCancel_iff (o : Order) :
    o.canCancel = true ↔ o.status = some "pending" ∨ o.status = some "confirmed" := by
  unfold Order.canCancel
  cases o.status with
  | none => simp
  | some s => simp

/-! ## Auxiliary lemmas: aggregations -/

theorem quantityOf_append (k : Option ObjectId) (xs ys : List Item) :
    quantityOf k (xs ++ ys) = quantityOf k xs + quantityOf k ys := by
  simp [quantityOf, List.filter_append]

theorem revenueOf_append (k : Option ObjectId) (xs ys : List Item) :
    revenueOf k (xs ++ ys) = revenueOf k xs + revenueOf k ys := by
  simp [revenueOf, List.filter_append]

theorem linesOf_append (k : Option ObjectId) (xs ys : List Item) :
    linesOf k (xs ++ ys) = linesOf k xs + linesOf k ys := by
  simp [linesOf, List.filter_append]

theorem linesOf_eq_zero (k : Option ObjectId) (items : List Item)
    (h : ∀ it ∈ items, it.product ≠ k) : linesOf k items = 0 := by
  simp only [linesOf, List.length_eq_zero, List.filter_eq_nil_iff]
  intro it hit
  simpa using h it hit

theorem quantityOf_eq_zero (k : Option ObjectId) (items : List Item)
    (h : ∀ it ∈ items, it.product ≠ k) : quantityOf k items = 0 := by
  have : items.filter (fun it => it.product = k) = [] := by
    rw [List.filter_eq_nil_iff]
    intro it hit
    simpa using h it hit
  simp [quantityOf, this]

theorem revenueOf_eq_zero (k : Option ObjectId) (items : List Item)
    (h : ∀ it ∈ items, it.product ≠ k) : revenueOf k items = 0 := by
  have : items.filter (fun it => it.product = k) = [] := by
    rw [List.filter_eq_nil_iff]
    intro it hit
    simpa using h it hit
  simp [revenueOf, this]

/-- The keys after one step of the grouping. -/
theorem addToGroup_keys (gs : List ProductGroup) (it : Item) :
    (addToGroup gs it).map ProductGroup.id =
      if it.product ∈ gs.map ProductGroup.id then gs.map ProductGroup.id
      else gs.map ProductGroup.id ++ [it.product] := by
  induction gs with
  | nil => simp [addToGroup]
  | cons g rest ih =>
    unfold addToGroup
    by_cases h : g.id = it.product
    · simp [h]
    · have h' : ¬ it.product = g.id := fun e => h e.symm
      simp only [h, if_false, List.map_cons, ih, List.mem_cons, h', false_or]
      split <;> simp

/-- The groups after one step of the grouping, when the keys are distinct. -/
theorem mem_addToGroup (gs : List ProductGroup) (it : Item)
    (hnd : (gs.map ProductGroup.id).Nodup) (g' : ProductGroup) (h : g' ∈ addToGroup gs it) :
    (g' ∈ gs ∧ g'.id ≠ it.product) ∨
    (∃ g ∈ gs, g.id = it.product ∧ g'.id = it.product ∧
      g'.totalQuantity = g.totalQuantity + it.quantity ∧
      g'.totalRevenue = g.totalRevenue + it.totalPrice ∧
      g'.orderCount = g.orderCount + 1) ∨
    (it.product ∉ gs.map ProductGroup.id ∧ g'.id = it.product ∧
      g'.totalQuantity = it.quantity ∧ g'.totalRevenue = it.totalPrice ∧ g'.orderCount = 1) := by
  induction gs with
  | nil =>
    simp only [addToGroup, List.mem_singleton] at h
    subst h
    right; right
    simp
  | cons g rest ih =>
    rw [List.map_cons, List.nodup_cons] at hnd
    unfold addToGroup at h
    by_cases hg : g.id = it.product
    · simp only [hg, if_true, List.mem_cons] at h
      rcases h with h | h
      · right; left
        exact ⟨g, List.mem_cons_self _ _, hg, by rw [h], by rw [h], by rw [h], by rw [h]⟩
      · left
        refine ⟨List.mem_cons_of_mem _ h, ?_⟩
        intro e
        exact hnd.1 (by rw [hg, ← e]; exact List.mem_map_of_mem _ h)
    · simp only [hg, if_false, List.mem_cons] at h
      rcases h with h | h
      · left
        subst h
        exact ⟨List.mem_cons_self _ _, hg⟩
      · rcases ih hnd.2 h with h1 | ⟨g0, hg0, h2⟩ | ⟨h3, h4⟩
        · left
          exact ⟨List.mem_cons_of_mem _ h1.1, h1.2⟩
        · right; left
          exact ⟨g0, List.mem_cons_of_mem _ hg0, h2⟩
        · right; right
          refine ⟨?_, h4⟩
          simp only [List.map_cons, List.mem_cons, not_or]
          exact ⟨fun e => hg e.symm, h3⟩

/-- One step of the grouping keeps the grouping invariant. -/
theorem groupsOf_step (gs : List ProductGroup) (items : List Item) (it : Item)
    (h : GroupsOf gs items) : GroupsOf (addToGroup gs it) (items ++ [it]) := by
  obtain ⟨hnd, hsum, hcov⟩ := h
  refine ⟨?_, ?_, ?_⟩
  · rw [addToGroup_keys]
    split
    · exact hnd
    · rename_i hn
      rw [List.nodup_append]
      refine ⟨hnd, List.nodup_singleton _, ?_⟩
      intro a ha hb
      rw [List.mem_singleton] at hb
      exact hn (hb ▸ ha)
  · intro g' hg'
    rw [quantityOf_append, revenueOf_append, linesOf_append]
    rcases mem_addToGroup gs it hnd g' hg' with ⟨hm, hne⟩ | ⟨g, hg, hid, hid', hq, hr, hc⟩ |
        ⟨hnew, hid', hq, hr, hc⟩
    · have hne' : ¬ it.product = g'.id := fun e => hne e.symm
      obtain ⟨h1, h2, h3, h4⟩ := hsum g' hm
      simp [quantityOf, revenueOf, linesOf, hne'] at *
      exact ⟨h1, h2, h3, h4⟩
    · obtain ⟨h1, h2, h3, _⟩ := hsum g hg
      rw [hid] at h1 h2 h3
      simp [quantityOf, revenueOf, linesOf, hid'] at *
      exact ⟨by rw [hq, h1], by rw [hr, h2], by rw [hc, h3]⟩
    · have hz : ∀ x ∈ items, x.product ≠ g'.id := by
        intro x hx e
        exact hnew (by rw [← hid', ← e]; exact hcov x hx)
      rw [quantityOf_eq_zero _ _ hz, revenueOf_eq_zero _ _ hz, linesOf_eq_zero _ _ hz]
      simp [quantityOf, revenueOf, linesOf, hid', hq, hr, hc]
  · intro x hx
    rw [addToGroup_keys]
    rw [List.mem_append, List.mem_singleton] at hx
    rcases hx with hx | hx
    · split
      · exact hcov x hx
      · exact List.mem_append_left _ (hcov x hx)
    · subst hx
      split
      · assumption
      · simp

theorem groupsOf_foldl (items : List Item) :
    ∀ (gs : List ProductGroup) (seen : List Item), GroupsOf gs seen →
      GroupsOf (items.foldl addToGroup gs) (seen ++ items) := by
  induction items with
  | nil => intro gs seen h; simpa using h
  | cons it rest ih =>
    intro gs seen h
    have := ih (addToGroup gs it) (seen ++ [it]) (groupsOf_step gs seen it h)
    simpa using this

/-- The `$group` stage yields the grouping of its input. -/
theorem groupsOf_groupByProduct (items : List Item) : GroupsOf (groupByProduct items) items := by
  have h0 : GroupsOf [] [] := ⟨by simp, by simp, by simp⟩
  simpa [groupByProduct] using groupsOf_foldl items [] [] h0

theorem quantityOf_unwindItems (k : Option ObjectId) (orders : List Order) :
    quantityOf k (unwindItems orders) = (orders.map (fun o => quantityOf k o.items)).sum := by
  induction orders with
  | nil => simp [unwindItems, quantityOf]
  | cons o rest ih => simp [unwindItems, quantityOf_append, ih]

theorem revenueOf_unwindItems (k : Option ObjectId) (orders : List Order) :
    revenueOf k (unwindItems orders) = (orders.map (fun o => revenueOf k o.items)).sum := by
  induction orders with
  | nil => simp [unwindItems, revenueOf]
  | cons o rest ih => simp [unwindItems, revenueOf_append, ih]

/-- Membership in the sorted groups is membership in the grouping. -/
theorem mem_sortedProductGroups (orders : List Order) (startDate endDate : Option Date)
    (now : Date) (g : ProductGroup) :
    g ∈ sortedProductGroups orders startDate endDate now ↔
      g ∈ groupByProduct (unwindItems (orders.filter (matchTopProducts startDate endDate now))) :=
  (List.perm_insertionSort byTotalQuantityDesc _).mem_iff

theorem getTopProducts_some (orders : List Order) (limit : Option Nat)
    (startDate endDate : Option Date) (now : Date) (groups : List ProductGroup)
    (h : getTopProducts orders limit startDate endDate now = some groups) :
    0 < limit.getD 10 ∧
    groups = (sortedProductGroups orders startDate endDate now).take (limit.getD 10) := by
  unfold getTopProducts at h
  by_cases hn : limit.getD 10 = 0
  · simp [hn] at h
  · simp only [hn, if_false, Option.some.injEq] at h
    exact ⟨Nat.pos_of_ne_zero hn, h.symm⟩

/-! ## Top products and analytics -/

/-- C16. Every group that `getTopProducts` returns has `totalQuantity` equal to
the sum of `quantity`, and `totalRevenue` equal to the sum of `totalPrice`, over
the line items with the group's product reference in the orders that are inside
the window and not cancelled. -/
theorem getTopProducts_group_sums (orders : List Order) (limit : Option Nat)
    (startDate endDate : Option Date) (now : Date) (groups : List ProductGroup)
    (h : getTopProducts orders limit startDate endDate now = some groups) :
    ∀ g ∈ groups,
      g.totalQuantity =
        ((orders.filter (fun o => inWindow startDate endDate now o &&
            o.status != some "cancelled")).map
          (fun o => ((o.items.filter (fun it => it.product = g.id)).map Item.quantity).sum)).sum ∧
      g.totalRevenue =
        ((orders.filter (fun o => inWindow startDate endDate now o &&
            o.status != some "cancelled")).map
          (fun o => ((o.items.filter (fun it => it.product = g.id)).map
            Item.totalPrice).sum)).sum := by
  intro g hg
  obtain ⟨_, hgroups⟩ := getTopProducts_some _ _ _ _ _ _ h
  rw [hgroups] at hg
  have hmem := (mem_sortedProductGroups orders startDate endDate now g).mp
    (List.mem_of_mem_take hg)
  obtain ⟨hq, hr, _, _⟩ := (groupsOf_groupByProduct _).2.1 g hmem
  rw [quantityOf_unwindItems] at hq
  rw [revenueOf_unwindItems] at hr
  exact ⟨hq, hr⟩

set_option maxRecDepth 8000 in
/-- C16, the scenario: one delivered order with three units of product `A` and
one cancelled order with five units of it give a single group, for `A`, with
`totalQuantity` 3. -/
theorem getTopProducts_group_sums_scenario :
    getTopProducts scenarioOrders none none none queryNow
      = some [{ id := some productA, totalQuantity := 3, totalRevenue := 300, orderCount := 1
                productName := { en := some "Lamp", fr := some "Lampe", ar := none }
                sku := some "LMP-1" }] ∧
    (3 : ℚ) =
      ((scenarioOrders.filter (fun o => inWindow none none queryNow o &&
          o.status != some "cancelled")).map
        (fun o => ((o.items.filter (fun it => it.product = some productA)).map
          Item.quantity).sum)).sum := by
  have h : getTopProducts scenarioOrders none none none queryNow
      = some [{ id := some productA, totalQuantity := 3, totalRevenue := 300, orderCount := 1
                productName := { en := some "Lamp", fr := some "Lampe", ar := none }
                sku := some "LMP-1" }] := by decide!
  exact ⟨h, (getTopProducts_group_sums scenarioOrders none none none queryNow _ h _
    (List.mem_singleton.mpr rfl)).1⟩

/-- C17. For a positive limit (10 when none is given) `getTopProducts` returns a
sequence; the sequence is ordered by `totalQuantity` descending, has at most
`limit` entries, and every product group left out of it has a `totalQuantity`
no greater than that of every group in it. -/
theorem getTopProducts_sorted_limited (orders : List Order) (limit : Option Nat)
    (startDate endDate : Option Date) (now : Date) :
    (0 < limit.getD 10 →
      ∃ groups, getTopProducts orders limit startDate endDate now = some groups) ∧
    ∀ groups, getTopProducts orders limit startDate endDate now = some groups →
      groups.Pairwise (fun a b => b.totalQuantity ≤ a.totalQuantity) ∧
      groups.length ≤ limit.getD 10 ∧
      ∀ g ∈ groupByProduct
          (unwindItems (orders.filter (matchTopProducts startDate endDate now))),
        g ∉ groups → ∀ r ∈ groups, g.totalQuantity ≤ r.totalQuantity := by
  constructor
  · intro hpos
    exact ⟨(sortedProductGroups orders startDate endDate now).take (limit.getD 10),
      by simp [getTopProducts, Nat.pos_iff_ne_zero.mp hpos]⟩
  · intro groups h
    obtain ⟨_, hgroups⟩ := getTopProducts_some _ _ _ _ _ _ h
    have hsorted : (sortedProductGroups orders startDate endDate now).Pairwise
        byTotalQuantityDesc := List.sorted_insertionSort byTotalQuantityDesc _
    refine ⟨?_, ?_, ?_⟩
    · rw [hgroups]
      exact hsorted.sublist (List.take_sublist _ _)
    · rw [hgroups]
      exact List.length_take_le _ _
    · intro g hg hnot r hr
      have hgs := (mem_sortedProductGroups orders startDate endDate now g).mpr hg
      rw [← List.take_append_drop (limit.getD 10)
        (sortedProductGroups orders startDate endDate now)] at hgs hsorted
      rw [← hgroups] at hgs hsorted
      rcases List.mem_append.mp hgs with hin | hin
      · exact absurd hin hnot
      · exact (List.pairwise_append.mp hsorted).2.2 r hr g hin

set_option maxRecDepth 8000 in
/-- C17 on a collection with three units of product `A` and seven of product
`B`, with limit 1: the result is the group of `B` alone, and the group of `A`,
which is left out, has the smaller quantity. -/
theorem getTopProducts_sorted_limited_example :
    getTopProducts twoProductOrders (some 1) none none queryNow
      = some [{ id := some productB, totalQuantity := 7, totalRevenue := 700, orderCount := 1
                productName := { en := some "Lamp", fr := some "Lampe", ar := none }
                sku := some "LMP-1" }] ∧
    (∃ groups, getTopProducts twoProductOrders (some 1) none none queryNow = some groups) ∧
    (∀ g ∈ groupByProduct
        (unwindItems (twoProductOrders.filter (matchTopProducts none none queryNow))),
      g.id = some productA → g.totalQuantity ≤ 7) := by
  have h : getTopProducts twoProductOrders (some 1) none none queryNow
      = some [{ id := some productB, totalQuantity := 7, totalRevenue := 700, orderCount := 1
                productName := { en := some "Lamp", fr := some "Lampe", ar := none }
                sku := some "LMP-1" }] := by decide!
  have hthm := getTopProducts_sorted_limited twoProductOrders (some 1) none none queryNow
  refine ⟨h, hthm.1 (by decide), ?_⟩
  intro g hg hid
  refine (hthm.2 _ h).2.2 g hg ?_ _ (List.mem_singleton.mpr rfl)
  intro hin
  rw [List.mem_singleton] at hin
  rw [hin] at hid
  revert hid
  decide

/-- The accumulators of `getAnalytics` after a run over `l`. -/
theorem analytics_foldl (l : List Order) :
    ∀ a : AnalyticsAcc,
      (l.foldl AnalyticsAcc.step a).totalOrders = a.totalOrders + l.length ∧
      (l.foldl AnalyticsAcc.step a).totalRevenue
        = a.totalRevenue + (l.map (fun o => o.totals.total.getD 0)).sum ∧
      (l.foldl AnalyticsAcc.step a).avgSum
        = a.avgSum + (l.map (fun o => o.totals.total.getD 0)).sum ∧
      (l.foldl AnalyticsAcc.step a).avgCount
        = a.avgCount + (l.filter (fun o => o.totals.total.isSome)).length := by
  induction l with
  | nil => intro a; simp
  | cons o rest ih =>
    intro a
    obtain ⟨h1, h2, h3, h4⟩ := ih (a.step o)
    simp only [List.foldl_cons]
    rw [h1, h2, h3, h4]
    simp only [AnalyticsAcc.step, List.length_cons, List.map_cons, List.sum_cons]
    refine ⟨by omega, by ring, by ring, ?_⟩
    cases ho : o.totals.total <;> simp [List.filter_cons, ho]
    omega

/-- C18. For a window that contains at least one order, all orders in it
carrying the `totals.total` the schema requires, `getAnalytics` returns one
summary: `totalOrders` is the number of orders in the window, `totalRevenue` is
the sum of their `totals.total` whatever their status, and `averageOrderValue`
is `totalRevenue / totalOrders`. -/
theorem getAnalytics_summary (orders : List Order) (startDate endDate : Option Date)
    (now : Date) (hne : ∃ o ∈ orders, inWindow startDate endDate now o = true)
    (hreq : ∀ o ∈ orders, inWindow startDate endDate now o = true → o.totals.total ≠ none) :
    ∃ summary, getAnalytics orders startDate endDate now = [summary] ∧
      summary.totalOrders = (orders.filter (inWindow startDate endDate now)).length ∧
      summary.totalRevenue =
        ((orders.filter (inWindow startDate endDate now)).map
          (fun o => o.totals.total.getD 0)).sum ∧
      summary.averageOrderValue = some (summary.totalRevenue / summary.totalOrders) := by
  obtain ⟨o, ho, hw⟩ := hne
  have hmem : o ∈ orders.filter (inWindow startDate endDate now) :=
    List.mem_filter.mpr ⟨ho, hw⟩
  have hall : (orders.filter (inWindow startDate endDate now)).filter
      (fun o => o.totals.total.isSome) = orders.filter (inWindow startDate endDate now) := by
    rw [List.filter_eq_self]
    intro x hx
    obtain ⟨hx1, hx2⟩ := List.mem_filter.mp hx
    have := hreq x hx1 hx2
    cases hx3 : x.totals.total with
    | none => exact absurd hx3 this
    | some v => rfl
  unfold getAnalytics
  cases hl : orders.filter (inWindow startDate endDate now) with
  | nil => rw [hl] at hmem; exact absurd hmem (List.not_mem_nil _)
  | cons x rest =>
    rw [hl] at hall
    obtain ⟨h1, h2, h3, h4⟩ := analytics_foldl (x :: rest) AnalyticsAcc.init
    rw [hall] at h4
    refine ⟨_, rfl, ?_, ?_, ?_⟩
    · show (List.foldl AnalyticsAcc.step AnalyticsAcc.init (x :: rest)).totalOrders = _
      rw [h1]
      simp [AnalyticsAcc.init]
    · show (List.foldl AnalyticsAcc.step AnalyticsAcc.init (x :: rest)).totalRevenue = _
      rw [h2]
      simp [AnalyticsAcc.init]
    · show (if (List.foldl AnalyticsAcc.step AnalyticsAcc.init (x :: rest)).avgCount = 0 then none
        else some ((List.foldl AnalyticsAcc.step AnalyticsAcc.init (x :: rest)).avgSum /
          (List.foldl AnalyticsAcc.step AnalyticsAcc.init (x :: rest)).avgCount)) =
        some ((List.foldl AnalyticsAcc.step AnalyticsAcc.init (x :: rest)).totalRevenue /
          (List.foldl AnalyticsAcc.step AnalyticsAcc.init (x :: rest)).totalOrders)
      rw [h1, h2, h3, h4]
      simp [AnalyticsAcc.init]

set_option maxRecDepth 8000 in
/-- C18 on the scenario collection: the delivered order (total 300) and the
cancelled order (total 500) are both counted, revenue 800, average 400. -/
theorem getAnalytics_summary_scenario :
    getAnalytics scenarioOrders none none queryNow
      = [{ totalOrders := 2, totalRevenue := 800, averageOrderValue := some 400
           pendingOrders := 0, deliveredOrders := 1, cancelledOrders := 1 }] ∧
    (∃ summary, getAnalytics scenarioOrders none none queryNow = [summary] ∧
      summary.totalOrders = (scenarioOrders.filter (inWindow none none queryNow)).length ∧
      summary.totalRevenue =
        ((scenarioOrders.filter (inWindow none none queryNow)).map
          (fun o => o.totals.total.getD 0)).sum ∧
      summary.averageOrderValue = some (summary.totalRevenue / summary.totalOrders)) :=
  ⟨by decide!,
    getAnalytics_summary scenarioOrders none none queryNow
      ⟨deliveredOrderA, by decide, by decide⟩ (by decide)⟩

/-! ## Auxiliary lemmas: decimal rendering -/

theorem decimalDigits_length (k n : Nat) : (decimalDigits k n).length = k := by
  induction k generalizing n with
  | zero => rfl
  | succ k ih => simp [decimalDigits, ih]

theorem digitChar_isDigit (d : Nat) (h : d < 10) : (Nat.digitChar d).isDigit = true := by
  interval_cases d <;> decide

theorem decimalDigits_isDigit (k n : Nat) : ∀ c ∈ decimalDigits k n, c.isDigit = true := by
  induction k generalizing n with
  | zero => simp [decimalDigits]
  | succ k ih =>
    intro c hc
    simp only [decimalDigits, List.mem_append, List.mem_singleton] at hc
    rcases hc with hc | hc
    · exact ih _ c hc
    · rw [hc]
      exact digitChar_isDigit _ (Nat.mod_lt _ (by decide))

/-- With enough fuel, the digits of a number with exactly `k + 1` digits. -/
theorem toDigitsCore_exact (k : Nat) :
    ∀ (n fuel : Nat) (ds : List Char), n < fuel → n < 10 ^ (k + 1) → (10 ^ k ≤ n ∨ k = 0) →
      Nat.toDigitsCore 10 fuel n ds = decimalDigits (k + 1) n ++ ds := by
  induction k with
  | zero =>
    intro n fuel ds hf hlt _
    cases fuel with
    | zero => omega
    | succ f =>
      have h0 : n / 10 = 0 := by omega
      simp [Nat.toDigitsCore, h0, decimalDigits]
  | succ k ih =>
    intro n fuel ds hf hlt hge
    have hge' : 10 ^ (k + 1) ≤ n := by
      rcases hge with h | h
      · exact h
      · omega
    cases fuel with
    | zero => omega
    | succ f =>
      have hpow : 10 ^ (k + 1) = 10 * 10 ^ k := by rw [pow_succ, mul_comm]
      have hpow2 : 10 ^ (k + 1 + 1) = 10 * 10 ^ (k + 1) := by rw [pow_succ, mul_comm]
      have hk : 1 ≤ 10 ^ k := Nat.one_le_pow _ _ (by decide)
      have h1 : n / 10 ≠ 0 := by omega
      have h2 : n / 10 < f := by omega
      have h3 : n / 10 < 10 ^ (k + 1) := by omega
      have h4 : 10 ^ k ≤ n / 10 := by omega
      rw [Nat.toDigitsCore]
      simp only [h1, if_false]
      rw [ih (n / 10) f _ h2 h3 (Or.inl h4)]
      conv_rhs => rw [decimalDigits]
      simp

/-- With enough fuel, the last `k + 1` digits of a number with at least that many. -/
theorem toDigitsCore_suffix (k : Nat) :
    ∀ (n fuel : Nat) (ds : List Char), n < fuel → 10 ^ k ≤ n →
      ∃ pre, Nat.toDigitsCore 10 fuel n ds = pre ++ decimalDigits (k + 1) n ++ ds := by
  induction k with
  | zero =>
    intro n fuel ds hf _
    induction fuel generalizing n ds with
    | zero => omega
    | succ f ihf =>
      rw [Nat.toDigitsCore]
      by_cases h0 : n / 10 = 0
      · exact ⟨[], by simp [h0, decimalDigits]⟩
      · simp only [h0, if_false]
        have h2 : n / 10 < f := by omega
        have h3 : 10 ^ 0 ≤ n / 10 := by simp; omega
        obtain ⟨pre, hpre⟩ := ihf (n / 10) (Nat.digitChar (n % 10) :: ds) h2 h3
        exact ⟨pre ++ decimalDigits 1 (n / 10), by rw [hpre]; simp [decimalDigits]⟩
  | succ k ih =>
    intro n fuel ds hf hge
    cases fuel with
    | zero => omega
    | succ f =>
      have hpow : 10 ^ (k + 1) = 10 * 10 ^ k := by rw [pow_succ, mul_comm]
      have hk : 1 ≤ 10 ^ k := Nat.one_le_pow _ _ (by decide)
      have h1 : n / 10 ≠ 0 := by omega
      have h2 : n / 10 < f := by omega
      have h4 : 10 ^ k ≤ n / 10 := by omega
      rw [Nat.toDigitsCore]
      simp only [h1, if_false]
      obtain ⟨pre, hpre⟩ := ih (n / 10) f (Nat.digitChar (n % 10) :: ds) h2 h4
      refine ⟨pre, ?_⟩
      rw [hpre]
      conv_rhs => rw [decimalDigits]
      simp

theorem toString_nat (n : Nat) : toString n = String.mk (Nat.toDigits 10 n) := rfl

/-- The call `slice(-8)` on the decimal rendering of a number of at least eight
digits gives its last eight digits. -/
theorem sliceLast8_toString (n : Nat) (h : 10 ^ 7 ≤ n) :
    sliceLast8 (toString n) = String.mk (decimalDigits 8 n) := by
  obtain ⟨pre, hpre⟩ := toDigitsCore_suffix 7 n (n + 1) [] (Nat.lt_succ_self n) h
  have hd : Nat.toDigits 10 n = pre ++ decimalDigits 8 n := by
    simpa [Nat.toDigits] using hpre
  rw [toString_nat, sliceLast8, hd]
  simp [String.toList, decimalDigits_length]

/-- Padding the decimal rendering of a number below 1000 to three places gives
its three decimal digits. -/
theorem padStart3_toString (n : Nat) (h : n < 1000) :
    padStart3 (toString n) = String.mk (decimalDigits 3 n) := by
  rw [toString_nat, padStart3]
  by_cases h1 : n < 10
  · have hd : Nat.toDigits 10 n = decimalDigits 1 n := by
      simpa [Nat.toDigits] using
        toDigitsCore_exact 0 n (n + 1) [] (Nat.lt_succ_self n) (by simpa using h1) (Or.inr rfl)
    have hz : n / 10 = 0 := by omega
    rw [hd]
    simp [String.toList, decimalDigits, hz, List.replicate]
    rfl
  · by_cases h2 : n < 100
    · have hd : Nat.toDigits 10 n = decimalDigits 2 n := by
        simpa [Nat.toDigits] using
          toDigitsCore_exact 1 n (n + 1) [] (Nat.lt_succ_self n) (by simpa using h2)
            (Or.inl (by simpa using Nat.le_of_not_lt h1))
      have hz : n / 10 / 10 = 0 := by omega
      rw [hd]
      simp [String.toList, decimalDigits, hz, List.replicate]
      rfl
    · have hd : Nat.toDigits 10 n = decimalDigits 3 n := by
        simpa [Nat.toDigits] using
          toDigitsCore_exact 2 n (n + 1) [] (Nat.lt_succ_self n) (by simpa using h)
            (Or.inl (by simpa using Nat.le_of_not_lt h2))
      rw [hd]
      simp [String.toList, decimalDigits_length]

/-- The floor of a thousand times a draw from `[0, 1)` is a natural number below 1000. -/
theorem floor_random (r : ℚ) (h0 : 0 ≤ r) (h1 : r < 1) :
    ∃ m : Nat, m < 1000 ∧ Rat.floor (r * 1000) = (m : ℤ) := by
  have hlo : (0 : ℤ) ≤ Rat.floor (r * 1000) := by
    rw [Rat.le_floor]
    simpa using mul_nonneg h0 (by norm_num : (0 : ℚ) ≤ 1000)
  have hhi : ¬ ((1000 : ℤ) ≤ Rat.floor (r * 1000)) := by
    rw [Rat.le_floor]
    push_cast
    intro hc
    have : r * 1000 < 1000 := by linarith
    linarith
  refine ⟨(Rat.floor (r * 1000)).toNat, ?_, (Int.toNat_of_nonneg hlo).symm⟩
  omega

theorem toString_int_ofNat (m : Nat) : toString ((m : ℕ) : ℤ) = toString m := rfl

/-- The generated order number, for a timestamp of at least eight digits and a
draw from `[0, 1)`. -/
theorem generateOrderNumber_eq (env : Env) (hnow : 10 ^ 7 ≤ env.now) (h0 : 0 ≤ env.random)
    (h1 : env.random < 1) :
    generateOrderNumber env =
      "ORD-" ++ String.mk (decimalDigits 8 env.now) ++ "-" ++
        String.mk (decimalDigits 3 (Rat.floor (env.random * 1000)).toNat) := by
  obtain ⟨m, hm, hfloor⟩ := floor_random env.random h0 h1
  unfold generateOrderNumber
  simp only []
  rw [sliceLast8_toString _ hnow, hfloor, toString_int_ofNat, padStart3_toString _ hm]
  simp

/-! ## Order number -/

/-- C20. The first pre-save hook leaves a non-empty order number unchanged. For
an order without one, a timestamp of at least eight decimal digits and a random
draw in `[0, 1)`, it sets the number to `ORD-`, the last eight digits of the
timestamp, `-`, and the three decimal digits of `floor(random * 1000)`. -/
theorem preSave_orderNumber (env : Env) (o : Order) :
    (truthy o.orderNumber = true →
      (preSaveOrderNumberTotals env o).orderNumber = o.orderNumber) ∧
    (truthy o.orderNumber = false → 10 ^ 7 ≤ env.now → 0 ≤ env.random → env.random < 1 →
      (preSaveOrderNumberTotals env o).orderNumber =
        some ("ORD-" ++ String.mk (decimalDigits 8 env.now) ++ "-" ++
          String.mk (decimalDigits 3 (Rat.floor (env.random * 1000)).toNat)) ∧
      (decimalDigits 8 env.now).length = 8 ∧
      (decimalDigits 3 (Rat.floor (env.random * 1000)).toNat).length = 3 ∧
      (∀ c ∈ decimalDigits 8 env.now ++
          decimalDigits 3 (Rat.floor (env.random * 1000)).toNat, c.isDigit = true)) := by
  constructor
  · intro h
    unfold preSaveOrderNumberTotals
    by_cases h2 : o.items.length > 0 <;> simp [h, h2]
  · intro h hnow h0 h1
    refine ⟨?_, decimalDigits_length _ _, decimalDigits_length _ _, ?_⟩
    · rw [← generateOrderNumber_eq env hnow h0 h1]
      unfold preSaveOrderNumberTotals
      by_cases h2 : o.items.length > 0 <;> simp [h, h2]
    · intro c hc
      rcases List.mem_append.mp hc with hc | hc
      · exact decimalDigits_isDigit _ _ c hc
      · exact decimalDigits_isDigit _ _ c hc

/-- C20 on documents: the pending order keeps `ORD-00000123-042`; the order
without a number, at time 1730000100123 with draw 1/3, gets `ORD-00100123-333`. -/
theorem preSave_orderNumber_examples :
    (preSaveOrderNumberTotals sampleEnv pendingOrder).orderNumber = some "ORD-00000123-042" ∧
    (preSaveOrderNumberTotals sampleEnv unnumberedOrder).orderNumber
      = some "ORD-00100123-333" := by
  have h1 := (preSave_orderNumber sampleEnv pendingOrder).1 (by decide)
  have h2 := ((preSave_orderNumber sampleEnv unnumberedOrder).2 (by decide) (by decide)
    (by norm_num [sampleEnv]) (by norm_num [sampleEnv])).1
  refine ⟨h1, ?_⟩
  rw [h2]
  decide!

/-! ## The IV and the token -/

theorem join_toList (a x : String) : (a ++ ":" ++ x).toList = a.toList ++ ':' :: x.toList := by
  simp [String.toList]

theorem partBeforeColon_join (a x : String) (h : ':' ∉ a.toList) :
    partBeforeColon (a ++ ":" ++ x) = a := by
  unfold partBeforeColon
  rw [join_toList, takeWhile_token _ _ h]
  rfl

theorem partAfterColon_join (a x : String) (h : ':' ∉ a.toList) (hx : ':' ∉ x.toList) :
    partAfterColon (a ++ ":" ++ x) = x := by
  unfold partAfterColon
  rw [join_toList, dropWhile_token _ _ h]
  simp only [List.drop_succ_cons, List.drop_zero]
  rw [takeWhile_ne_of_not_mem _ hx]
  rfl

/-- Decryption of a token `a:x` whose two parts are non-empty and free of `:`. -/
theorem decrypt_join (C : Cipher) (a x : String) (ha : a ≠ "") (hac : ':' ∉ a.toList)
    (hx : x ≠ "") (hxc : ':' ∉ x.toList) :
    decrypt C (some (a ++ ":" ++ x)) =
      match C.decipherUtf8 x with
      | some decrypted => some decrypted
      | none => some (a ++ ":" ++ x) := by
  rw [decrypt_some, partBeforeColon_join a x hac, partAfterColon_join a x hac hxc]
  have hn : ¬ (a ++ ":" ++ x = "" ∨ ':' ∉ (a ++ ":" ++ x).toList ∨ a = "" ∨ x = "") := by
    rintro (h | h | h | h)
    · have := congrArg String.toList h
      rw [join_toList] at this
      simp [String.toList] at this
    · exact h (by rw [join_toList]; simp)
    · exact ha h
    · exact hx h
  rw [if_neg hn]

/-- C21 as stated fails: two tokens with different non-empty IV parts and the
same cipher part, one that does not decipher, give different results, each its
own token. -/
theorem decrypt_fallback_keeps_iv :
    partAfterColon "0011:zz" = partAfterColon "ffee:zz" ∧
    partBeforeColon "0011:zz" ≠ "" ∧ partBeforeColon "ffee:zz" ≠ "" ∧
    decrypt sampleCipher (some "0011:zz") = some "0011:zz" ∧
    decrypt sampleCipher (some "ffee:zz") = some "ffee:zz" ∧
    decrypt sampleCipher (some "0011:zz") ≠ decrypt sampleCipher (some "ffee:zz") := by
  decide

/-- C21 amended. For every plaintext and every two IVs the part of the token
after the `:` is the same. For every token `a:x` with non-empty parts free of
`:` whose cipher part `x` deciphers, the result of `decrypt` is the deciphered
text whatever the IV part `a` is; when `x` does not decipher, the result is the
token itself, IV part included. -/
theorem iv_affects_only_token_head (C : Cipher) (iv₁ iv₂ : List (Fin 256))
    (text : Option String) (a b x : String) (ha : a ≠ "") (hb : b ≠ "")
    (hac : ':' ∉ a.toList) (hbc : ':' ∉ b.toList) (hx : x ≠ "") (hxc : ':' ∉ x.toList) :
    (encrypt C iv₁ text).map restAfterColon = (encrypt C iv₂ text).map restAfterColon ∧
    (∀ d, C.decipherUtf8 x = some d →
      decrypt C (some (a ++ ":" ++ x)) = some d ∧ decrypt C (some (b ++ ":" ++ x)) = some d) ∧
    (C.decipherUtf8 x = none →
      decrypt C (some (a ++ ":" ++ x)) = some (a ++ ":" ++ x) ∧
      decrypt C (some (b ++ ":" ++ x)) = some (b ++ ":" ++ x)) := by
  refine ⟨?_, ?_, ?_⟩
  · cases text with
    | none => rfl
    | some p =>
      by_cases hp : p = ""
      · subst hp
        simp [encrypt, truthy]
      · rw [encrypt_some C iv₁ p hp, encrypt_some C iv₂ p hp]
        simp only [Option.map_some', restAfterColon, token_toList,
          dropWhile_token _ _ (colon_not_mem_hexChars _)]
  · intro d hd
    rw [decrypt_join C a x ha hac hx hxc, decrypt_join C b x hb hbc hx hxc, hd]
    exact ⟨rfl, rfl⟩
  · intro hd
    rw [decrypt_join C a x ha hac hx hxc, decrypt_join C b x hb hbc hx hxc, hd]
    exact ⟨rfl, rfl⟩

/-- C21 amended, on tokens: the cipher part `416d696e61` deciphers to `Amina`
under the IV parts `0011` and `ffee` alike. -/
theorem iv_affects_only_token_head_amina :
    decrypt sampleCipher (some "0011:416d696e61") = some "Amina" ∧
    decrypt sampleCipher (some "ffee:416d696e61") = some "Amina" :=
  (iv_affects_only_token_head sampleCipher sampleIvA sampleIvB (some "Amina") "0011" "ffee"
    "416d696e61" (by decide) (by decide) (by decide) (by decide) (by decide)
    (by decide)).2.1 "Amina" (by decide)

/-! ## Groups and counts -/

theorem linesOf_unwindItems (k : Option ObjectId) (orders : List Order) :
    linesOf k (unwindItems orders) = (orders.map (fun o => linesOf k o.items)).sum := by
  induction orders with
  | nil => simp [unwindItems, linesOf]
  | cons o rest ih => simp [unwindItems, linesOf_append, ih]

/-- The number of orders that list a product is at most the number of line
items that reference it. -/
theorem listing_orders_le_lines (k : Option ObjectId) (orders : List Order) :
    (orders.filter (fun o => 0 < linesOf k o.items)).length
      ≤ (orders.map (fun o => linesOf k o.items)).sum := by
  induction orders with
  | nil => simp
  | cons o rest ih =>
    by_cases h : 0 < linesOf k o.items
    · simp only [List.filter_cons, h, decide_True, if_true, List.length_cons, List.map_cons,
        List.sum_cons]
      omega
    · simp only [List.filter_cons, h, decide_False, List.map_cons, List.sum_cons]
      simp only [Bool.false_eq_true, if_false]
      omega

/-- The inequality is strict as soon as one order lists the product twice. -/
theorem listing_orders_lt_lines (k : Option ObjectId) (orders : List Order)
    (h : ∃ o ∈ orders, 2 ≤ linesOf k o.items) :
    (orders.filter (fun o => 0 < linesOf k o.items)).length
      < (orders.map (fun o => linesOf k o.items)).sum := by
  induction orders with
  | nil =>
    obtain ⟨o, ho, _⟩ := h
    exact absurd ho (List.not_mem_nil _)
  | cons o rest ih =>
    obtain ⟨o', ho', h2⟩ := h
    rcases List.mem_cons.mp ho' with he | hr
    · subst he
      have hpos : 0 < linesOf k o'.items := by omega
      have := listing_orders_le_lines k rest
      simp only [List.filter_cons, hpos, decide_True, if_true, List.length_cons, List.map_cons,
        List.sum_cons]
      omega
    · have := ih ⟨o', hr, h2⟩
      by_cases h : 0 < linesOf k o.items
      · simp only [List.filter_cons, h, decide_True, if_true, List.length_cons, List.map_cons,
          List.sum_cons]
        omega
      · simp only [List.filter_cons, h, decide_False, List.map_cons, List.sum_cons]
        simp only [Bool.false_eq_true, if_false]
        omega

/-- C22. In the result of `getTopProducts` no product reference occurs in two
groups; a group's `orderCount` is the number of line items that reference its
product in the orders inside the window that are not cancelled; that number is
at least the number of those orders that list the product, and greater as soon
as one of them lists the product in more than one line item. -/
theorem getTopProducts_orderCount (orders : List Order) (limit : Option Nat)
    (startDate endDate : Option Date) (now : Date) (groups : List ProductGroup)
    (h : getTopProducts orders limit startDate endDate now = some groups) :
    (groups.map ProductGroup.id).Nodup ∧
    ∀ g ∈ groups,
      g.orderCount =
        ((orders.filter (matchTopProducts startDate endDate now)).map
          (fun o => (o.items.filter (fun it => it.product = g.id)).length)).sum ∧
      ((orders.filter (matchTopProducts startDate endDate now)).filter
          (fun o => 0 < (o.items.filter (fun it => it.product = g.id)).length)).length
        ≤ g.orderCount ∧
      ((∃ o ∈ orders.filter (matchTopProducts startDate endDate now),
          2 ≤ (o.items.filter (fun it => it.product = g.id)).length) →
        ((orders.filter (matchTopProducts startDate endDate now)).filter
            (fun o => 0 < (o.items.filter (fun it => it.product = g.id)).length)).length
          < g.orderCount) := by
  obtain ⟨_, hgroups⟩ := getTopProducts_some _ _ _ _ _ _ h
  have hinv := groupsOf_groupByProduct
    (unwindItems (orders.filter (matchTopProducts startDate endDate now)))
  constructor
  · rw [hgroups]
    have hperm := (List.perm_insertionSort byTotalQuantityDesc
      (groupByProduct (unwindItems (orders.filter
        (matchTopProducts startDate endDate now))))).map ProductGroup.id
    have hnd : ((sortedProductGroups orders startDate endDate now).map ProductGroup.id).Nodup :=
      hperm.nodup_iff.mpr hinv.1
    exact hnd.sublist ((List.take_sublist _ _).map _)
  · intro g hg
    rw [hgroups] at hg
    have hmem := (mem_sortedProductGroups orders startDate endDate now g).mp
      (List.mem_of_mem_take hg)
    obtain ⟨_, _, hc, _⟩ := hinv.2.1 g hmem
    rw [linesOf_unwindItems] at hc
    refine ⟨hc, ?_, ?_⟩
    · rw [hc]
      exact listing_orders_le_lines g.id _
    · intro hex
      rw [hc]
      exact listing_orders_lt_lines g.id _ hex

set_option maxRecDepth 8000 in
/-- C22 on a collection of one order that lists product `A` in two line items:
one group, with `orderCount` 2, for one order. -/
theorem getTopProducts_orderCount_example :
    getTopProducts [doubleLineOrderA] none none none queryNow
      = some [{ id := some productA, totalQuantity := 3, totalRevenue := 300, orderCount := 2
                productName := { en := some "Lamp", fr := some "Lampe", ar := none }
                sku := some "LMP-1" }] ∧
    (([doubleLineOrderA].filter (matchTopProducts none none queryNow)).filter
        (fun o => 0 < (o.items.filter (fun it => it.product = some productA)).length)).length
      < 2 := by
  have h : getTopProducts [doubleLineOrderA] none none none queryNow
      = some [{ id := some productA, totalQuantity := 3, totalRevenue := 300, orderCount := 2
                productName := { en := some "Lamp", fr := some "Lampe", ar := none }
                sku := some "LMP-1" }] := by decide!
  refine ⟨h, ?_⟩
  exact ((getTopProducts_orderCount [doubleLineOrderA] none none none queryNow _ h).2 _
    (List.mem_singleton.mpr rfl)).2.2 ⟨doubleLineOrderA, by decide, by decide⟩

/-- The three status counters of `getAnalytics` never exceed the order counter. -/
theorem analytics_foldl_counts (l : List Order) :
    ∀ a : AnalyticsAcc,
      a.pendingOrders + a.deliveredOrders + a.cancelledOrders ≤ a.totalOrders →
      (l.foldl AnalyticsAcc.step a).pendingOrders + (l.foldl AnalyticsAcc.step a).deliveredOrders
        + (l.foldl AnalyticsAcc.step a).cancelledOrders
        ≤ (l.foldl AnalyticsAcc.step a).totalOrders := by
  induction l with
  | nil => intro a h; simpa using h
  | cons o rest ih =>
    intro a h
    rw [List.foldl_cons]
    apply ih
    show a.pendingOrders + (if o.status == some "pending" then 1 else 0)
      + (a.deliveredOrders + (if o.status == some "delivered" then 1 else 0))
      + (a.cancelledOrders + (if o.status == some "cancelled" then 1 else 0))
      ≤ a.totalOrders + 1
    cases hs : o.status with
    | none => simp; omega
    | some s =>
      by_cases h1 : s = "pending"
      · subst h1; simp; omega
      · by_cases h2 : s = "delivered"
        · subst h2; simp; omega
        · by_cases h3 : s = "cancelled"
          · subst h3; simp; omega
          · simp [h1, h2, h3]; omega

/-- C23. When no order of the collection lies in the window, `getAnalytics`
returns no summary at all; every summary it returns has `totalOrders` at least
1 and `pendingOrders + deliveredOrders + cancelledOrders` at most `totalOrders`. -/
theorem getAnalytics_empty_or_counted (orders : List Order) (startDate endDate : Option Date)
    (now : Date) :
    ((∀ o ∈ orders, inWindow startDate endDate now o = false) →
      getAnalytics orders startDate endDate now = []) ∧
    ∀ summary ∈ getAnalytics orders startDate endDate now,
      summary.pendingOrders + summary.deliveredOrders + summary.cancelledOrders
        ≤ summary.totalOrders ∧
      1 ≤ summary.totalOrders := by
  constructor
  · intro h
    have : orders.filter (inWindow startDate endDate now) = [] := by
      rw [List.filter_eq_nil_iff]
      intro o ho
      simp [h o ho]
    simp [getAnalytics, this]
  · intro summary hs
    unfold getAnalytics at hs
    cases hl : orders.filter (inWindow startDate endDate now) with
    | nil => simp [hl] at hs
    | cons x rest =>
      rw [hl] at hs
      simp only [List.mem_singleton] at hs
      subst hs
      constructor
      · exact analytics_foldl_counts (x :: rest) AnalyticsAcc.init (by simp [AnalyticsAcc.init])
      · show 1 ≤ (List.foldl AnalyticsAcc.step AnalyticsAcc.init (x :: rest)).totalOrders
        rw [(analytics_foldl (x :: rest) AnalyticsAcc.init).1]
        simp only [List.length_cons]
        omega

set_option maxRecDepth 8000 in
/-- C23 on the scenario collection: a window before any order gives no summary;
the default window gives the summary of two orders, one delivered, one cancelled. -/
theorem getAnalytics_empty_or_counted_examples :
    getAnalytics scenarioOrders (some 5) (some 6) queryNow = [] ∧
    (∀ summary ∈ getAnalytics scenarioOrders none none queryNow,
      summary.pendingOrders + summary.deliveredOrders + summary.cancelledOrders
        ≤ summary.totalOrders ∧
      1 ≤ summary.totalOrders) ∧
    (getAnalytics scenarioOrders none none queryNow).length = 1 :=
  ⟨(getAnalytics_empty_or_counted scenarioOrders (some 5) (some 6) queryNow).1 (by decide),
   (getAnalytics_empty_or_counted scenarioOrders none none queryNow).2,
   by decide⟩

/-! ## Auxiliary lemmas: slugs -/

theorem dash_not_alnum : isSlugAlnum '-' = false := by decide

theorem ne_dash_of_alnum (c : Char) (h : isSlugAlnum c = true) : c ≠ '-' := by
  intro e
  rw [e, dash_not_alnum] at h
  exact Bool.false_ne_true h

theorem replaceRuns_chars (l : List Char) :
    ∀ (b : Bool), ∀ c ∈ replaceRuns b l, isSlugAlnum c = true ∨ c = '-' := by
  induction l with
  | nil => intro b c hc; simp [replaceRuns] at hc
  | cons x xs ih =>
    intro b c hc
    unfold replaceRuns at hc
    by_cases hx : isSlugAlnum x = true
    · simp only [hx, if_true, List.mem_cons] at hc
      rcases hc with hc | hc
      · exact Or.inl (hc ▸ hx)
      · exact ih false c hc
    · cases b with
      | true =>
        simp only [hx, if_false, if_true] at hc
        exact ih true c hc
      | false =>
        simp only [hx, if_false, Bool.false_eq_true, List.mem_cons] at hc
        rcases hc with hc | hc
        · exact Or.inr hc
        · exact ih true c hc

/-- Inside a run, the next character written is not a dash. -/
theorem replaceRuns_true_head (l : List Char) : (replaceRuns true l).head? ≠ some '-' := by
  induction l with
  | nil => simp [replaceRuns]
  | cons x xs ih =>
    unfold replaceRuns
    by_cases hx : isSlugAlnum x = true
    · simp only [hx, if_true, List.head?_cons, ne_eq, Option.some.injEq]
      exact ne_dash_of_alnum x hx
    · simpa only [hx, if_false, if_true] using ih

theorem hasDoubleDash_cons (a : Char) (l : List Char)
    (h : a ≠ '-' ∨ l.head? ≠ some '-') :
    hasDoubleDash (a :: l) = hasDoubleDash l := by
  cases l with
  | nil => simp [hasDoubleDash]
  | cons b rest =>
    have hn : (a == '-' && b == '-') = false := by
      rcases h with h | h
      · simp [h]
      · have hb : b ≠ '-' := by simpa using h
        simp [hb]
    rw [hasDoubleDash, hn, Bool.false_or]

theorem hasDoubleDash_tail (a : Char) (l : List Char) (h : hasDoubleDash (a :: l) = false) :
    hasDoubleDash l = false := by
  cases l with
  | nil => rfl
  | cons b rest =>
    rw [hasDoubleDash, Bool.or_eq_false_iff] at h
    exact h.2

theorem hasDoubleDash_head (a b : Char) (l : List Char)
    (h : hasDoubleDash (a :: b :: l) = false) : ¬ (a = '-' ∧ b = '-') := by
  rw [hasDoubleDash, Bool.or_eq_false_iff] at h
  rintro ⟨ha, hb⟩
  simp [ha, hb] at h

theorem replaceRuns_noDoubleDash (l : List Char) :
    ∀ b : Bool, hasDoubleDash (replaceRuns b l) = false := by
  induction l with
  | nil => intro b; simp [replaceRuns, hasDoubleDash]
  | cons x xs ih =>
    intro b
    unfold replaceRuns
    by_cases hx : isSlugAlnum x = true
    · simp only [hx, if_true]
      rw [hasDoubleDash_cons _ _ (Or.inl (ne_dash_of_alnum x hx))]
      exact ih false
    · cases b with
      | true =>
        simp only [hx, if_false, if_true]
        exact ih true
      | false =>
        simp only [hx, if_false, Bool.false_eq_true]
        rw [hasDoubleDash_cons _ _ (Or.inr (replaceRuns_true_head xs))]
        exact ih true

theorem dropWhile_noDoubleDash (p : Char → Bool) (l : List Char)
    (h : hasDoubleDash l = false) : hasDoubleDash (l.dropWhile p) = false := by
  induction l with
  | nil => simpa using h
  | cons x xs ih =>
    rw [List.dropWhile_cons]
    split
    · exact ih (hasDoubleDash_tail x xs h)
    · exact h

theorem dropWhile_dash_head (l : List Char) :
    (l.dropWhile (fun c => c == '-')).head? ≠ some '-' := by
  intro h
  have := List.head?_dropWhile_not (fun c => c == '-') l
  rw [h] at this
  simp at this

theorem mem_dropTrailingDashes (l : List Char) : ∀ c ∈ dropTrailingDashes l, c ∈ l := by
  induction l with
  | nil => intro c hc; simp [dropTrailingDashes] at hc
  | cons x xs ih =>
    intro c hc
    unfold dropTrailingDashes at hc
    cases hr : dropTrailingDashes xs with
    | nil =>
      rw [hr] at hc
      simp only at hc
      split at hc
      · simp at hc
      · simp only [List.mem_singleton] at hc
        simp [hc]
    | cons r rs =>
      rw [hr] at hc ih
      simp only [List.mem_cons] at hc
      rcases hc with hc | hc
      · simp [hc]
      · exact List.mem_cons_of_mem _ (ih c (by simpa using hc))

theorem dropTrailingDashes_head (l : List Char) (h : Char)
    (hh : (dropTrailingDashes l).head? = some h) : l.head? = some h := by
  cases l with
  | nil => simp [dropTrailingDashes] at hh
  | cons x xs =>
    unfold dropTrailingDashes at hh
    cases hr : dropTrailingDashes xs with
    | nil =>
      rw [hr] at hh
      simp only at hh
      split at hh
      · simp at hh
      · simpa using hh
    | cons r rs =>
      rw [hr] at hh
      simpa using hh

theorem dropTrailingDashes_last (l : List Char) :
    (dropTrailingDashes l).getLast? ≠ some '-' := by
  induction l with
  | nil => simp [dropTrailingDashes]
  | cons x xs ih =>
    unfold dropTrailingDashes
    cases hr : dropTrailingDashes xs with
    | nil =>
      simp only
      split
      · simp
      · rename_i hx
        simpa using hx
    | cons r rs =>
      rw [hr] at ih
      simpa [List.getLast?_cons_cons] using ih

theorem dropTrailingDashes_noDoubleDash (l : List Char) (h : hasDoubleDash l = false) :
    hasDoubleDash (dropTrailingDashes l) = false := by
  induction l with
  | nil => simp [dropTrailingDashes, hasDoubleDash]
  | cons x xs ih =>
    have ih' := ih (hasDoubleDash_tail x xs h)
    unfold dropTrailingDashes
    cases hr : dropTrailingDashes xs with
    | nil =>
      simp only
      split <;> simp [hasDoubleDash]
    | cons r rs =>
      rw [hr] at ih'
      simp only
      have hhead : xs.head? = some r := dropTrailingDashes_head xs r (by rw [hr]; rfl)
      cases xs with
      | nil => simp at hhead
      | cons y ys =>
        simp only [List.head?_cons, Option.some.injEq] at hhead
        subst hhead
        have hn := hasDoubleDash_head x y ys h
        rw [hasDoubleDash, ih', Bool.or_false]
        by_cases hx : x = '-'
        · have hy : y ≠ '-' := fun e => hn ⟨hx, e⟩
          simp [hy]
        · simp [hx]

theorem dropTrailingDashes_fixed (l : List Char) (h : l.getLast? ≠ some '-') :
    dropTrailingDashes l = l := by
  induction l with
  | nil => rfl
  | cons x xs ih =>
    cases xs with
    | nil =>
      have hx : x ≠ '-' := by simpa using h
      simp [dropTrailingDashes, hx]
    | cons y ys =>
      have h' : (y :: ys).getLast? ≠ some '-' := by
        simpa [List.getLast?_cons_cons] using h
      have e := ih h'
      unfold dropTrailingDashes
      rw [e]

theorem dropWhile_dash_fixed (l : List Char) (h : l.head? ≠ some '-') :
    l.dropWhile (fun c => c == '-') = l := by
  cases l with
  | nil => rfl
  | cons x xs =>
    have hx : x ≠ '-' := by simpa using h
    simp [List.dropWhile_cons, hx]

/-- On a list of slug characters without double dash, the run replacement
changes nothing. -/
theorem replaceRuns_fixed (l : List Char) :
    (∀ c ∈ l, isSlugAlnum c = true ∨ c = '-') → hasDoubleDash l = false →
      replaceRuns false l = l ∧ (l.head? ≠ some '-' → replaceRuns true l = l) := by
  induction l with
  | nil => intro _ _; simp [replaceRuns]
  | cons x xs ih =>
    intro hok hdd
    have hok' : ∀ c ∈ xs, isSlugAlnum c = true ∨ c = '-' :=
      fun c hc => hok c (List.mem_cons_of_mem _ hc)
    obtain ⟨ih1, ih2⟩ := ih hok' (hasDoubleDash_tail x xs hdd)
    by_cases hx : isSlugAlnum x = true
    · constructor
      · rw [replaceRuns]; simp only [hx, if_true, ih1]
      · intro _
        rw [replaceRuns]; simp only [hx, if_true, ih1]
    · have hxd : x = '-' := by
        rcases hok x (List.mem_cons_self _ _) with h | h
        · exact absurd h hx
        · exact h
      have hhead : xs.head? ≠ some '-' := by
        cases xs with
        | nil => simp
        | cons y ys =>
          have := hasDoubleDash_head x y ys hdd
          simp only [List.head?_cons, ne_eq, Option.some.injEq]
          exact fun e => this ⟨hxd, e⟩
      constructor
      · rw [replaceRuns]
        simp only [hx, if_false, Bool.false_eq_true, ih2 hhead]
        rw [hxd]
      · intro hne
        exact absurd (by simp [hxd]) hne

theorem not_infix_of_noDoubleDash (l : List Char) (h : hasDoubleDash l = false) :
    ¬ (['-', '-'] <:+: l) := by
  induction l with
  | nil =>
    intro hi
    have := List.eq_nil_of_infix_nil hi
    simp at this
  | cons x xs ih =>
    intro hi
    rcases List.infix_cons_iff.mp hi with hp | hx
    · cases xs with
      | nil =>
        have := hp.length_le
        simp at this
      | cons y ys =>
        have hn := hasDoubleDash_head x y ys h
        rw [List.cons_prefix_cons] at hp
        obtain ⟨e1, hp2⟩ := hp
        rw [List.cons_prefix_cons] at hp2
        exact hn ⟨e1.symm, hp2.1.symm⟩
    · exact ih (hasDoubleDash_tail x xs h) hx

/-- The characters of a slug are slug characters. -/
theorem slugText_chars (lower : String → String) (name : String) :
    ∀ c ∈ (slugText lower name).toList, isSlugAlnum c = true ∨ c = '-' := by
  intro c hc
  have h1 : c ∈ stripDashes (replaceRuns false (lower name).toList) := hc
  have h2 := mem_dropTrailingDashes _ c h1
  have h3 := (List.dropWhile_suffix _).subset h2
  exact replaceRuns_chars _ false c h3

theorem slugText_head (lower : String → String) (name : String) :
    (slugText lower name).toList.head? ≠ some '-' := by
  intro h
  have h1 : (stripDashes (replaceRuns false (lower name).toList)).head? = some '-' := h
  exact dropWhile_dash_head _ (dropTrailingDashes_head _ _ h1)

theorem slugText_last (lower : String → String) (name : String) :
    (slugText lower name).toList.getLast? ≠ some '-' :=
  dropTrailingDashes_last _

theorem slugText_noDoubleDash (lower : String → String) (name : String) :
    hasDoubleDash (slugText lower name).toList = false :=
  dropTrailingDashes_noDoubleDash _
    (dropWhile_noDoubleDash _ _ (replaceRuns_noDoubleDash _ false))

/-- A string of slug characters that has no double dash and no dash at either
end is its own slug, when lower-casing leaves slug characters alone. -/
theorem slugText_fixed (lower : String → String)
    (hlow : ∀ s : String, (∀ c ∈ s.toList, isSlugAlnum c = true ∨ c = '-') → lower s = s)
    (s : String) (hok : ∀ c ∈ s.toList, isSlugAlnum c = true ∨ c = '-')
    (hdd : hasDoubleDash s.toList = false) (hh : s.toList.head? ≠ some '-')
    (hl : s.toList.getLast? ≠ some '-') : slugText lower s = s := by
  unfold slugText stripDashes
  rw [hlow s hok, (replaceRuns_fixed s.toList hok hdd).1, dropWhile_dash_fixed _ hh,
    dropTrailingDashes_fixed _ hl]
  rfl

theorem toLower_slug_char (c : Char) (h : isSlugAlnum c = true ∨ c = '-') : c.toLower = c := by
  have hn : ¬ (c.toNat ≥ 65 ∧ c.toNat ≤ 90) := by
    rcases h with h | h
    · simp only [isSlugAlnum, Bool.or_eq_true, Bool.and_eq_true, decide_eq_true_eq] at h
      rcases h with ⟨h1, _⟩ | ⟨_, h2⟩
      · have : (97 : Nat) ≤ c.toNat := h1
        omega
      · have : c.toNat ≤ (57 : Nat) := h2
        omega
    · subst h
      decide
  simp only [Char.toLower, hn, if_false]

/-- The stand-in lower-casing leaves strings of slug characters alone. -/
theorem asciiLower_fixes_slug (s : String)
    (h : ∀ c ∈ s.toList, isSlugAlnum c = true ∨ c = '-') : asciiLower s = s := by
  unfold asciiLower
  have : s.toList.map Char.toLower = s.toList := by
    conv_rhs => rw [← List.map_id s.toList]
    exact List.map_congr_left (fun c hc => toLower_slug_char c (h c hc))
  rw [this]
  rfl

/-! ## Slugs -/

/-- C24. For every name, when lower-casing leaves the characters `a-z`, `0-9`
and `-` alone, the English slug that the Product and Category pre-save hooks
generate contains only those characters, neither starts nor ends with `-`,
never contains two adjacent `-`, and is its own slug; both hooks store exactly
that slug when the slug is unset and the name is not empty. -/
theorem slugText_wellformed (lower : String → String)
    (hlow : ∀ s : String, (∀ c ∈ s.toList, isSlugAlnum c = true ∨ c = '-') → lower s = s)
    (name : String) :
    (∀ c ∈ (slugText lower name).toList, isSlugAlnum c = true ∨ c = '-') ∧
    (slugText lower name).toList.head? ≠ some '-' ∧
    (slugText lower name).toList.getLast? ≠ some '-' ∧
    ¬ (['-', '-'] <:+: (slugText lower name).toList) ∧
    slugText lower (slugText lower name) = slugText lower name ∧
    (∀ p : Product, truthy p.seoSlugEn = false → p.nameEn = some name → name ≠ "" →
      (p.preSaveSlugEn lower).seoSlugEn = some (slugText lower name)) ∧
    (∀ c : Category, truthy c.slugEn = false → c.nameEn = some name → name ≠ "" →
      (c.preSaveSlugEn lower).slugEn = some (slugText lower name)) := by
  have hset : lowercaseSetter lower (slugText lower name) = slugText lower name := by
    unfold lowercaseSetter
    split
    · exact hlow _ (slugText_chars lower name)
    · rfl
  refine ⟨slugText_chars lower name, slugText_head lower name, slugText_last lower name,
    not_infix_of_noDoubleDash _ (slugText_noDoubleDash lower name),
    slugText_fixed lower hlow _ (slugText_chars lower name) (slugText_noDoubleDash lower name)
      (slugText_head lower name) (slugText_last lower name), ?_, ?_⟩
  · intro p hs hn hne
    have ht : truthy (some name) = true := (truthy_some name).mpr hne
    simp [Product.preSaveSlugEn, hs, hn, ht, jsStr, hset]
  · intro c hs hn hne
    have ht : truthy (some name) = true := (truthy_some name).mpr hne
    simp [Category.preSaveSlugEn, hs, hn, ht, jsStr, hset]

/-- C24 on the name `  Moroccan Tea-Set (Large)! `: the slug is
`moroccan-tea-set-large`, it is its own slug, and the product hook stores it. -/
theorem slugText_wellformed_example :
    slugText asciiLower "  Moroccan Tea-Set (Large)! " = "moroccan-tea-set-large" ∧
    slugText asciiLower (slugText asciiLower "  Moroccan Tea-Set (Large)! ")
      = slugText asciiLower "  Moroccan Tea-Set (Large)! " ∧
    (Product.preSaveSlugEn asciiLower
        { nameEn := some "  Moroccan Tea-Set (Large)! ", seoSlugEn := none }).seoSlugEn
      = some (slugText asciiLower "  Moroccan Tea-Set (Large)! ") :=
  ⟨by decide,
   (slugText_wellformed asciiLower asciiLower_fixes_slug "  Moroccan Tea-Set (Large)! ").2.2.2.2.1,
   (slugText_wellformed asciiLower asciiLower_fixes_slug
      "  Moroccan Tea-Set (Large)! ").2.2.2.2.2.1 _ rfl rfl (by decide)⟩

end OrderModel
